import Mathlib

/-!
# CSV storage module (`Reusable modules/csv.c`): embedding and properties

The module keeps a table of open CSV files.  Each slot owns a stdio stream
opened in mode "a+" (reads happen at the stream cursor, writes always go to
the end of the file), a cached row count, a cached column count and a copy
of the path.

Conventions of the embedding:

* a file is the list of its bytes, a byte is a natural number below 256;
* `fgetc` yields the byte under the cursor as an `int`, or `EOF = -1` at the
  end of the file; where the source stores that result in a `char`, the
  embedding applies `to_char` (the platform has a signed 8-bit `char`), so
  a byte 255 reads as `EOF` exactly as in the source;
* a C string is the list of its bytes before the terminating NUL;
* the accessors `get_row_count` and `get_column_count` convert the stored
  `size_t` to `int`; inside the operations, where the source passes a count
  or a cell index through `int`, the embedding keeps the number, which is
  the same value while the number is below 2^31 (below 2^31 - 1 for a count
  that is raised by one); a row index is an `int` and becomes a `size_t`
  (64 bits) when the scanning loop compares against it;
* calls of fopen on the temporary file, remove and rename are taken to
  succeed; the result of the `fopen` in `open_csv_file` is a parameter;
* a loop that the source can run forever takes a fuel argument and yields
  `none` when the fuel is used up; `none` also stands for a call whose
  behaviour C leaves undefined (a handle outside the slot array, a NULL
  stream or a NULL string given to a library function).
-/

set_option linter.unusedVariables false

namespace Csv

/-! ## Constants and integer conversions -/

/-- Value returned by fgetc at the end of the file. -/
def EOF : Int := -1

/-- Error code: no such file or directory. -/
def ENOENT : Int := 2

/-- Error code: invalid argument, stored by a failing fseek. -/
def EINVAL : Int := 22

/-- Error code: too many open files in the system. -/
def ENFILE : Int := 23

/-- Number of slots of the table of open files. -/
def MAX_CONCURRENT_CSV_FILES : Nat := 1

/-- Conversion of an `int` to a signed 8-bit `char`. -/
def to_char (v : Int) : Int :=
  if 128 ≤ v % 256 then v % 256 - 256 else v % 256

/-- Conversion of a `char` to the byte that "%c" writes. -/
def to_byte (c : Int) : Nat := (c % 256).toNat

/-- Conversion of an `int` to a 64-bit `size_t`. -/
def size_t_of_int (v : Int) : Nat := (v % 18446744073709551616).toNat

/-- Conversion of a `size_t` to a 32-bit `int`: the value modulo 2^32, read
as a signed number. -/
def int_of_size_t (v : Nat) : Int :=
  if 2147483648 ≤ v % 4294967296 then ((v % 4294967296 : Nat) : Int) - 4294967296
  else ((v % 4294967296 : Nat) : Int)

/-! ## Data model -/

/-- Stream opened in mode "a+": the bytes of the file and the read cursor. -/
structure FILE where
  bytes : List Nat
  pos : Nat
deriving DecidableEq, Repr

/-- Row and column of a cell, both counted from zero. -/
structure cell_t where
  row : Nat
  column : Nat
deriving DecidableEq, Repr

/-- Slot of the table of open files; `p_file = none` is the NULL stream. -/
structure csv_file_t where
  p_file : Option FILE
  number_of_rows : Nat
  number_of_columns : Nat
  absolute_path : String
deriving DecidableEq, Repr

/-- Static variables of the module. -/
structure csv_module where
  s_csv_files : List csv_file_t
  s_number_of_open_files : Nat
  s_free_indexes : List Nat
  errno : Int
deriving DecidableEq, Repr

/-! ## Cursor navigation -/

/-- Inner loop of `go_to_row`: number of bytes read from the bytes ahead of
the cursor until a newline or `EOF` has been read. -/
def skip_line : List Nat → Nat
  | [] => 0
  | b :: rest =>
    if to_char b = 10 ∨ to_char b = EOF then 1 else skip_line rest + 1

/-- Inner loop of `go_to_column`, also the fast-forward loop of
`update_cell`: number of bytes read until a comma or `EOF` has been read. -/
def skip_field : List Nat → Nat
  | [] => 0
  | b :: rest =>
    if to_char b = 44 ∨ to_char b = EOF then 1 else skip_field rest + 1

/-- Outer loop of `go_to_row`: bytes read by the given number of rounds. -/
def scan_rows : Nat → List Nat → Nat
  | 0, _ => 0
  | k + 1, rest => skip_line rest + scan_rows k (rest.drop (skip_line rest))

/-- Outer loop of `go_to_column`: bytes read by the given number of rounds. -/
def scan_columns : Nat → List Nat → Nat
  | 0, _ => 0
  | k + 1, rest => skip_field rest + scan_columns k (rest.drop (skip_field rest))

/-- Source `go_to_row`: rewind, then read past `row` line ends. -/
def go_to_row (f : FILE) (row : Int) : FILE :=
  if row = 0 then { f with pos := 0 }
  else { f with pos := scan_rows (size_t_of_int row) f.bytes }

/-- Source `go_to_column`: from the cursor, read past `column` commas. -/
def go_to_column (f : FILE) (column : Int) : FILE :=
  if column = 0 then f
  else { f with pos := f.pos + scan_columns (size_t_of_int column) (f.bytes.drop f.pos) }

/-! ## Copy loops of the splice rewrite -/

/-- Copy loop of `update_cell`: the cursor is compared with the splice
offset before a byte is read.  Yields the bytes written to the temporary
file and the number of bytes read. -/
def copy_until (splice_offset : Nat) : Nat → List Nat → List Nat × Nat
  | _, [] => ([], 0)
  | pos, b :: rest =>
    if pos = splice_offset then ([], 0)
    else if to_char b = EOF then ([], 1)
    else
      let r := copy_until splice_offset (pos + 1) rest
      (to_byte (to_char b) :: r.1, r.2 + 1)

/-- Copy loop of `insert_row` and `delete_row`: a byte is read first and the
cursor is compared with the splice offset afterwards. -/
def copy_before (splice_offset : Nat) : Nat → List Nat → List Nat × Nat
  | _, [] => ([], 0)
  | pos, b :: rest =>
    if to_char b = EOF then ([], 1)
    else if pos + 1 = splice_offset then ([], 1)
    else
      let r := copy_before splice_offset (pos + 1) rest
      (to_byte (to_char b) :: r.1, r.2 + 1)

/-- Final loop of every splice rewrite: the bytes written until `EOF` is read. -/
def copy_rest : List Nat → List Nat
  | [] => []
  | b :: rest =>
    if to_char b = EOF then [] else to_byte (to_char b) :: copy_rest rest

/-- Loop of `delete_row` that reads until a newline has been read; the
result of fgetc is compared as an `int` and `EOF` does not end the loop.
Yields the number of bytes read. -/
def skip_to_newline : Nat → List Nat → Option Nat
  | 0, _ => none
  | fuel + 1, [] => skip_to_newline fuel []
  | fuel + 1, b :: rest =>
    if b = 10 then some 1 else (skip_to_newline fuel rest).map (· + 1)

/-- Source strcat with a one-character string: a NUL adds nothing. -/
def strcat (content_string : List Nat) (c : Int) : List Nat :=
  if c = 0 then content_string else content_string ++ [to_byte c]

/-- Read loop of `get_cell_contents`: only a comma ends it, because its
second test compares the address of the buffer with `EOF`.  Yields the
string and the number of bytes read. -/
def read_cell : Nat → List Nat → List Nat → Option (List Nat × Nat)
  | 0, _, _ => none
  | fuel + 1, [], content_string =>
    read_cell fuel [] (strcat content_string (to_char EOF))
  | fuel + 1, b :: rest, content_string =>
    if to_char b = 44 then some (content_string, 1)
    else (read_cell fuel rest (strcat content_string (to_char b))).map
      (fun r => (r.1, r.2 + 1))

/-- Loop writing the fields of a new record: each string and a comma. -/
def write_fields (data_array_to_insert : Nat → List Nat) : Nat → List Nat
  | 0 => []
  | idx + 1 =>
    write_fields data_array_to_insert idx ++ (data_array_to_insert idx ++ [44])

/-- Loop of `append_row` for a NULL array: one comma per column. -/
def write_commas : Nat → List Nat
  | 0 => []
  | idx + 1 => write_commas idx ++ [44]

/-- Field loop of `append_row`: the strings of the array with a comma each,
or only the commas when the array is NULL. -/
def append_fields (data_array_to_insert : Option (Nat → List Nat))
    (number_of_columns : Nat) : List Nat :=
  match data_array_to_insert with
  | some data => write_fields data number_of_columns
  | none => write_commas number_of_columns

/-! ## Operations on one slot -/

namespace csv_file_t

/-- Source `append_row` on the slot of the handle.  The array of strings is
a function from the index to the string found at
`data_array_to_insert + idx * memory_spacing`; `none` is the NULL array.
The source raises the count as `get_row_count() + 1` in `int`; here the
number is raised by one, the same value while the count is below
2^31 - 1. -/
def append_row (t : csv_file_t) (memory_spacing : Int)
    (data_array_to_insert : Option (Nat → List Nat)) : Option (Int × csv_file_t) :=
  match t.p_file with
  | none => none
  | some f =>
    if t.number_of_rows ≠ 0 ∧ f.bytes = [] then
      -- fseek(-1, SEEK_END) fails on an empty file
      some (EINVAL, t)
    else
      let bytes1 :=
        if t.number_of_rows ≠ 0 ∧ f.bytes.getLast? ≠ some 10 then f.bytes ++ [10]
        else f.bytes
      let bytes2 := bytes1 ++ append_fields data_array_to_insert t.number_of_columns ++ [10]
      some (0, { t with p_file := some ⟨bytes2, bytes2.length⟩,
                        number_of_rows := t.number_of_rows + 1 })

/-- Loop at the head of `update_cell`: the given number of calls of
`append_row` with a NULL array, their results ignored. -/
def pad_rows : Nat → csv_file_t → Option csv_file_t
  | 0, t => some t
  | k + 1, t =>
    match append_row t 0 none with
    | none => none
    | some r => pad_rows k r.2

/-- Source `update_cell` on the slot of the handle.  The source hands
`cell.row` and `cell.column` to `int` parameters and starts the padding loop
from the `int` row count; here the numbers are used as they are, the same
values while they are below 2^31. -/
def update_cell (t : csv_file_t) (data_to_insert : List Nat) (cell : cell_t) :
    Option (Int × csv_file_t) :=
  match pad_rows (cell.row - t.number_of_rows) t with
  | none => none
  | some t1 =>
    match t1.p_file with
    | none => none
    | some f =>
      let splice_offset := (go_to_column (go_to_row f cell.row) cell.column).pos
      let copied := copy_until splice_offset 0 f.bytes
      let temp1 := copied.1 ++ (data_to_insert ++ [44])
      let pos2 := copied.2 + skip_field (f.bytes.drop copied.2)
      let temp2 := temp1 ++ copy_rest (f.bytes.drop pos2)
      some (0, { t1 with p_file := some ⟨temp2, 0⟩ })

/-- Source `insert_row` on the slot of the handle.  The count is raised as
in `append_row`. -/
def insert_row (t : csv_file_t) (row_to_insert_before : Int) (memory_spacing : Int)
    (data_array_to_insert : Option (Nat → List Nat)) : Option (Int × csv_file_t) :=
  let row := if row_to_insert_before < -1 then 0 else row_to_insert_before
  let appended :=
    if row = -1 then (append_row t memory_spacing data_array_to_insert).map (·.2)
    else some t
  match appended with
  | none => none
  | some t1 =>
    match t1.p_file with
    | none => none
    | some f =>
      let splice_offset := (go_to_row f row).pos
      let copied := copy_before splice_offset 0 f.bytes
      -- "%s" is given a string of the array in every round of the loop
      let fields :=
        match data_array_to_insert with
        | some data => some (write_fields data t1.number_of_columns)
        | none => if t1.number_of_columns = 0 then some [] else none
      match fields with
      | none => none
      | some record =>
        let temp1 := copied.1 ++ [10] ++ record ++ [10]
        let temp2 := temp1 ++ copy_rest (f.bytes.drop copied.2)
        some (0, { t1 with p_file := some ⟨temp2, 0⟩,
                           number_of_rows := t1.number_of_rows + 1 })

/-- Source `delete_row` on the slot of the handle. -/
def delete_row (t : csv_file_t) (fuel : Nat) (row_to_delete : Int) :
    Option (Int × csv_file_t) :=
  match t.p_file with
  | none => none
  | some f =>
    let splice_offset := (go_to_row f row_to_delete).pos
    let copied := copy_before splice_offset 0 f.bytes
    match skip_to_newline fuel (f.bytes.drop copied.2) with
    | none => none
    | some n =>
      -- fseek(-1, SEEK_CUR) steps back onto the newline
      let pos2 := copied.2 + n - 1
      let temp := copied.1 ++ copy_rest (f.bytes.drop pos2)
      some (0, { t with p_file := some ⟨temp, 0⟩,
                        number_of_rows := size_t_of_int ((t.number_of_rows : Int) - 1) })

/-- Source `update_row` on the slot of the handle. -/
def update_row (t : csv_file_t) (fuel : Nat) (row : Int) (width_of_string : Int)
    (data_array_to_insert : Option (Nat → List Nat)) : Option (Int × csv_file_t) :=
  match delete_row t fuel row with
  | none => none
  | some r =>
    if r.1 ≠ 0 then some r
    else insert_row r.2 (row + 1) width_of_string data_array_to_insert

/-- Source `get_cell_contents` on the slot of the handle: the return value,
the string left in `content_string` and the slot.  `cell.row` and
`cell.column` are used as they are, the same values as the `int` arguments
of the source while they are below 2^31. -/
def get_cell_contents (t : csv_file_t) (fuel : Nat) (content_string : List Nat)
    (cell : cell_t) : Option (Int × List Nat × csv_file_t) :=
  match t.p_file with
  | none => none
  | some f =>
    let f1 := go_to_column (go_to_row f cell.row) cell.column
    match read_cell fuel (f1.bytes.drop f1.pos) content_string with
    | none => none
    | some r => some (0, r.1, { t with p_file := some { f1 with pos := f1.pos + r.2 } })

end csv_file_t

/-! ## Handle table -/

/-- Source `convert_handle_to_index`. -/
def convert_handle_to_index (csv_file_handle : Int) : Int := csv_file_handle - 1

/-- Element `s_csv_files[convert_handle_to_index(handle)]`; `none` when the
index lies outside the array. -/
def slot_of (st : csv_module) (csv_file_handle : Int) : Option csv_file_t :=
  if 0 ≤ convert_handle_to_index csv_file_handle then
    st.s_csv_files[(convert_handle_to_index csv_file_handle).toNat]?
  else none

/-- Assignment to `s_csv_files[convert_handle_to_index(handle)]`. -/
def store_slot (st : csv_module) (csv_file_handle : Int) (t : csv_file_t) : csv_module :=
  { st with s_csv_files :=
      st.s_csv_files.set (convert_handle_to_index csv_file_handle).toNat t }

/-- Source `set_row_count`. -/
def set_row_count (st : csv_module) (csv_file_handle : Int) (row_count : Int) :
    Option csv_module :=
  (slot_of st csv_file_handle).map fun t =>
    store_slot st csv_file_handle { t with number_of_rows := size_t_of_int row_count }

/-- Source `get_row_count`: the stored `size_t` is returned as an `int`. -/
def get_row_count (st : csv_module) (csv_file_handle : Int) : Option Int :=
  (slot_of st csv_file_handle).map fun t => int_of_size_t t.number_of_rows

/-- Source `set_column_count`. -/
def set_column_count (st : csv_module) (csv_file_handle : Int) (column_count : Int) :
    Option csv_module :=
  (slot_of st csv_file_handle).map fun t =>
    store_slot st csv_file_handle { t with number_of_columns := size_t_of_int column_count }

/-- Source `get_column_count`: the stored `size_t` is returned as an `int`. -/
def get_column_count (st : csv_module) (csv_file_handle : Int) : Option Int :=
  (slot_of st csv_file_handle).map fun t => int_of_size_t t.number_of_columns

/-- Loop of `calculate_row_count`: newlines seen before `EOF` is read. -/
def calculate_row_count : List Nat → Nat
  | [] => 0
  | b :: rest =>
    if to_char b = EOF then 0
    else (if to_char b = 10 then 1 else 0) + calculate_row_count rest

/-- Loop of `calculate_column_count`: commas seen before a newline or `EOF`
is read. -/
def calculate_column_count : List Nat → Nat
  | [] => 0
  | b :: rest =>
    if to_char b = 10 ∨ to_char b = EOF then 0
    else (if to_char b = 44 then 1 else 0) + calculate_column_count rest

/-- Search loop of `open_csv_file`: the first index from `next_free_index`
on whose flag is 0, or the index reached after the given number of rounds. -/
def find_free_index (s_free_indexes : List Nat) : Nat → Nat → Nat
  | 0, next_free_index => next_free_index
  | k + 1, next_free_index =>
    if s_free_indexes.getD next_free_index 0 = 0 then next_free_index
    else find_free_index s_free_indexes k (next_free_index + 1)

/-- Result of fopen in mode "a+" on a path that can be opened: the file as
it is on disk, or a new empty file when there is none. -/
def fopen_a_plus (on_disk : Option (List Nat)) : Except Int FILE :=
  .ok ⟨on_disk.getD [], 0⟩

/-- Source `open_csv_file`; `fopen_result` is what fopen gives for the path,
an error standing for NULL with that value stored in errno. -/
def open_csv_file (st : csv_module) (absolute_path_to_file : String)
    (fopen_result : Except Int FILE) : Option (Int × csv_module) :=
  if (st.s_number_of_open_files + 1) % 4294967296 > MAX_CONCURRENT_CSV_FILES then
    some (ENFILE, { st with errno := ENFILE })
  else
    let next_free_index := find_free_index st.s_free_indexes MAX_CONCURRENT_CSV_FILES 0
    let flags :=
      if next_free_index < MAX_CONCURRENT_CSV_FILES then st.s_free_indexes.set next_free_index 1
      else st.s_free_indexes
    match st.s_csv_files[next_free_index]? with
    | none => none
    | some t =>
      match fopen_result with
      | .error e =>
        some (e, { st with s_free_indexes := flags, errno := e,
                           s_csv_files := st.s_csv_files.set next_free_index
                             { t with p_file := none } })
      | .ok f =>
        some ((next_free_index : Int) + 1,
          { st with
            s_free_indexes := flags,
            s_number_of_open_files := (st.s_number_of_open_files + 1) % 4294967296,
            s_csv_files := st.s_csv_files.set next_free_index
              { p_file := some { f with pos := 0 },
                number_of_rows := calculate_row_count f.bytes,
                number_of_columns := calculate_column_count f.bytes,
                absolute_path := absolute_path_to_file } })

/-- Source `create_csv_file`. -/
def create_csv_file (st : csv_module) (absolute_path_to_file : String)
    (number_of_columns : Int) (fopen_result : Except Int FILE) :
    Option (Int × csv_module) :=
  match open_csv_file st absolute_path_to_file fopen_result with
  | none => none
  | some r =>
    if r.1 ≤ 0 then some (r.2.errno, r.2)
    else
      match set_column_count r.2 r.1 number_of_columns with
      | none => none
      | some st1 =>
        match set_row_count st1 r.1 0 with
        | none => none
        | some st2 => some (r.1, st2)

/-- Test at the head of `close_csv_file`: the index is negative, or the
counter minus one is below zero; the counter is an `unsigned int`, so the
subtraction wraps and the comparison is made on an unsigned value. -/
def close_guard (st : csv_module) (csv_file_handle : Int) : Prop :=
  convert_handle_to_index csv_file_handle < 0 ∨
    (st.s_number_of_open_files + 4294967295) % 4294967296 < 0

instance (st : csv_module) (csv_file_handle : Int) :
    Decidable (close_guard st csv_file_handle) := by
  unfold close_guard; infer_instance

/-- Source `close_csv_file`; fclose is taken to succeed on an open stream. -/
def close_csv_file (st : csv_module) (csv_file_handle : Int) : Option (Int × csv_module) :=
  let csv_file_index := convert_handle_to_index csv_file_handle
  if close_guard st csv_file_handle then
    some (ENOENT, { st with errno := ENOENT })
  else if st.s_free_indexes.length ≤ csv_file_index.toNat then none
  else
    match st.s_csv_files[csv_file_index.toNat]? with
    | none => none
    | some t =>
      match t.p_file with
      | none => none
      | some _ =>
        some (0,
          { st with
            s_number_of_open_files := (st.s_number_of_open_files + 4294967295) % 4294967296,
            s_free_indexes := st.s_free_indexes.set csv_file_index.toNat 0,
            s_csv_files := st.s_csv_files.set csv_file_index.toNat
              { p_file := none, number_of_rows := 0, number_of_columns := 0,
                absolute_path := "" } })

/-- State of the module when the program starts. -/
def initial_module : csv_module :=
  { s_csv_files := List.replicate MAX_CONCURRENT_CSV_FILES
      { p_file := none, number_of_rows := 0, number_of_columns := 0, absolute_path := "" },
    s_number_of_open_files := 0,
    s_free_indexes := List.replicate MAX_CONCURRENT_CSV_FILES 0,
    errno := 0 }

/-- Run an operation on the slot of a handle and store the slot back; a
return value other than 0 is the value the failing call left in errno. -/
def on_slot (st : csv_module) (csv_file_handle : Int)
    (op : csv_file_t → Option (Int × csv_file_t)) : Option (Int × csv_module) :=
  match slot_of st csv_file_handle with
  | none => none
  | some t =>
    match op t with
    | none => none
    | some r =>
      some (r.1, { store_slot st csv_file_handle r.2 with
                   errno := if r.1 = 0 then st.errno else r.1 })

/-- Source `append_row`. -/
def append_row (st : csv_module) (csv_file_handle : Int) (memory_spacing : Int)
    (data_array_to_insert : Option (Nat → List Nat)) : Option (Int × csv_module) :=
  on_slot st csv_file_handle fun t => t.append_row memory_spacing data_array_to_insert

/-- Source `update_cell`. -/
def update_cell (st : csv_module) (csv_file_handle : Int) (data_to_insert : List Nat)
    (cell : cell_t) : Option (Int × csv_module) :=
  on_slot st csv_file_handle fun t => t.update_cell data_to_insert cell

/-- Source `clear_cell`. -/
def clear_cell (st : csv_module) (csv_file_handle : Int) (cell : cell_t) :
    Option (Int × csv_module) :=
  update_cell st csv_file_handle [] cell

/-- Source `insert_row`. -/
def insert_row (st : csv_module) (csv_file_handle : Int) (row_to_insert_before : Int)
    (memory_spacing : Int) (data_array_to_insert : Option (Nat → List Nat)) :
    Option (Int × csv_module) :=
  on_slot st csv_file_handle fun t =>
    t.insert_row row_to_insert_before memory_spacing data_array_to_insert

/-- Source `delete_row`. -/
def delete_row (fuel : Nat) (st : csv_module) (csv_file_handle : Int)
    (row_to_delete : Int) : Option (Int × csv_module) :=
  on_slot st csv_file_handle fun t => t.delete_row fuel row_to_delete

/-- Source `update_row`. -/
def update_row (fuel : Nat) (st : csv_module) (csv_file_handle : Int) (row : Int)
    (width_of_string : Int) (data_array_to_insert : Option (Nat → List Nat)) :
    Option (Int × csv_module) :=
  on_slot st csv_file_handle fun t =>
    t.update_row fuel row width_of_string data_array_to_insert

/-- Source `get_cell_contents`: the return value, the string left in
`content_string` and the module. -/
def get_cell_contents (fuel : Nat) (st : csv_module) (csv_file_handle : Int)
    (content_string : List Nat) (cell : cell_t) : Option (Int × List Nat × csv_module) :=
  match slot_of st csv_file_handle with
  | none => none
  | some t =>
    match t.get_cell_contents fuel content_string cell with
    | none => none
    | some r => some (r.1, r.2.1, store_slot st csv_file_handle r.2.2)

/-- Bytes of the file behind a handle. -/
def file_bytes (st : csv_module) (csv_file_handle : Int) : Option (List Nat) :=
  ((slot_of st csv_file_handle).bind (·.p_file)).map (·.bytes)

/-! ## Well-formed tables -/

/-- Bytes of the fields of a record: each field followed by a comma. -/
def fields_bytes : List (List Nat) → List Nat
  | [] => []
  | field :: fields => field ++ 44 :: fields_bytes fields

/-- Bytes of a table: each record is its fields, then a newline. -/
def table_bytes : List (List (List Nat)) → List Nat
  | [] => []
  | record :: records => fields_bytes record ++ 10 :: table_bytes records

/-- Byte that may occur in a field of a well-formed table: a text byte that
is no delimiter (not ',', not newline, not NUL and not 255). -/
def field_byte (b : Nat) : Prop := b ≠ 44 ∧ b ≠ 10 ∧ b ≠ 0 ∧ b < 255

instance (b : Nat) : Decidable (field_byte b) := by
  unfold field_byte; infer_instance

/-- Byte of a C string that holds no comma. -/
def value_byte (b : Nat) : Prop := b ≠ 44 ∧ b ≠ 0 ∧ b < 256

instance (b : Nat) : Decidable (value_byte b) := by
  unfold value_byte; infer_instance

/-- Records of text fields, all with the same number of fields. -/
def text_records (column_count : Nat) (records : List (List (List Nat))) : Prop :=
  ∀ record ∈ records, record.length = column_count ∧
    ∀ field ∈ record, ∀ b ∈ field, field_byte b

instance (c : Nat) (records : List (List (List Nat))) : Decidable (text_records c records) := by
  unfold text_records; infer_instance

/-- Slot holding a well-formed table with the given records: the stream is
open, the file is exactly the records (each one `number_of_columns` text
fields, every field followed by a comma, then a newline), the cached row
count is the number of records, and both counts are `size_t` values. -/
def well_formed (t : csv_file_t) (records : List (List (List Nat))) : Prop :=
  t.p_file.map (·.bytes) = some (table_bytes records) ∧
  t.number_of_rows = records.length ∧
  text_records t.number_of_columns records ∧
  t.number_of_rows < 18446744073709551616 ∧
  t.number_of_columns < 18446744073709551616

instance (t : csv_file_t) (records : List (List (List Nat))) :
    Decidable (well_formed t records) := by
  unfold well_formed; infer_instance

/-- Table with one cell replaced. -/
def set_cell (records : List (List (List Nat))) (cell : cell_t) (value : List Nat) :
    List (List (List Nat)) :=
  records.set cell.row ((records.getD cell.row []).set cell.column value)

/-- Field of a table at a cell. -/
def cell_at (records : List (List (List Nat))) (cell : cell_t) : List Nat :=
  (records.getD cell.row []).getD cell.column []

/-- Record made of the first `column_count` strings of an array. -/
def record_of (data : Nat → List Nat) (column_count : Nat) : List (List Nat) :=
  (List.range column_count).map data

/-- What a caller can observe after a call: the return value, the bytes of
the file behind the handle, and the cached row and column counts. -/
def observe (r : Option (Int × csv_module)) (csv_file_handle : Int) :
    Option (Int × List Nat × Nat × Nat) :=
  match r with
  | none => none
  | some (rv, st) =>
    match slot_of st csv_file_handle with
    | none => none
    | some t =>
      match t.p_file with
      | none => none
      | some f => some (rv, f.bytes, t.number_of_rows, t.number_of_columns)

/-- Return value and string of a call of `get_cell_contents`. -/
def read_result (r : Option (Int × List Nat × csv_module)) : Option (Int × List Nat) :=
  r.map fun x => (x.1, x.2.1)

/-- Module left by a call of `get_cell_contents`, with its return value. -/
def read_state (r : Option (Int × List Nat × csv_module)) : Option (Int × csv_module) :=
  r.map fun x => (x.1, x.2.2)

/-- Example records: the table `a,b,` / `c,d,` / `e,f,`. -/
def example_records : List (List (List Nat)) :=
  [[[97], [98]], [[99], [100]], [[101], [102]]]

/-- Example slot: a table of three rows and two columns. -/
def example_slot : csv_file_t :=
  { p_file := some ⟨table_bytes example_records, 0⟩,
    number_of_rows := 3, number_of_columns := 2, absolute_path := "t.csv" }

/-- Example module: the example table is open under handle 1. -/
def example_module : csv_module :=
  { s_csv_files := [example_slot], s_number_of_open_files := 1,
    s_free_indexes := [1], errno := 0 }

/-- Example slot: the one-row table `a,b,`. -/
def one_row_slot : csv_file_t :=
  { p_file := some ⟨table_bytes [[[97], [98]]], 0⟩,
    number_of_rows := 1, number_of_columns := 2, absolute_path := "t.csv" }

/-- Example module: the one-row table is open under handle 1. -/
def one_row_module : csv_module :=
  { s_csv_files := [one_row_slot], s_number_of_open_files := 1,
    s_free_indexes := [1], errno := 0 }

/-- Example array of strings: `x` and `y`. -/
def example_data : Nat → List Nat := fun idx => [[120], [121]].getD idx []

/-- Record that one call of `append_row` is meant to add: the first
`column_count` strings of the array, or that many empty fields for NULL. -/
def call_record (column_count : Nat) (data : Option (Nat → List Nat)) : List (List Nat) :=
  match data with
  | some d => record_of d column_count
  | none => List.replicate column_count []

/-- A sequence of calls of `append_row` on one handle, each call given by its
memory spacing and its array; the sequence stops at a call that fails. -/
def append_rows (st : csv_module) (csv_file_handle : Int) :
    List (Int × Option (Nat → List Nat)) → Option (Int × csv_module)
  | [] => some (0, st)
  | call :: calls =>
    match append_row st csv_file_handle call.1 call.2 with
    | none => none
    | some r => if r.1 ≠ 0 then some r else append_rows r.2 csv_file_handle calls

/-- Example: the module after `open_csv_file` on a file holding `a,b,` with
no newline. -/
def unterminated_module : csv_module :=
  { s_csv_files := [{ p_file := some ⟨[97, 44, 98, 44], 0⟩, number_of_rows := 0,
                      number_of_columns := 2, absolute_path := "t.csv" }],
    s_number_of_open_files := 1, s_free_indexes := [1], errno := 0 }

/-- Example slot: the file holds `a,b,` with no newline and the cached row
count is 1. -/
def unterminated_slot : csv_file_t :=
  { p_file := some ⟨[97, 44, 98, 44], 0⟩, number_of_rows := 1,
    number_of_columns := 2, absolute_path := "t.csv" }

/-- Example array of strings: `a` and `b`. -/
def scenario_data : Nat → List Nat := fun idx => [[97], [98]].getD idx []

/-- Scenario, step 1: `create_csv_file("t.csv", 2)` with no table open and
no file at the path. -/
def scenario_created : Option (Int × csv_module) :=
  create_csv_file initial_module "t.csv" 2 (fopen_a_plus none)

/-- Scenario, step 2: `append_row(handle, ["a", "b"])`. -/
def scenario_appended : Option (Int × csv_module) :=
  scenario_created.bind fun r => append_row r.2 r.1 2 (some scenario_data)

/-- Scenario, step 3: `update_cell(handle, "z", {row 0, column 1})`. -/
def scenario_updated : Option (Int × csv_module) :=
  scenario_appended.bind fun r => update_cell r.2 1 [122] ⟨0, 1⟩

/-- Example module: the unterminated file `a,b,` with cached row count 1 is
open under handle 1. -/
def counted_module : csv_module :=
  { s_csv_files := [unterminated_slot], s_number_of_open_files := 1,
    s_free_indexes := [1], errno := 0 }

/-- Number of newline bytes in a file. -/
def newline_count (bytes : List Nat) : Nat := bytes.count 10

/-- Number of commas before the first newline of a file, or in the whole
file when it holds no newline. -/
def first_line_commas (bytes : List Nat) : Nat :=
  (bytes.takeWhile fun b => b ≠ 10).count 44

/-- Records of empty fields: `count` records of `column_count` fields. -/
def empty_records (count column_count : Nat) : List (List (List Nat)) :=
  List.replicate count (List.replicate column_count [])

/-- Example slot: a freshly created table of two columns, the file empty. -/
def empty_slot : csv_file_t :=
  { p_file := some ⟨[], 0⟩, number_of_rows := 0, number_of_columns := 2,
    absolute_path := "t.csv" }

/-- Example module: the empty table is open under handle 1. -/
def empty_module : csv_module :=
  { s_csv_files := [empty_slot], s_number_of_open_files := 1,
    s_free_indexes := [1], errno := 0 }

/-- Example file: `a`, the byte 255, a comma and a newline. -/
def latin_file : FILE := ⟨[97, 255, 44, 10], 0⟩

/-- Module after a successful `close_csv_file` of the only slot. -/
def closed_module (st : csv_module) : csv_module :=
  { st with
    s_number_of_open_files := 0, s_free_indexes := [0],
    s_csv_files := [{ p_file := none, number_of_rows := 0, number_of_columns := 0,
                      absolute_path := "" }] }

/-- Refinement target for `update_row`, following the words of the
specification: `delete_row(row_index)` followed, when that returned 0, by
`insert_row(row_index, values)` with the same row index. -/
def update_row_as_specified (fuel : Nat) (st : csv_module) (csv_file_handle : Int)
    (row : Int) (width_of_string : Int) (data_array_to_insert : Option (Nat → List Nat)) :
    Option (Int × csv_module) :=
  match delete_row fuel st csv_file_handle row with
  | none => none
  | some r =>
    if r.1 ≠ 0 then some r
    else insert_row r.2 csv_file_handle row width_of_string data_array_to_insert

/-- Offset just after the `k`-th occurrence of a delimiter byte in the bytes
ahead, 0 for `k = 0`, and the number of bytes ahead when they hold fewer
than `k` occurrences. -/
def offset_after (delimiter : Nat) : Nat → List Nat → Nat
  | 0, _ => 0
  | _ + 1, [] => 0
  | k + 1, b :: rest =>
    if b = delimiter then offset_after delimiter k rest + 1
    else offset_after delimiter (k + 1) rest + 1

/-- Example file: the byte 255, `,`, newline, `b`, `,`, newline. -/
def high_byte_file : FILE := ⟨[255, 44, 10, 98, 44, 10], 0⟩

/-- Example file: the rows `a,` and `b,c,`, the cursor at the start of the
first row. -/
def short_row_file : FILE := ⟨[97, 44, 10, 98, 44, 99, 44, 10], 0⟩

end Csv

/-!
# Growable array template (`File Templates/vector_wip.c`)

One model for every instance of the template: the element type is a
parameter.  A vector object holds its size, its capacity and the cells of
the block `data` points to; the virtual table pointer and the lock are left
out (one thread).  A pointer is an `Option`, `none` being NULL.  `none` as
a result stands for a call whose behaviour C leaves undefined: a cell
outside the block is read or written, or `capacity * 2` leaves `int`.  The
other arithmetic (`size++`, `size--`) stays within `int` on every vector
that satisfies `valid_vector`.
-/

namespace VectorTemplate

/-- Largest value of a C `int` (32 bits). -/
def INT_MAX : Int := 2147483647

/-- Smallest value of a C `int` (32 bits). -/
def INT_MIN : Int := -2147483648

/-- Object `vector_<data_type>_t`. -/
structure vector_t (α : Type) where
  size : Int
  capacity : Int
  data : List α

/-- Block given by realloc: the old cells, cut or extended to the new number
of cells; `junk` is the unspecified content of a new cell. -/
def realloc {α : Type} (data : List α) (new_capacity : Int) (junk : α) : List α :=
  (data ++ List.replicate (new_capacity.toNat - data.length) junk).take new_capacity.toNat

/-- Source `vector_<data_type>_create`; `malloc_ok` tells whether both calls
of malloc succeed. -/
def vector_create {α : Type} (initial_capacity : Int) (junk : α) (malloc_ok : Bool) :
    Option (vector_t α) :=
  if malloc_ok then
    some { size := 0, capacity := initial_capacity,
           data := List.replicate initial_capacity.toNat junk }
  else none

/-- Source `vector_<data_type>_push`; `realloc_ok` tells whether realloc, when
it is called, returns a block. -/
def vector_push {α : Type} (vector : Option (vector_t α)) (value : α) (junk : α)
    (realloc_ok : Bool) : Option (Int × Option (vector_t α)) :=
  match vector with
  | none => some (-1, none)
  | some v =>
    if v.size ≥ v.capacity ∧ (v.capacity * 2 < INT_MIN ∨ INT_MAX < v.capacity * 2) then none
    else
    let grown : Option (vector_t α) :=
      if v.size ≥ v.capacity then
        if realloc_ok then
          some { v with data := realloc v.data (v.capacity * 2) junk,
                        capacity := v.capacity * 2 }
        else none
      else some v
    match grown with
    | none => some (-1, some v)
    | some v1 =>
      if 0 ≤ v1.size ∧ v1.size.toNat < v1.data.length then
        some (0, some { v1 with data := v1.data.set v1.size.toNat value,
                                size := v1.size + 1 })
      else none

/-- Source `vector_<data_type>_pop`. -/
def vector_pop {α : Type} (vector : Option (vector_t α)) : Int × Option (vector_t α) :=
  match vector with
  | none => (-1, none)
  | some v =>
    if v.size = 0 then (-1, some v)
    else (0, some { v with size := v.size - 1 })

/-- Source `vector_<data_type>_get`: the return value, the content of `*out`
after the call and the vector. -/
def vector_get {α : Type} (vector : Option (vector_t α)) (index : Int) (out : Option α) :
    Option (Int × Option α × Option (vector_t α)) :=
  match vector, out with
  | some v, some o =>
    if index < 0 ∨ index ≥ v.size then some (-1, some o, some v)
    else
      match v.data[index.toNat]? with
      | some x => some (0, some x, some v)
      | none => none
  | _, _ => some (-1, out, vector)

/-- Vector object in a consistent state: the size lies between 0 and the
capacity, and the block has one cell per unit of capacity. -/
def valid_vector {α : Type} (v : vector_t α) : Prop :=
  0 ≤ v.size ∧ v.size ≤ v.capacity ∧ v.capacity ≤ INT_MAX ∧
    (v.data.length : Int) = v.capacity

instance {α : Type} (v : vector_t α) : Decidable (valid_vector v) := by
  unfold valid_vector; infer_instance

/-- Elements of a vector: the first `size` cells of its block. -/
def elements {α : Type} (v : vector_t α) : List α := v.data.take v.size.toNat

/-- Return value and content of `*out` of a call of `vector_get`. -/
def got {α : Type} (r : Option (Int × Option α × Option (vector_t α))) :
    Option (Int × Option α) :=
  r.map fun x => (x.1, x.2.1)

/-- Example vector: the elements 7 and 8 in a full block of 2 cells. -/
def full_vector : vector_t Nat := { size := 2, capacity := 2, data := [7, 8] }

/-- Example vector: the elements 7 and 8 in a block of 4 cells. -/
def roomy_vector : vector_t Nat := { size := 2, capacity := 4, data := [7, 8, 0, 0] }

/-- Capacity in force when `push` writes `data[size]`: the doubled capacity
when the vector was full, the capacity it had otherwise. -/
def capacity_at_write {α : Type} (v : vector_t α) : Int :=
  if v.size ≥ v.capacity then v.capacity * 2 else v.capacity

/-- Object that `create` hands out for an initial capacity of 0. -/
def zero_capacity_vector {α : Type} : vector_t α := { size := 0, capacity := 0, data := [] }

end VectorTemplate

/-!
# Classes in C (`OOP in C/src`)

A function whose address is stored in a table of virtual functions is a
value of `method`; a pointer to a table is an `Option`, `none` standing for
a pointer that was never set, and a call through it has no defined result.
An object passed as `void *` is either a `ParentClass_t` or a `ChildClass_t`;
the cast to `ParentClass_t *` yields the object itself or its first member.
Standard output is the list of the strings printed so far.  A `double` is
taken as the rational number it stands for.
-/

namespace ClassTemplate

/-- Functions whose address is stored in a table of virtual functions. -/
inductive method where
  | example_method_
  | example_method_override_
  | example_child_method
deriving DecidableEq, Repr

/-- Table `ParentClassVtbl_t`. -/
structure ParentClassVtbl_t where
  example_method : method
deriving DecidableEq, Repr

/-- Table `ChildClassVtbl_t`. -/
structure ChildClassVtbl_t where
  example_child_method : method
deriving DecidableEq, Repr

/-- Object `ParentClass_t`. -/
structure ParentClass_t where
  vptr : Option ParentClassVtbl_t
  IntTypeData : Int
  DoubleTypeData : Rat
deriving DecidableEq

/-- Object `ChildClass_t`; the parent is its first member. -/
structure ChildClass_t where
  parent : ParentClass_t
  vptr : Option ChildClassVtbl_t
  IntTypeData2 : Int
  DoubleTypeData2 : Rat
deriving DecidableEq

/-- Object behind a `void *`. -/
inductive object where
  | parent_object (o : ParentClass_t)
  | child_object (o : ChildClass_t)

/-- Cast `(ParentClass_t *)pVoid`. -/
def as_parent : object → ParentClass_t
  | .parent_object o => o
  | .child_object o => o.parent

/-- Static table `vtbl` of `ParentClass_ctor`. -/
def ParentClass_ctor_vtbl : ParentClassVtbl_t := { example_method := .example_method_ }

/-- Static table `parent_vtbl` of `ChildClass_ctor`. -/
def ChildClass_ctor_parent_vtbl : ParentClassVtbl_t :=
  { example_method := .example_method_override_ }

/-- Static table `vtbl` of `ChildClass_ctor`. -/
def ChildClass_ctor_vtbl : ChildClassVtbl_t :=
  { example_child_method := .example_child_method }

/-- Source `ParentClass_ctor`. -/
def ParentClass_ctor (self : ParentClass_t) (example_int : Int) (example_double : Rat) :
    ParentClass_t :=
  let self1 := { self with vptr := some ParentClass_ctor_vtbl }
  let self2 := { self1 with IntTypeData := example_int }
  { self2 with DoubleTypeData := example_double }

/-- Source `ChildClass_ctor`. -/
def ChildClass_ctor (self : ChildClass_t) (example_int : Int) (example_int_child : Int)
    (example_double : Rat) (example_double_child : Rat) : ChildClass_t :=
  let self1 := { self with parent := ParentClass_ctor self.parent example_int example_double }
  let self2 :=
    { self1 with parent := { self1.parent with vptr := some ChildClass_ctor_parent_vtbl } }
  let self3 := { self2 with vptr := some ChildClass_ctor_vtbl }
  let self4 := { self3 with IntTypeData2 := example_int_child }
  { self4 with DoubleTypeData2 := example_double_child }

/-- Source `example_method_` of `parent_class.c`. -/
def example_method_ (pVoid : object) (stdout : List String) : List String :=
  stdout ++ ["Default Method Ran\n"]

/-- Source `example_method_override_` of `child_class.c`. -/
def example_method_override_ (pVoid : object) (stdout : List String) : List String :=
  stdout ++ ["Overriden Default Method Ran\n"]

/-- Source `example_child_method`. -/
def example_child_method (pVoid : object) (stdout : List String) : List String :=
  stdout ++ ["Child Method Ran\n"]

/-- Call through a function pointer. -/
def call (m : method) (pVoid : object) (stdout : List String) : List String :=
  match m with
  | .example_method_ => example_method_ pVoid stdout
  | .example_method_override_ => example_method_override_ pVoid stdout
  | .example_child_method => example_child_method pVoid stdout

/-- Source `example_method`: the call goes through the table of the parent
part of the object. -/
def example_method (pVoid : object) (stdout : List String) : Option (List String) :=
  match (as_parent pVoid).vptr with
  | none => none
  | some vtbl => some (call vtbl.example_method pVoid stdout)

/-- Source `main`, from objects with arbitrary content before their
constructor runs: the exit status and what was printed. -/
def main (childless_class : ParentClass_t) (child_class : ChildClass_t) :
    Option (Int × List String) :=
  let childless_class1 := ParentClass_ctor childless_class 1 1
  match example_method (.parent_object childless_class1) [] with
  | none => none
  | some stdout1 =>
    let child_class1 := ChildClass_ctor child_class 1 1 2 2
    match example_method (.child_object child_class1) stdout1 with
    | none => none
    | some stdout2 =>
      some (0, example_child_method (.child_object child_class1) stdout2)

end ClassTemplate

namespace Csv

/-- Number of slots whose occupied flag is set. -/
def occupied_count (st : csv_module) : Nat :=
  (st.s_free_indexes.filter (fun flag => flag != 0)).length

/-- Invariant of the handle table as the specification states it: the
counter of open files equals the number of slots whose flag is set, and
that number is at most the number of slots. -/
def handle_table_invariant (st : csv_module) : Prop :=
  st.s_number_of_open_files = occupied_count st ∧
    occupied_count st ≤ MAX_CONCURRENT_CSV_FILES

instance (st : csv_module) : Decidable (handle_table_invariant st) := by
  unfold handle_table_invariant; infer_instance

/-- Buffer `content_string` after the given number of rounds of the read
loop of `get_cell_contents`, or after the round that reads a comma when
that comes first. -/
def read_cell_rounds : Nat → List Nat → List Nat → List Nat
  | 0, _, content_string => content_string
  | n + 1, [], content_string =>
    read_cell_rounds n [] (strcat content_string (to_char EOF))
  | n + 1, b :: rest, content_string =>
    if to_char b = 44 then content_string
    else read_cell_rounds n rest (strcat content_string (to_char b))

/-- Example array of strings: the byte 255 and `b`. -/
def high_first_data : Nat → List Nat := fun idx => [[255], [98]].getD idx []

/-- Example array of strings: `a` and the byte 255. -/
def high_second_data : Nat → List Nat := fun idx => [[97], [255]].getD idx []

/-- Example module: the one-row table with the fields byte 255 and `b` is
open under handle 1. -/
def high_first_module : csv_module :=
  { s_csv_files := [{ p_file := some ⟨[255, 44, 98, 44, 10], 5⟩, number_of_rows := 1,
                      number_of_columns := 2, absolute_path := "t.csv" }],
    s_number_of_open_files := 1, s_free_indexes := [1], errno := 0 }

/-- Example module: the one-row table with the fields `a` and byte 255 is
open under handle 1. -/
def high_second_module : csv_module :=
  { s_csv_files := [{ p_file := some ⟨[97, 44, 255, 44, 10], 5⟩, number_of_rows := 1,
                      number_of_columns := 2, absolute_path := "t.csv" }],
    s_number_of_open_files := 1, s_free_indexes := [1], errno := 0 }

/-! ## Lemmas on the conversions -/

theorem to_char_ne_eof {b : Nat} (h : b < 255) : to_char (b : Int) ≠ EOF := by
  unfold to_char EOF
  split <;> omega

theorem to_char_eq_iff {b : Nat} (k : Nat) (hk : k < 128) (h : b < 256) :
    to_char (b : Int) = (k : Int) ↔ b = k := by
  unfold to_char
  split <;> omega

theorem to_byte_to_char {b : Nat} (h : b < 256) : to_byte (to_char (b : Int)) = b := by
  unfold to_byte to_char
  split <;> omega

theorem size_t_of_nat {n : Nat} (h : n < 18446744073709551616) :
    size_t_of_int (n : Int) = n := by
  unfold size_t_of_int
  omega

theorem drop_append_cons (p : List Nat) (x : Nat) (rest : List Nat) :
    (p ++ x :: rest).drop (p.length + 1) = rest := by
  induction p with
  | nil => rfl
  | cons a p ih => simp

/-! ## Lemmas on the loops -/

theorem skip_line_text (p rest : List Nat) (hp : ∀ b ∈ p, b ≠ 10 ∧ b < 255) :
    skip_line (p ++ 10 :: rest) = p.length + 1 := by
  induction p with
  | nil => simp [skip_line, to_char]
  | cons a p ih =>
    have ha := hp a (by simp)
    have h1 : to_char (a : Int) ≠ 10 := by
      intro h
      exact ha.1 ((to_char_eq_iff 10 (by decide) (by omega)).1 h)
    have h2 : to_char (a : Int) ≠ EOF := to_char_ne_eof ha.2
    simp [skip_line, h1, h2, ih (fun b hb => hp b (by simp [hb]))]

theorem skip_field_text (p rest : List Nat) (hp : ∀ b ∈ p, b ≠ 44 ∧ b < 255) :
    skip_field (p ++ 44 :: rest) = p.length + 1 := by
  induction p with
  | nil => simp [skip_field, to_char]
  | cons a p ih =>
    have ha := hp a (by simp)
    have h1 : to_char (a : Int) ≠ 44 := by
      intro h
      exact ha.1 ((to_char_eq_iff 44 (by decide) (by omega)).1 h)
    have h2 : to_char (a : Int) ≠ EOF := to_char_ne_eof ha.2
    simp [skip_field, h1, h2, ih (fun b hb => hp b (by simp [hb]))]

theorem fields_bytes_append (r1 r2 : List (List Nat)) :
    fields_bytes (r1 ++ r2) = fields_bytes r1 ++ fields_bytes r2 := by
  induction r1 with
  | nil => rfl
  | cons field r1 ih => simp [fields_bytes, ih]

theorem table_bytes_append (t1 t2 : List (List (List Nat))) :
    table_bytes (t1 ++ t2) = table_bytes t1 ++ table_bytes t2 := by
  induction t1 with
  | nil => rfl
  | cons record t1 ih => simp [table_bytes, ih]

theorem fields_bytes_text (record : List (List Nat))
    (h : ∀ field ∈ record, ∀ b ∈ field, field_byte b) :
    ∀ b ∈ fields_bytes record, b ≠ 10 ∧ b ≠ 0 ∧ b < 255 := by
  induction record with
  | nil => simp [fields_bytes]
  | cons field record ih =>
    intro b hb
    simp only [fields_bytes, List.mem_append, List.mem_cons] at hb
    rcases hb with hb | hb | hb
    · have := h field (by simp) b hb
      exact ⟨this.2.1, this.2.2.1, this.2.2.2⟩
    · subst hb; decide
    · exact ih (fun f hf => h f (by simp [hf])) b hb

theorem table_bytes_text (c : Nat) (records : List (List (List Nat)))
    (h : text_records c records) : ∀ b ∈ table_bytes records, b ≠ 0 ∧ b < 255 := by
  induction records with
  | nil => simp [table_bytes]
  | cons record records ih =>
    intro b hb
    simp only [table_bytes, List.mem_append, List.mem_cons] at hb
    rcases hb with hb | hb | hb
    · have := fields_bytes_text record (h record (by simp)).2 b hb
      exact ⟨this.2.1, this.2.2⟩
    · subst hb; decide
    · exact ih (fun r hr => h r (by simp [hr])) b hb

theorem scan_rows_table (c : Nat) (pre : List (List (List Nat))) (rest : List Nat)
    (h : text_records c pre) :
    scan_rows pre.length (table_bytes pre ++ rest) = (table_bytes pre).length := by
  induction pre with
  | nil => simp [scan_rows, table_bytes]
  | cons record pre ih =>
    have hrec : ∀ b ∈ fields_bytes record, b ≠ 10 ∧ b < 255 := fun b hb =>
      have := fields_bytes_text record (h record (by simp)).2 b hb
      ⟨this.1, this.2.2⟩
    have hskip : skip_line (fields_bytes record ++ 10 :: (table_bytes pre ++ rest))
        = (fields_bytes record).length + 1 := skip_line_text _ _ hrec
    have hpre : text_records c pre := fun r hr => h r (by simp [hr])
    simp only [table_bytes, List.length_cons, scan_rows, List.append_assoc,
      List.cons_append, hskip, drop_append_cons, ih hpre, List.length_append]
    omega

theorem scan_columns_fields (fpre : List (List Nat)) (rest : List Nat)
    (h : ∀ field ∈ fpre, ∀ b ∈ field, field_byte b) :
    scan_columns fpre.length (fields_bytes fpre ++ rest) = (fields_bytes fpre).length := by
  induction fpre with
  | nil => simp [scan_columns, fields_bytes]
  | cons field fpre ih =>
    have hfield : ∀ b ∈ field, b ≠ 44 ∧ b < 255 := fun b hb =>
      have := h field (by simp) b hb
      ⟨this.1, this.2.2.2⟩
    have hskip : skip_field (field ++ 44 :: (fields_bytes fpre ++ rest))
        = field.length + 1 := skip_field_text _ _ hfield
    have hpre : ∀ f ∈ fpre, ∀ b ∈ f, field_byte b := fun f hf => h f (by simp [hf])
    simp only [fields_bytes, List.length_cons, scan_columns, List.append_assoc,
      List.cons_append, hskip, drop_append_cons, ih hpre, List.length_append]
    omega

theorem copy_until_prefix (s : Nat) (a rest : List Nat) (pos : Nat)
    (hs : pos + a.length = s) (ha : ∀ b ∈ a, b < 255) :
    copy_until s pos (a ++ rest) = (a, a.length) := by
  induction a generalizing pos with
  | nil =>
    have : pos = s := by simpa using hs
    cases rest <;> simp [copy_until, this]
  | cons x a ih =>
    have hx := ha x (by simp)
    have hne : pos ≠ s := by simp at hs; omega
    have h2 : to_char (x : Int) ≠ EOF := to_char_ne_eof hx
    have := ih (pos + 1) (by simp at hs; omega) (fun b hb => ha b (by simp [hb]))
    simp [copy_until, hne, h2, this, to_byte_to_char (show x < 256 by omega)]

theorem copy_rest_text (l : List Nat) (h : ∀ b ∈ l, b < 255) : copy_rest l = l := by
  induction l with
  | nil => rfl
  | cons x l ih =>
    have hx := h x (by simp)
    simp [copy_rest, to_char_ne_eof hx, to_byte_to_char (show x < 256 by omega),
      ih (fun b hb => h b (by simp [hb]))]

theorem copy_before_prefix (s : Nat) (a : List Nat) (x : Nat) (rest : List Nat) (pos : Nat)
    (hs : pos + a.length + 1 = s) (ha : ∀ b ∈ a, b < 255) (hx : x < 255) :
    copy_before s pos (a ++ x :: rest) = (a, a.length + 1) := by
  induction a generalizing pos with
  | nil =>
    have : pos + 1 = s := by simpa using hs
    simp [copy_before, this, to_char_ne_eof hx]
  | cons y a ih =>
    have hy := ha y (by simp)
    have hne : pos + 1 ≠ s := by simp at hs; omega
    have := ih (pos + 1) (by simp at hs; omega) (fun b hb => ha b (by simp [hb]))
    simp [copy_before, hne, to_char_ne_eof hy, this, to_byte_to_char (show y < 256 by omega)]

theorem copy_before_all (s : Nat) (l : List Nat) (pos : Nat)
    (hs : s ≤ pos ∨ pos + l.length < s) (hl : ∀ b ∈ l, b < 255) :
    copy_before s pos l = (l, l.length) := by
  induction l generalizing pos with
  | nil => simp [copy_before]
  | cons y l ih =>
    have hy := hl y (by simp)
    have hne : pos + 1 ≠ s := by simp at hs; omega
    have := ih (pos + 1) (by simp at hs; omega) (fun b hb => hl b (by simp [hb]))
    simp [copy_before, hne, to_char_ne_eof hy, this, to_byte_to_char (show y < 256 by omega)]

theorem skip_to_newline_nil (fuel : Nat) : skip_to_newline fuel [] = none := by
  induction fuel with
  | zero => rfl
  | succ fuel ih => simpa [skip_to_newline] using ih

theorem skip_to_newline_line (fuel : Nat) (p rest : List Nat) (hp : ∀ b ∈ p, b ≠ 10)
    (hfuel : p.length < fuel) :
    skip_to_newline fuel (p ++ 10 :: rest) = some (p.length + 1) := by
  induction p generalizing fuel with
  | nil =>
    cases fuel with
    | zero => simp at hfuel
    | succ fuel => simp [skip_to_newline]
  | cons x p ih =>
    cases fuel with
    | zero => simp at hfuel
    | succ fuel =>
      have hx : x ≠ 10 := hp x (by simp)
      have := ih fuel (fun b hb => hp b (by simp [hb])) (by simp at hfuel; omega)
      simp [skip_to_newline, hx, this]

theorem read_cell_field (fuel : Nat) (field rest content_string : List Nat)
    (hf : ∀ b ∈ field, value_byte b) (hfuel : field.length < fuel) :
    read_cell fuel (field ++ 44 :: rest) content_string
      = some (content_string ++ field, field.length + 1) := by
  induction field generalizing fuel content_string with
  | nil =>
    cases fuel with
    | zero => simp at hfuel
    | succ fuel => simp [read_cell, to_char]
  | cons x field ih =>
    cases fuel with
    | zero => simp at hfuel
    | succ fuel =>
      have hx := hf x (by simp)
      have h1 : to_char (x : Int) ≠ 44 := fun h =>
        hx.1 ((to_char_eq_iff 44 (by decide) hx.2.2).1 h)
      have h2 : to_char (x : Int) ≠ 0 := fun h =>
        hx.2.1 ((to_char_eq_iff 0 (by decide) hx.2.2).1 h)
      have hcat : strcat content_string (to_char (x : Int)) = content_string ++ [x] := by
        simp [strcat, h2, to_byte_to_char hx.2.2]
      have := ih fuel (content_string ++ [x])
        (fun b hb => hf b (by simp [hb])) (by simp at hfuel; omega)
      simp [read_cell, h1, hcat, this]

/-! ## Navigation to a cell of a well-formed table -/

theorem drop_append_left (a rest : List Nat) : (a ++ rest).drop a.length = rest := by
  induction a with
  | nil => rfl
  | cons x a ih => simp

theorem go_to_row_pos (f : FILE) (row : Nat) (hrow : row < 18446744073709551616) :
    go_to_row f (row : Int) = { f with pos := scan_rows row f.bytes } := by
  unfold go_to_row
  by_cases h : (row : Int) = 0
  · have : row = 0 := by omega
    subst this
    simp [scan_rows]
  · simp [h, size_t_of_nat hrow]

theorem go_to_column_pos (f : FILE) (column : Nat) (hcol : column < 18446744073709551616) :
    go_to_column f (column : Int)
      = { f with pos := f.pos + scan_columns column (f.bytes.drop f.pos) } := by
  unfold go_to_column
  by_cases h : (column : Int) = 0
  · have : column = 0 := by omega
    subst this
    simp [scan_columns]
  · simp [h, size_t_of_nat hcol]

theorem go_to_cell_pos (c : Nat) (pre : List (List (List Nat))) (fpre : List (List Nat))
    (rest : List Nat) (pos : Nat)
    (hpre : text_records c pre) (hfpre : ∀ field ∈ fpre, ∀ b ∈ field, field_byte b)
    (hrow : pre.length < 18446744073709551616) (hcol : fpre.length < 18446744073709551616) :
    go_to_column (go_to_row ⟨table_bytes pre ++ (fields_bytes fpre ++ rest), pos⟩
        (pre.length : Int)) (fpre.length : Int)
      = ⟨table_bytes pre ++ (fields_bytes fpre ++ rest),
          (table_bytes pre).length + (fields_bytes fpre).length⟩ := by
  rw [go_to_row_pos _ _ hrow, go_to_column_pos _ _ hcol]
  simp only [scan_rows_table c pre _ hpre, drop_append_left,
    scan_columns_fields fpre rest hfpre]

theorem list_split_at {α : Type} (l : List α) (i : Nat) (d : α) (h : i < l.length) :
    ∃ pre post, l = pre ++ l.getD i d :: post ∧ pre.length = i ∧
      ∀ y, l.set i y = pre ++ y :: post := by
  induction l generalizing i with
  | nil => simp at h
  | cons x l ih =>
    cases i with
    | zero => exact ⟨[], l, by simp, rfl, fun y => by simp⟩
    | succ i =>
      obtain ⟨pre, post, h1, h2, h3⟩ := ih i (by simpa using h)
      refine ⟨x :: pre, post, ?_, by simp [h2], fun y => by simp [h3]⟩
      simp only [List.getD_cons_succ, List.cons_append]
      exact congrArg _ h1

/-! ## `update_cell` and `get_cell_contents` on raw bytes -/

theorem update_cell_bytes (t : csv_file_t) (a field rest value : List Nat) (pos : Nat)
    (cell : cell_t)
    (hfile : t.p_file = some ⟨a ++ (field ++ 44 :: rest), pos⟩)
    (hrow : cell.row ≤ t.number_of_rows)
    (hnav : (go_to_column (go_to_row ⟨a ++ (field ++ 44 :: rest), pos⟩ cell.row)
      cell.column).pos = a.length)
    (ha : ∀ b ∈ a, b < 255) (hfield : ∀ b ∈ field, b ≠ 44 ∧ b < 255)
    (hrest : ∀ b ∈ rest, b < 255) :
    t.update_cell value cell
      = some (0, { t with p_file := some ⟨a ++ (value ++ 44 :: rest), 0⟩ }) := by
  have hpad : cell.row - t.number_of_rows = 0 := by omega
  have hcopy := copy_until_prefix a.length a (field ++ 44 :: rest) 0 (by simp) ha
  simp only [csv_file_t.update_cell, hpad, csv_file_t.pad_rows, hfile, hnav, hcopy,
    drop_append_left, skip_field_text field rest hfield]
  have hdrop : (a ++ (field ++ 44 :: rest)).drop (a.length + (field.length + 1)) = rest := by
    rw [← List.drop_drop, drop_append_left, drop_append_cons]
  rw [hdrop, copy_rest_text rest hrest]
  simp

theorem get_cell_contents_bytes (t : csv_file_t) (a field rest content_string : List Nat)
    (pos fuel : Nat) (cell : cell_t)
    (hfile : t.p_file = some ⟨a ++ (field ++ 44 :: rest), pos⟩)
    (hnav : go_to_column (go_to_row ⟨a ++ (field ++ 44 :: rest), pos⟩ cell.row)
      cell.column = ⟨a ++ (field ++ 44 :: rest), a.length⟩)
    (hfield : ∀ b ∈ field, value_byte b) (hfuel : field.length < fuel) :
    t.get_cell_contents fuel content_string cell
      = some (0, content_string ++ field,
          { t with p_file := some ⟨a ++ (field ++ 44 :: rest), a.length + (field.length + 1)⟩ }) := by
  simp only [csv_file_t.get_cell_contents, hfile, hnav, drop_append_left,
    read_cell_field fuel field rest content_string hfield hfuel]

/-! ## Cells of a well-formed table -/

theorem table_bytes_split (pre post : List (List (List Nat))) (fpre fpost : List (List Nat))
    (field : List Nat) :
    table_bytes (pre ++ (fpre ++ field :: fpost) :: post)
      = (table_bytes pre ++ fields_bytes fpre)
        ++ (field ++ 44 :: (fields_bytes fpost ++ 10 :: table_bytes post)) := by
  simp [table_bytes_append, table_bytes, fields_bytes_append, fields_bytes]

theorem p_file_of_bytes (t : csv_file_t) (bytes : List Nat)
    (h : t.p_file.map (·.bytes) = some bytes) : ∃ pos, t.p_file = some ⟨bytes, pos⟩ := by
  cases hf : t.p_file with
  | none => simp [hf] at h
  | some f =>
    rw [hf] at h
    simp only [Option.map_some', Option.some.injEq] at h
    exact ⟨f.pos, by cases f; simp_all⟩

theorem well_formed_split (t : csv_file_t) (records : List (List (List Nat))) (cell : cell_t)
    (hwf : well_formed t records) (hr : cell.row < t.number_of_rows)
    (hc : cell.column < t.number_of_columns) :
    ∃ pre post fpre fpost pos,
      records = pre ++ (fpre ++ cell_at records cell :: fpost) :: post ∧
      pre.length = cell.row ∧ fpre.length = cell.column ∧
      (∀ v, set_cell records cell v = pre ++ (fpre ++ v :: fpost) :: post) ∧
      t.p_file = some ⟨table_bytes records, pos⟩ := by
  obtain ⟨hbytes, hrows, htext, _, _⟩ := hwf
  obtain ⟨pos, hpos⟩ := p_file_of_bytes t _ hbytes
  have hr2 : cell.row < records.length := by omega
  obtain ⟨pre, post, h1, h2, h3⟩ := list_split_at records cell.row [] hr2
  have hmem : records.getD cell.row [] ∈ records := by
    have h := List.mem_append_right pre (List.mem_cons_self (records.getD cell.row []) post)
    rwa [← h1] at h
  have hlen := (htext _ hmem).1
  have hc2 : cell.column < (records.getD cell.row []).length := by omega
  obtain ⟨fpre, fpost, g1, g2, g3⟩ := list_split_at (records.getD cell.row []) cell.column [] hc2
  refine ⟨pre, post, fpre, fpost, pos, ?_, h2, g2, ?_, hpos⟩
  · unfold cell_at
    rw [← g1]; exact h1
  · intro v
    unfold set_cell
    rw [h3, g3]

theorem text_records_split (c : Nat) (pre post : List (List (List Nat)))
    (fpre fpost : List (List Nat)) (field : List Nat)
    (h : text_records c (pre ++ (fpre ++ field :: fpost) :: post)) :
    text_records c pre ∧ (∀ f ∈ fpre, ∀ b ∈ f, field_byte b) ∧ (∀ b ∈ field, field_byte b) ∧
    (∀ b ∈ table_bytes pre ++ fields_bytes fpre, b < 255) ∧
    (∀ b ∈ fields_bytes fpost ++ 10 :: table_bytes post, b < 255) := by
  have hpre : text_records c pre := fun r hr => h r (by simp [hr])
  have hpost : text_records c post := fun r hr => h r (by simp [hr])
  have hrec := (h (fpre ++ field :: fpost) (by simp)).2
  have hfpre : ∀ f ∈ fpre, ∀ b ∈ f, field_byte b := fun f hf => hrec f (by simp [hf])
  have hfpost : ∀ f ∈ fpost, ∀ b ∈ f, field_byte b := fun f hf => hrec f (by simp [hf])
  refine ⟨hpre, hfpre, hrec field (by simp), ?_, ?_⟩
  · intro b hb
    rcases List.mem_append.1 hb with hb | hb
    · exact (table_bytes_text c pre hpre b hb).2
    · exact (fields_bytes_text fpre hfpre b hb).2.2
  · intro b hb
    rcases List.mem_append.1 hb with hb | hb
    · exact (fields_bytes_text fpost hfpost b hb).2.2
    · rcases List.mem_cons.1 hb with hb | hb
      · subst hb; decide
      · exact (table_bytes_text c post hpost b hb).2

theorem update_cell_well_formed (t : csv_file_t) (records : List (List (List Nat)))
    (cell : cell_t) (value : List Nat)
    (hwf : well_formed t records) (hr : cell.row < t.number_of_rows)
    (hc : cell.column < t.number_of_columns) :
    t.update_cell value cell
      = some (0, { t with p_file := some ⟨table_bytes (set_cell records cell value), 0⟩ }) := by
  obtain ⟨pre, post, fpre, fpost, pos, hsplit, hprelen, hfprelen, hset, hfile⟩ :=
    well_formed_split t records cell hwf hr hc
  obtain ⟨_, _, htext, hrows, hcols⟩ := hwf
  rw [hsplit] at htext
  obtain ⟨hpre, hfpre, hfield, ha, hrest⟩ := text_records_split _ _ _ _ _ _ htext
  rw [hset value, table_bytes_split]
  rw [hsplit, table_bytes_split] at hfile
  refine update_cell_bytes t _ (cell_at records cell) _ value pos cell hfile (by omega) ?_ ha
    (fun b hb => ⟨(hfield b hb).1, (hfield b hb).2.2.2⟩) hrest
  have := go_to_cell_pos t.number_of_columns pre fpre
    (cell_at records cell ++ 44 :: (fields_bytes fpost ++ 10 :: table_bytes post)) pos
    hpre hfpre (by omega) (by omega)
  rw [hprelen, hfprelen, ← List.append_assoc] at this
  rw [this]
  simp

theorem get_cell_contents_split (t : csv_file_t) (c : Nat) (pre post : List (List (List Nat)))
    (fpre fpost : List (List Nat)) (field content_string : List Nat) (pos fuel : Nat)
    (hfile : t.p_file = some ⟨table_bytes (pre ++ (fpre ++ field :: fpost) :: post), pos⟩)
    (hpre : text_records c pre) (hfpre : ∀ f ∈ fpre, ∀ b ∈ f, field_byte b)
    (hrow : pre.length < 18446744073709551616) (hcol : fpre.length < 18446744073709551616)
    (hfield : ∀ b ∈ field, value_byte b) (hfuel : field.length < fuel) :
    ∃ pos2, t.get_cell_contents fuel content_string ⟨pre.length, fpre.length⟩
      = some (0, content_string ++ field,
          { t with
            p_file := some ⟨table_bytes (pre ++ (fpre ++ field :: fpost) :: post), pos2⟩ }) := by
  rw [table_bytes_split] at hfile
  have hnav := go_to_cell_pos c pre fpre
    (field ++ 44 :: (fields_bytes fpost ++ 10 :: table_bytes post)) pos
    hpre hfpre hrow hcol
  rw [← List.append_assoc] at hnav
  have := get_cell_contents_bytes t _ field _ content_string pos fuel ⟨pre.length, fpre.length⟩
    hfile (by rw [hnav]; simp) hfield hfuel
  rw [table_bytes_split]
  exact ⟨_, this⟩

theorem get_cell_contents_well_formed (t : csv_file_t) (records : List (List (List Nat)))
    (cell : cell_t) (content_string : List Nat) (fuel : Nat)
    (hwf : well_formed t records) (hr : cell.row < t.number_of_rows)
    (hc : cell.column < t.number_of_columns) (hfuel : (cell_at records cell).length < fuel) :
    ∃ pos2, t.get_cell_contents fuel content_string cell
      = some (0, content_string ++ cell_at records cell,
          { t with p_file := some ⟨table_bytes records, pos2⟩ }) := by
  obtain ⟨pre, post, fpre, fpost, pos, hsplit, hprelen, hfprelen, hset, hfile⟩ :=
    well_formed_split t records cell hwf hr hc
  obtain ⟨_, _, htext, hrows, hcols⟩ := hwf
  have htext2 := htext
  rw [hsplit] at htext2
  obtain ⟨hpre, hfpre, hfield, ha, hrest⟩ := text_records_split _ _ _ _ _ _ htext2
  have hcell : cell = ⟨pre.length, fpre.length⟩ := by
    rw [hprelen, hfprelen]
  have hfile2 := hfile
  rw [hsplit] at hfile2
  obtain ⟨pos2, h⟩ := get_cell_contents_split t t.number_of_columns pre post fpre fpost
    (cell_at records cell) content_string pos fuel hfile2 hpre hfpre (by omega) (by omega)
    (fun b hb => ⟨(hfield b hb).1, (hfield b hb).2.2.1, by have := (hfield b hb).2.2.2; omega⟩)
    hfuel
  refine ⟨pos2, ?_⟩
  rw [← hsplit, ← hcell] at h
  exact h

/-! ## Slots of the handle table -/

theorem slot_of_store_slot (st : csv_module) (h : Int) (t t2 : csv_file_t)
    (hs : slot_of st h = some t) : slot_of (store_slot st h t2) h = some t2 := by
  unfold slot_of at *
  split at hs
  · rename_i hidx
    have hlt := (List.getElem?_eq_some.1 hs).1
    simp [hidx, store_slot, hlt]
  · simp at hs

theorem on_slot_ok (st : csv_module) (h : Int) (t t2 : csv_file_t)
    (op : csv_file_t → Option (Int × csv_file_t))
    (hs : slot_of st h = some t) (hop : op t = some (0, t2)) :
    on_slot st h op = some (0, store_slot st h t2) := by
  simp [on_slot, hs, hop, store_slot]

theorem on_slot_none (st : csv_module) (h : Int) (t : csv_file_t)
    (op : csv_file_t → Option (Int × csv_file_t))
    (hs : slot_of st h = some t) (hop : op t = none) :
    on_slot st h op = none := by
  simp [on_slot, hs, hop]

theorem observe_store_slot (st : csv_module) (h rv : Int) (t t2 : csv_file_t) (f : FILE)
    (hs : slot_of st h = some t) (hf : t2.p_file = some f) :
    observe (some (rv, store_slot st h t2)) h
      = some (rv, f.bytes, t2.number_of_rows, t2.number_of_columns) := by
  simp [observe, slot_of_store_slot st h t t2 hs, hf]

/-! ## Properties of cells -/

/-- On a table of text fields (no field holds a comma, a newline, a NUL or
the byte 255) and for a cell inside the cached bounds, `update_cell`
returns 0 and the file afterwards is the original table with the addressed
field replaced by the value; the cached counts are unchanged. -/
theorem update_cell_text_table (st : csv_module) (h : Int) (t : csv_file_t)
    (records : List (List (List Nat))) (cell : cell_t) (value : List Nat)
    (hslot : slot_of st h = some t) (hwf : well_formed t records)
    (hr : cell.row < t.number_of_rows) (hc : cell.column < t.number_of_columns) :
    observe (update_cell st h value cell) h
      = some (0, table_bytes (set_cell records cell value),
          t.number_of_rows, t.number_of_columns) := by
  have hop := update_cell_well_formed t records cell value hwf hr hc
  unfold update_cell
  rw [on_slot_ok st h t _ _ hslot hop]
  exact observe_store_slot st h 0 t
    { t with p_file := some ⟨table_bytes (set_cell records cell value), 0⟩ }
    ⟨table_bytes (set_cell records cell value), 0⟩ hslot rfl

/-- On a table of text fields and for a cell inside the cached bounds,
`get_cell_contents` with an empty buffer and enough fuel for the loop
returns 0 and leaves in the buffer exactly the bytes of the addressed field;
the file and the cached counts are as before. -/
theorem get_cell_contents_text_table (st : csv_module) (h : Int) (t : csv_file_t)
    (records : List (List (List Nat))) (cell : cell_t) (fuel : Nat)
    (hslot : slot_of st h = some t) (hwf : well_formed t records)
    (hr : cell.row < t.number_of_rows) (hc : cell.column < t.number_of_columns)
    (hfuel : (cell_at records cell).length < fuel) :
    read_result (get_cell_contents fuel st h [] cell) = some (0, cell_at records cell) ∧
    observe (read_state (get_cell_contents fuel st h [] cell)) h
      = some (0, table_bytes records, t.number_of_rows, t.number_of_columns) := by
  obtain ⟨pos2, hop⟩ := get_cell_contents_well_formed t records cell [] fuel hwf hr hc hfuel
  simp only [get_cell_contents, hslot, hop, read_result, read_state, Option.map_some',
    List.nil_append, true_and]
  exact observe_store_slot st h 0 t
    { t with p_file := some ⟨table_bytes records, pos2⟩ }
    ⟨table_bytes records, pos2⟩ hslot rfl

/-- On a table of text fields, for a cell inside the cached bounds and a
value that is a C string without a comma, `update_cell` returns 0 and a
following `get_cell_contents` into an empty buffer, given enough fuel for
its loop, returns 0 and leaves the buffer equal to the value. -/
theorem round_trip_text_table (st : csv_module) (h : Int)
    (t : csv_file_t) (records : List (List (List Nat))) (cell : cell_t)
    (value : List Nat) (fuel : Nat)
    (hslot : slot_of st h = some t) (hwf : well_formed t records)
    (hr : cell.row < t.number_of_rows) (hc : cell.column < t.number_of_columns)
    (hvalue : ∀ b ∈ value, value_byte b) (hfuel : value.length < fuel) :
    (update_cell st h value cell).map (·.1) = some 0 ∧
    read_result ((update_cell st h value cell).bind
      fun r => get_cell_contents fuel r.2 h [] cell) = some (0, value) := by
  have hop := update_cell_well_formed t records cell value hwf hr hc
  obtain ⟨pre, post, fpre, fpost, pos, hsplit, hprelen, hfprelen, hset, hfile⟩ :=
    well_formed_split t records cell hwf hr hc
  obtain ⟨_, _, htext, hrows, hcols⟩ := hwf
  rw [hsplit] at htext
  obtain ⟨hpre, hfpre, _, _, _⟩ := text_records_split _ _ _ _ _ _ htext
  have hcell : cell = ⟨pre.length, fpre.length⟩ := by rw [hprelen, hfprelen]
  obtain ⟨pos2, hget⟩ := get_cell_contents_split
    { t with p_file := some ⟨table_bytes (set_cell records cell value), 0⟩ }
    t.number_of_columns pre post fpre fpost value [] 0 fuel
    (by rw [hset value]) hpre hfpre (by omega) (by omega) hvalue hfuel
  rw [← hcell] at hget
  unfold update_cell
  rw [on_slot_ok st h t _ _ hslot hop]
  simp only [Option.map_some', Option.some_bind, get_cell_contents,
    slot_of_store_slot st h t _ hslot, hget, read_result, List.nil_append, and_self]

/-! ## Cells of a table that holds the byte 255 -/

/-- C7 (what the code does on a table that holds the byte 255): the table of
one record with the fields byte 255 and `b` is what `create_csv_file` with
two columns and one `append_row` leave behind; on it `get_cell_contents`
for cell (0, 1) returns 0 with an empty buffer, while field (0, 1) is `b`:
`go_to_column` takes the byte 255 for `EOF` and stops after it, in front of
the comma of field 0.  File and counts are unchanged. -/
theorem get_cell_contents_misses_field_after_byte_255 :
    ((create_csv_file initial_module "t.csv" 2 (fopen_a_plus none)).bind
        fun r => append_row r.2 r.1 1 (some high_first_data)) = some (0, high_first_module) ∧
    file_bytes high_first_module 1 = some (table_bytes [[[255], [98]]]) ∧
    cell_at [[[255], [98]]] ⟨0, 1⟩ = [98] ∧
    read_result (get_cell_contents 10 high_first_module 1 [] ⟨0, 1⟩) = some (0, []) ∧
    observe (read_state (get_cell_contents 10 high_first_module 1 [] ⟨0, 1⟩)) 1
      = some (0, [255, 44, 98, 44, 10], 1, 2) := by
  decide

/-- C6 (what the code does on a table that holds the byte 255): the table of
one record with the fields `a` and byte 255 is what `create_csv_file` with
two columns and one `append_row` leave behind; on it `update_cell` with the
value `z` for cell (0, 0) returns 0 and leaves the file `z,`: the loop that
copies the rest of the file takes the byte 255 for `EOF`, so field (0, 1),
its comma and the newline are lost.  The table with only field (0, 0)
replaced is `z,`, byte 255, `,`, newline. -/
theorem update_cell_loses_bytes_after_byte_255 :
    ((create_csv_file initial_module "t.csv" 2 (fopen_a_plus none)).bind
        fun r => append_row r.2 r.1 1 (some high_second_data))
      = some (0, high_second_module) ∧
    file_bytes high_second_module 1 = some (table_bytes [[[97], [255]]]) ∧
    observe (update_cell high_second_module 1 [122] ⟨0, 0⟩) 1 = some (0, [122, 44], 1, 2) ∧
    table_bytes (set_cell [[[97], [255]]] ⟨0, 0⟩ [122]) = [122, 44, 255, 44, 10] := by
  decide

/-- C1 (what the code does on a table that holds the byte 255): on the table
of one record with the fields byte 255 and `b`, `update_cell` with the value
`z` for cell (0, 1) returns 0 but rewrites field (0, 0): the file becomes
`z,b,` and a newline; the following `get_cell_contents` for cell (0, 1)
into an empty buffer returns 0 and leaves `b` in the buffer, not `z`. -/
theorem round_trip_fails_after_byte_255 :
    ((create_csv_file initial_module "t.csv" 2 (fopen_a_plus none)).bind
        fun r => append_row r.2 r.1 1 (some high_first_data)) = some (0, high_first_module) ∧
    file_bytes high_first_module 1 = some (table_bytes [[[255], [98]]]) ∧
    observe (update_cell high_first_module 1 [122] ⟨0, 1⟩) 1
      = some (0, [122, 44, 98, 44, 10], 1, 2) ∧
    read_result ((update_cell high_first_module 1 [122] ⟨0, 1⟩).bind
      fun r => get_cell_contents 10 r.2 1 [] ⟨0, 1⟩) = some (0, [98]) := by
  decide

/-! ## Rows: `append_row`, `insert_row` and `delete_row` on one slot -/

theorem write_fields_eq (data : Nat → List Nat) (c : Nat) :
    write_fields data c = fields_bytes (record_of data c) := by
  induction c with
  | zero => rfl
  | succ c ih =>
    simp [write_fields, record_of, List.range_succ, fields_bytes_append, fields_bytes] at *
    rw [ih]

theorem write_commas_eq (c : Nat) :
    write_commas c = fields_bytes (List.replicate c []) := by
  induction c with
  | zero => rfl
  | succ c ih =>
    rw [write_commas, ih, List.replicate_succ']
    simp [fields_bytes_append, fields_bytes]

theorem table_bytes_ends_newline (records : List (List (List Nat))) (hne : records ≠ []) :
    ∃ a, table_bytes records = a ++ [10] := by
  induction records with
  | nil => exact absurd rfl hne
  | cons record records ih =>
    by_cases h : records = []
    · subst h
      exact ⟨fields_bytes record, by simp [table_bytes]⟩
    · obtain ⟨a, ha⟩ := ih h
      exact ⟨fields_bytes record ++ 10 :: a, by simp [table_bytes, ha]⟩

theorem append_row_bytes (t : csv_file_t) (bytes : List Nat) (pos : Nat) (w : Int)
    (data : Option (Nat → List Nat))
    (hfile : t.p_file = some ⟨bytes, pos⟩)
    (hend : t.number_of_rows = 0 ∨ bytes.getLast? = some 10) :
    t.append_row w data
      = some (0, { t with
          p_file := some ⟨bytes ++ append_fields data t.number_of_columns ++ [10],
            (bytes ++ append_fields data t.number_of_columns ++ [10]).length⟩,
          number_of_rows := t.number_of_rows + 1 }) := by
  have h1 : ¬ (t.number_of_rows ≠ 0 ∧ bytes = []) := by
    rintro ⟨hn, hb⟩
    rcases hend with h | h
    · exact hn h
    · simp [hb] at h
  have h2 : ¬ (t.number_of_rows ≠ 0 ∧ bytes.getLast? ≠ some 10) := by
    rintro ⟨hn, hb⟩
    rcases hend with h | h
    · exact hn h
    · exact hb h
  simp only [csv_file_t.append_row, hfile, h1, h2, if_false]

theorem scan_rows_nil (k : Nat) : scan_rows k [] = 0 := by
  induction k with
  | zero => rfl
  | succ k ih => simp [scan_rows, skip_line, ih]

theorem skip_line_le (l : List Nat) : skip_line l ≤ l.length := by
  induction l with
  | nil => simp [skip_line]
  | cons x l ih =>
    simp only [skip_line, List.length_cons]
    split <;> omega

theorem skip_line_pos (x : Nat) (l : List Nat) : 0 < skip_line (x :: l) := by
  simp only [skip_line]
  split <;> omega

theorem scan_rows_saturates (k : Nat) (l : List Nat) (h : l.length ≤ k) :
    scan_rows k l = l.length := by
  induction k generalizing l with
  | zero =>
    have : l = [] := List.length_eq_zero.1 (by omega)
    subst this; rfl
  | succ k ih =>
    cases l with
    | nil => exact scan_rows_nil _
    | cons x l =>
      have h1 := skip_line_le (x :: l)
      have h2 := skip_line_pos x l
      have h3 : ((x :: l).drop (skip_line (x :: l))).length ≤ k := by
        rw [List.length_drop]; simp only [List.length_cons] at *; omega
      rw [scan_rows, ih _ h3, List.length_drop]
      omega

theorem scan_rows_past_table (c : Nat) (records : List (List (List Nat))) (j : Nat)
    (h : text_records c records) :
    scan_rows (records.length + j) (table_bytes records) = (table_bytes records).length := by
  induction records with
  | nil => simp [table_bytes, scan_rows_nil]
  | cons record records ih =>
    have hrec : ∀ b ∈ fields_bytes record, b ≠ 10 ∧ b < 255 := fun b hb =>
      have := fields_bytes_text record (h record (by simp)).2 b hb
      ⟨this.1, this.2.2⟩
    have hskip : skip_line (fields_bytes record ++ 10 :: table_bytes records)
        = (fields_bytes record).length + 1 := skip_line_text _ _ hrec
    have hrest : text_records c records := fun r hr => h r (by simp [hr])
    have hlen : (record :: records).length + j = (records.length + j) + 1 := by
      simp only [List.length_cons]; omega
    rw [hlen]
    simp only [table_bytes, scan_rows, hskip, drop_append_cons, ih hrest,
      List.length_append, List.length_cons]
    omega

theorem insert_row_zero_bytes (t : csv_file_t) (bytes : List Nat) (pos : Nat) (w : Int)
    (data : Nat → List Nat)
    (hfile : t.p_file = some ⟨bytes, pos⟩) (hbytes : ∀ b ∈ bytes, b < 255) :
    t.insert_row 0 w (some data)
      = some (0, { t with
          p_file := some ⟨bytes ++ 10 :: (write_fields data t.number_of_columns ++ [10]), 0⟩,
          number_of_rows := t.number_of_rows + 1 }) := by
  have hcopy := copy_before_all 0 bytes 0 (Or.inl (Nat.le_refl 0)) hbytes
  have hdrop : bytes.drop bytes.length = [] := List.drop_length bytes
  simp [csv_file_t.insert_row, hfile, go_to_row, hcopy, hdrop, copy_rest]

theorem insert_row_at (t : csv_file_t) (pre post : List (List (List Nat))) (pos : Nat)
    (w : Int) (data : Nat → List Nat)
    (hfile : t.p_file = some ⟨table_bytes (pre ++ post), pos⟩)
    (htext : text_records t.number_of_columns (pre ++ post))
    (hne : pre ≠ []) (hlen : pre.length < 18446744073709551616) :
    t.insert_row (pre.length : Int) w (some data)
      = some (0, { t with
          p_file := some ⟨table_bytes (pre ++ record_of data t.number_of_columns :: post), 0⟩,
          number_of_rows := t.number_of_rows + 1 }) := by
  have hpre : text_records t.number_of_columns pre := fun r hr => htext r (by simp [hr])
  have hpost : text_records t.number_of_columns post := fun r hr => htext r (by simp [hr])
  obtain ⟨a, ha⟩ := table_bytes_ends_newline pre hne
  have hatext : ∀ b ∈ a, b < 255 := fun b hb =>
    (table_bytes_text _ pre hpre b (by rw [ha]; simp [hb])).2
  have hposttext : ∀ b ∈ table_bytes post, b < 255 := fun b hb =>
    (table_bytes_text _ post hpost b hb).2
  have hrow1 : ¬ ((pre.length : Int) < -1) := by omega
  have hrow2 : ¬ ((pre.length : Int) = -1) := by omega
  have hnav : (go_to_row ⟨table_bytes (pre ++ post), pos⟩ (pre.length : Int)).pos
      = a.length + 1 := by
    have hscan := scan_rows_table _ pre (table_bytes post) hpre
    rw [go_to_row_pos _ _ hlen, table_bytes_append]
    show scan_rows pre.length (table_bytes pre ++ table_bytes post) = a.length + 1
    rw [hscan, ha]
    simp only [List.length_append, List.length_singleton]
  have hbytes : table_bytes (pre ++ post) = a ++ 10 :: table_bytes post := by
    rw [table_bytes_append, ha]; simp
  have hcopy := copy_before_prefix (a.length + 1) a 10 (table_bytes post) 0 (by omega) hatext
    (by decide)
  simp only [csv_file_t.insert_row, hrow1, hrow2, if_false, hfile, hnav]
  rw [hbytes, hcopy]
  simp only [drop_append_cons, copy_rest_text _ hposttext, write_fields_eq]
  simp [table_bytes_append, table_bytes, ha]

theorem size_t_of_minus_one : size_t_of_int (-1) = 18446744073709551615 := by
  decide

theorem insert_row_minus_one_bytes (t : csv_file_t) (bytes : List Nat) (pos : Nat) (w : Int)
    (data : Nat → List Nat)
    (hfile : t.p_file = some ⟨bytes, pos⟩)
    (hend : t.number_of_rows = 0 ∨ bytes.getLast? = some 10)
    (htext : ∀ b ∈ bytes ++ write_fields data t.number_of_columns, b < 255)
    (hlen : (bytes ++ write_fields data t.number_of_columns).length < 18446744073709551615) :
    t.insert_row (-1) w (some data)
      = some (0, { t with
          p_file := some ⟨bytes ++ write_fields data t.number_of_columns ++ 10 ::
            (write_fields data t.number_of_columns ++ [10]), 0⟩,
          number_of_rows := t.number_of_rows + 1 + 1 }) := by
  have happ := append_row_bytes t bytes pos w (some data) hfile hend
  simp only [append_fields] at happ
  have hsat : scan_rows 18446744073709551615
      (bytes ++ write_fields data t.number_of_columns ++ [10])
      = (bytes ++ write_fields data t.number_of_columns).length + 1 := by
    rw [scan_rows_saturates _ _ (by simp only [List.length_append, List.length_singleton] at *; omega)]
    simp only [List.length_append, List.length_singleton]
  have hcopy := copy_before_prefix
    ((bytes ++ write_fields data t.number_of_columns).length + 1)
    (bytes ++ write_fields data t.number_of_columns) 10 [] 0 (by omega) htext (by decide)
  have hrow1 : ¬ ((-1 : Int) < -1) := by decide
  have hrow2 : ((-1 : Int) = 0) = False := by decide
  simp only [csv_file_t.insert_row, hrow1, if_false, if_true, happ, Option.map_some',
    go_to_row, hrow2, size_t_of_minus_one, hsat, hcopy, drop_append_cons, copy_rest]
  simp

theorem delete_row_zero_bytes (t : csv_file_t) (bytes : List Nat) (pos fuel : Nat)
    (hfile : t.p_file = some ⟨bytes, pos⟩) (hbytes : ∀ b ∈ bytes, b < 255) :
    t.delete_row fuel 0 = none := by
  have hcopy := copy_before_all 0 bytes 0 (Or.inl (Nat.le_refl 0)) hbytes
  have hdrop : bytes.drop bytes.length = [] := List.drop_length bytes
  simp [csv_file_t.delete_row, hfile, go_to_row, hcopy, hdrop, skip_to_newline_nil]

theorem delete_row_at (t : csv_file_t) (pre post : List (List (List Nat)))
    (record : List (List Nat)) (pos fuel : Nat)
    (hfile : t.p_file = some ⟨table_bytes (pre ++ record :: post), pos⟩)
    (htext : text_records t.number_of_columns (pre ++ record :: post))
    (hrows : t.number_of_rows = (pre ++ record :: post).length)
    (hsize : t.number_of_rows < 18446744073709551616)
    (hne : pre ≠ []) (hfuel : (fields_bytes record).length < fuel) :
    t.delete_row fuel (pre.length : Int)
      = some (0, { t with
          p_file := some ⟨table_bytes (pre ++ post), 0⟩,
          number_of_rows := t.number_of_rows - 1 }) := by
  have hpre : text_records t.number_of_columns pre := fun r hr => htext r (by simp [hr])
  have hpost : text_records t.number_of_columns post := fun r hr => htext r (by simp [hr])
  have hrec := fields_bytes_text record (htext record (by simp)).2
  obtain ⟨a, ha⟩ := table_bytes_ends_newline pre hne
  have hatext : ∀ b ∈ a, b < 255 := fun b hb =>
    (table_bytes_text _ pre hpre b (by rw [ha]; simp [hb])).2
  have hposttext : ∀ b ∈ 10 :: table_bytes post, b < 255 := by
    intro b hb
    rcases List.mem_cons.1 hb with hb | hb
    · subst hb; decide
    · exact (table_bytes_text _ post hpost b hb).2
  have hlen : pre.length < 18446744073709551616 := by
    rw [hrows] at hsize; simp only [List.length_append] at hsize; omega
  have hnav : (go_to_row ⟨table_bytes (pre ++ record :: post), pos⟩ (pre.length : Int)).pos
      = a.length + 1 := by
    have hscan := scan_rows_table _ pre (table_bytes (record :: post)) hpre
    rw [go_to_row_pos _ _ hlen, table_bytes_append]
    show scan_rows pre.length (table_bytes pre ++ table_bytes (record :: post)) = a.length + 1
    rw [hscan, ha]
    simp only [List.length_append, List.length_singleton]
  have hbytes : table_bytes (pre ++ record :: post)
      = a ++ 10 :: (fields_bytes record ++ 10 :: table_bytes post) := by
    rw [table_bytes_append, ha]; simp [table_bytes]
  have hcopy := copy_before_prefix (a.length + 1) a 10
    (fields_bytes record ++ 10 :: table_bytes post) 0 (by omega) hatext (by decide)
  have hskip := skip_to_newline_line fuel (fields_bytes record) (table_bytes post)
    (fun b hb => (hrec b hb).1) hfuel
  have hdrop : (a ++ 10 :: (fields_bytes record ++ 10 :: table_bytes post)).drop
      (a.length + 1 + ((fields_bytes record).length + 1) - 1) = 10 :: table_bytes post := by
    have : a.length + 1 + ((fields_bytes record).length + 1) - 1
        = (a.length + 1) + (fields_bytes record).length := by omega
    rw [this, ← List.drop_drop, drop_append_cons, drop_append_left]
  have hcount : size_t_of_int ((t.number_of_rows : Int) - 1) = t.number_of_rows - 1 := by
    have h1 : 1 ≤ t.number_of_rows := by
      rw [hrows]; simp only [List.length_append, List.length_cons]; omega
    unfold size_t_of_int
    omega
  simp only [csv_file_t.delete_row, hfile, hnav]
  rw [hbytes, hcopy]
  simp only [drop_append_cons, hskip, hdrop, copy_rest_text _ hposttext, hcount]
  simp [table_bytes_append, ha]

theorem insert_row_past_end (t : csv_file_t) (records : List (List (List Nat))) (pos : Nat)
    (w : Int) (data : Nat → List Nat) (j : Nat)
    (hfile : t.p_file = some ⟨table_bytes records, pos⟩)
    (htext : text_records t.number_of_columns records)
    (hne : records ≠ []) (hlen : records.length + j < 18446744073709551616) :
    t.insert_row ((records.length + j : Nat) : Int) w (some data)
      = some (0, { t with
          p_file := some ⟨table_bytes (records ++ [record_of data t.number_of_columns]), 0⟩,
          number_of_rows := t.number_of_rows + 1 }) := by
  obtain ⟨a, ha⟩ := table_bytes_ends_newline records hne
  have hatext : ∀ b ∈ a, b < 255 := fun b hb =>
    (table_bytes_text _ records htext b (by rw [ha]; simp [hb])).2
  have hrow1 : ¬ (((records.length + j : Nat) : Int) < -1) := by omega
  have hrow2 : ¬ (((records.length + j : Nat) : Int) = -1) := by omega
  have hnav : (go_to_row ⟨table_bytes records, pos⟩ ((records.length + j : Nat) : Int)).pos
      = a.length + 1 := by
    rw [go_to_row_pos _ _ hlen]
    show scan_rows (records.length + j) (table_bytes records) = a.length + 1
    rw [scan_rows_past_table _ records j htext, ha]
    simp only [List.length_append, List.length_singleton]
  have hcopy := copy_before_prefix (a.length + 1) a 10 [] 0 (by omega) hatext (by decide)
  simp only [csv_file_t.insert_row, hrow1, hrow2, if_false, hfile, hnav]
  rw [ha, hcopy]
  simp only [drop_append_cons, copy_rest, write_fields_eq]
  simp [table_bytes_append, table_bytes, ha]

theorem well_formed_ends_newline (t : csv_file_t) (records : List (List (List Nat)))
    (hwf : well_formed t records) :
    t.number_of_rows = 0 ∨ (table_bytes records).getLast? = some 10 := by
  by_cases h : records = []
  · left; rw [hwf.2.1, h]; rfl
  · right
    obtain ⟨a, ha⟩ := table_bytes_ends_newline records h
    rw [ha]; simp

theorem update_row_middle (t : csv_file_t) (pre post : List (List (List Nat)))
    (old next : List (List Nat)) (pos fuel : Nat) (w : Int) (data : Nat → List Nat)
    (hfile : t.p_file = some ⟨table_bytes (pre ++ old :: next :: post), pos⟩)
    (htext : text_records t.number_of_columns (pre ++ old :: next :: post))
    (hrows : t.number_of_rows = (pre ++ old :: next :: post).length)
    (hsize : t.number_of_rows < 18446744073709551616)
    (hne : pre ≠ []) (hfuel : (fields_bytes old).length < fuel) :
    t.update_row fuel (pre.length : Int) w (some data)
      = some (0, { t with
          p_file := some ⟨table_bytes
            (pre ++ next :: record_of data t.number_of_columns :: post), 0⟩,
          number_of_rows := t.number_of_rows - 1 + 1 }) := by
  have hdel := delete_row_at t pre (next :: post) old pos fuel hfile htext hrows hsize hne hfuel
  have htext2 : text_records t.number_of_columns ((pre ++ [next]) ++ post) := by
    intro r hr
    apply htext r
    simp only [List.mem_append, List.mem_cons, List.mem_singleton, List.not_mem_nil,
      or_false] at hr ⊢
    tauto
  have hlen : (pre ++ [next]).length < 18446744073709551616 := by
    rw [hrows] at hsize
    simp only [List.length_append, List.length_cons, List.length_singleton,
      List.length_nil] at hsize ⊢
    omega
  have hins := insert_row_at
    { t with p_file := some ⟨table_bytes (pre ++ next :: post), 0⟩,
             number_of_rows := t.number_of_rows - 1 }
    (pre ++ [next]) post 0 w data (by simp) htext2 (by simp) hlen
  have hcast : (pre.length : Int) + 1 = ((pre ++ [next]).length : Int) := by simp
  simp only [csv_file_t.update_row, hdel, ne_eq, not_true_eq_false, if_false, hcast, hins]
  simp

/-! ## Properties of rows -/

/-- C2 (what the code does for row index 0): on a well-formed table,
`insert_row` with row index 0 returns 0 and raises the cached row count by
one, but the file afterwards is the whole old table, an empty line, and
only then the new record.  The new record is the last record of the file,
not the first. -/
theorem insert_row_at_zero_writes_after_the_table (st : csv_module) (h : Int)
    (t : csv_file_t) (records : List (List (List Nat))) (w : Int) (data : Nat → List Nat)
    (hslot : slot_of st h = some t) (hwf : well_formed t records) :
    observe (insert_row st h 0 w (some data)) h
      = some (0,
          table_bytes records ++ 10 :: table_bytes [record_of data t.number_of_columns],
          t.number_of_rows + 1, t.number_of_columns) := by
  obtain ⟨pos, hfile⟩ := p_file_of_bytes t _ hwf.1
  have hbytes : ∀ b ∈ table_bytes records, b < 255 := fun b hb =>
    (table_bytes_text _ records hwf.2.2.1 b hb).2
  have hop := insert_row_zero_bytes t _ pos w data hfile hbytes
  unfold insert_row
  rw [on_slot_ok st h t _ _ hslot hop]
  rw [observe_store_slot st h 0 t _ ⟨_, 0⟩ hslot rfl]
  simp [table_bytes, write_fields_eq]

/-- Witness of C2 on the one-row table `a,b,`: inserting `x,y,` before row 0
leaves `a,b,`, an empty line and `x,y,`. -/
theorem insert_row_at_zero_writes_after_the_table_witness :
    slot_of one_row_module 1 = some one_row_slot ∧
    well_formed one_row_slot [[[97], [98]]] ∧
    observe (insert_row one_row_module 1 0 1 (some example_data)) 1
      = some (0, [97, 44, 98, 44, 10, 10, 120, 44, 121, 44, 10], 2, 2) :=
  ⟨by decide, by decide,
    insert_row_at_zero_writes_after_the_table one_row_module 1 one_row_slot [[[97], [98]]] 1
      example_data (by decide) (by decide)⟩

/-- C3 (what the code does for row index 0): on a well-formed table,
`delete_row` with row index 0 never returns, whatever the fuel: the copy
loop reads the whole file and the loop looking for the newline then reads
`EOF` for ever. -/
theorem delete_row_zero_never_returns (st : csv_module) (h : Int) (t : csv_file_t)
    (records : List (List (List Nat))) (fuel : Nat)
    (hslot : slot_of st h = some t) (hwf : well_formed t records) :
    delete_row fuel st h 0 = none := by
  obtain ⟨pos, hfile⟩ := p_file_of_bytes t _ hwf.1
  have hbytes : ∀ b ∈ table_bytes records, b < 255 := fun b hb =>
    (table_bytes_text _ records hwf.2.2.1 b hb).2
  exact on_slot_none st h t _ hslot (delete_row_zero_bytes t _ pos fuel hfile hbytes)

/-- Witness of C3 on the one-row table `a,b,`. -/
theorem delete_row_zero_never_returns_witness :
    slot_of one_row_module 1 = some one_row_slot ∧
    well_formed one_row_slot [[[97], [98]]] ∧
    delete_row 1000 one_row_module 1 0 = none :=
  ⟨by decide, by decide,
    delete_row_zero_never_returns one_row_module 1 one_row_slot [[[97], [98]]] 1000
      (by decide) (by decide)⟩

/-- C4 (what the code does for row index -1): on a well-formed table whose
new record holds no byte 255, `append_row` adds the record once and raises
the cached row count by one, while `insert_row` with row index -1 first
appends the record and then goes on to the splice, which writes the record
a second time: two records are added and the row count grows by two. -/
theorem insert_row_minus_one_adds_two_records (st : csv_module) (h : Int)
    (t : csv_file_t) (records : List (List (List Nat))) (w : Int) (data : Nat → List Nat)
    (hslot : slot_of st h = some t) (hwf : well_formed t records)
    (hdata : ∀ b ∈ fields_bytes (record_of data t.number_of_columns), b < 255)
    (hlen : (table_bytes (records ++ [record_of data t.number_of_columns])).length
      < 18446744073709551616) :
    observe (append_row st h w (some data)) h
      = some (0, table_bytes (records ++ [record_of data t.number_of_columns]),
          t.number_of_rows + 1, t.number_of_columns) ∧
    observe (insert_row st h (-1) w (some data)) h
      = some (0, table_bytes (records ++ [record_of data t.number_of_columns,
            record_of data t.number_of_columns]),
          t.number_of_rows + 2, t.number_of_columns) := by
  obtain ⟨pos, hfile⟩ := p_file_of_bytes t _ hwf.1
  have hend := well_formed_ends_newline t records hwf
  have hbytes : ∀ b ∈ table_bytes records ++ write_fields data t.number_of_columns,
      b < 255 := by
    intro b hb
    rcases List.mem_append.1 hb with hb | hb
    · exact (table_bytes_text _ records hwf.2.2.1 b hb).2
    · rw [write_fields_eq] at hb; exact hdata b hb
  have hlen2 : (table_bytes records ++ write_fields data t.number_of_columns).length
      < 18446744073709551615 := by
    rw [write_fields_eq]
    simp only [table_bytes_append, table_bytes, List.length_append, List.length_cons,
      List.length_nil] at hlen ⊢
    omega
  have happ := append_row_bytes t _ pos w (some data) hfile hend
  have hins := insert_row_minus_one_bytes t _ pos w data hfile hend hbytes hlen2
  constructor
  · unfold append_row
    rw [on_slot_ok st h t _ _ hslot happ, observe_store_slot st h 0 t _ ⟨_, _⟩ hslot rfl]
    simp [append_fields, write_fields_eq, table_bytes_append, table_bytes]
  · unfold insert_row
    rw [on_slot_ok st h t _ _ hslot hins, observe_store_slot st h 0 t _ ⟨_, _⟩ hslot rfl]
    simp [write_fields_eq, table_bytes_append, table_bytes]

/-- Witness of C4 on the one-row table `a,b,` and the record `x,y,`. -/
theorem insert_row_minus_one_adds_two_records_witness :
    slot_of one_row_module 1 = some one_row_slot ∧
    well_formed one_row_slot [[[97], [98]]] ∧
    observe (append_row one_row_module 1 1 (some example_data)) 1
      = some (0, table_bytes ([[[97], [98]]] ++ [record_of example_data 2]), 1 + 1, 2) ∧
    observe (insert_row one_row_module 1 (-1) 1 (some example_data)) 1
      = some (0, table_bytes ([[[97], [98]]] ++ [record_of example_data 2,
            record_of example_data 2]), 1 + 2, 2) :=
  ⟨by decide, by decide,
    insert_row_minus_one_adds_two_records one_row_module 1 one_row_slot [[[97], [98]]] 1
      example_data (by decide) (by decide) (by decide) (by decide)⟩

/-- C5 (what the code does for a row that is neither the first nor the
last): on a well-formed table `update_row` returns 0 and keeps the cached
row count, but the new record is written one row too low: the file holds
the rows before the old record, then the row that followed it, then the new
record, then the remaining rows. -/
theorem update_row_writes_one_row_late (st : csv_module) (h : Int) (t : csv_file_t)
    (pre post : List (List (List Nat))) (old next : List (List Nat)) (fuel : Nat) (w : Int)
    (data : Nat → List Nat)
    (hslot : slot_of st h = some t) (hwf : well_formed t (pre ++ old :: next :: post))
    (hne : pre ≠ []) (hfuel : (fields_bytes old).length < fuel) :
    observe (update_row fuel st h (pre.length : Int) w (some data)) h
      = some (0, table_bytes (pre ++ next :: record_of data t.number_of_columns :: post),
          t.number_of_rows, t.number_of_columns) := by
  obtain ⟨pos, hfile⟩ := p_file_of_bytes t _ hwf.1
  have hop := update_row_middle t pre post old next pos fuel w data hfile hwf.2.2.1
    hwf.2.1 hwf.2.2.2.1 hne hfuel
  have hrows : t.number_of_rows - 1 + 1 = t.number_of_rows := by
    have := hwf.2.1
    simp only [List.length_append, List.length_cons] at this
    omega
  unfold update_row
  rw [on_slot_ok st h t _ _ hslot hop, observe_store_slot st h 0 t _ ⟨_, 0⟩ hslot rfl, hrows]

/-- Witness of C5 on the table `a,b,` / `c,d,` / `e,f,`: updating row 1 with
`x,y,` leaves `a,b,` / `e,f,` / `x,y,`. -/
theorem update_row_writes_one_row_late_witness :
    slot_of example_module 1 = some example_slot ∧
    well_formed example_slot ([[[97], [98]]] ++ [[99], [100]] :: [[101], [102]] :: []) ∧
    observe (update_row 5 example_module 1 1 1 (some example_data)) 1
      = some (0, table_bytes [[[97], [98]], [[101], [102]], [[120], [121]]], 3, 2) :=
  ⟨by decide, by decide,
    update_row_writes_one_row_late example_module 1 example_slot [[[97], [98]]] []
      [[99], [100]] [[101], [102]] 5 1 example_data (by decide) (by decide) (by decide)
      (by decide)⟩

/-! ## Properties of `append_row` -/

theorem append_fields_eq (c : Nat) (data : Option (Nat → List Nat)) :
    append_fields data c = fields_bytes (call_record c data) := by
  cases data with
  | none => exact write_commas_eq c
  | some d => exact write_fields_eq d c

theorem table_bytes_snoc (records : List (List (List Nat))) (record : List (List Nat)) :
    table_bytes (records ++ [record]) = table_bytes records ++ fields_bytes record ++ [10] := by
  simp [table_bytes_append, table_bytes]

theorem append_rows_on_table (st : csv_module) (h : Int) (t : csv_file_t)
    (records : List (List (List Nat))) (pos : Nat)
    (calls : List (Int × Option (Nat → List Nat)))
    (hslot : slot_of st h = some t)
    (hfile : t.p_file = some ⟨table_bytes records, pos⟩)
    (hrows : t.number_of_rows = records.length) :
    observe (append_rows st h calls) h
      = some (0,
          table_bytes (records ++ calls.map fun call => call_record t.number_of_columns call.2),
          records.length + calls.length, t.number_of_columns) := by
  induction calls generalizing st t records pos with
  | nil => simp [append_rows, observe, hslot, hfile, hrows]
  | cons call calls ih =>
    have hend : t.number_of_rows = 0 ∨ (table_bytes records).getLast? = some 10 := by
      by_cases hnil : records = []
      · left; rw [hrows, hnil]; rfl
      · right
        obtain ⟨a, ha⟩ := table_bytes_ends_newline records hnil
        rw [ha]; simp
    have happ := append_row_bytes t _ pos call.1 call.2 hfile hend
    rw [append_fields_eq, ← table_bytes_snoc] at happ
    have hstep : append_row st h call.1 call.2 = some (0, store_slot st h _) :=
      on_slot_ok st h t _ _ hslot happ
    have hnext := ih
      (store_slot st h
        { t with
          p_file := some ⟨table_bytes (records ++ [call_record t.number_of_columns call.2]),
            (table_bytes (records ++ [call_record t.number_of_columns call.2])).length⟩,
          number_of_rows := t.number_of_rows + 1 })
      { t with
        p_file := some ⟨table_bytes (records ++ [call_record t.number_of_columns call.2]),
          (table_bytes (records ++ [call_record t.number_of_columns call.2])).length⟩,
        number_of_rows := t.number_of_rows + 1 }
      (records ++ [call_record t.number_of_columns call.2]) _
      (slot_of_store_slot st h t _ hslot) rfl (by simp [hrows])
    simp only [append_rows, hstep, ne_eq, not_true_eq_false, if_false]
    rw [hnext]
    simp only [List.append_assoc, List.singleton_append, List.map_cons, List.length_append,
      List.length_singleton, List.length_cons, List.length_nil]
    have : records.length + (0 + 1) + calls.length = records.length + (calls.length + 1) := by
      omega
    rw [this]

theorem create_csv_file_new (path : String) (c : Nat) (hc : c < 2147483648) :
    create_csv_file initial_module path (c : Int) (fopen_a_plus none)
      = some (1, { s_csv_files := [{ p_file := some ⟨[], 0⟩, number_of_rows := 0,
                                     number_of_columns := c, absolute_path := path }],
                   s_number_of_open_files := 1, s_free_indexes := [1], errno := 0 }) := by
  have h0 : size_t_of_int 0 = 0 := by decide
  have hcc : size_t_of_int (c : Int) = c := size_t_of_nat (by omega)
  simp [create_csv_file, open_csv_file, initial_module, MAX_CONCURRENT_CSV_FILES,
    find_free_index, fopen_a_plus, set_column_count, set_row_count, slot_of, store_slot,
    convert_handle_to_index, calculate_row_count, calculate_column_count, h0, hcc]

theorem get_row_count_of_observe (r : Option (Int × csv_module)) (h rv : Int)
    (bytes : List Nat) (rows columns : Nat)
    (hobs : observe r h = some (rv, bytes, rows, columns)) :
    (r.bind fun q => get_row_count q.2 h) = some (int_of_size_t rows) := by
  cases r with
  | none => simp [observe] at hobs
  | some q =>
    obtain ⟨rv2, st⟩ := q
    simp only [observe] at hobs
    cases hslot : slot_of st h with
    | none => simp [hslot] at hobs
    | some t =>
      cases hfile : t.p_file with
      | none => simp [hslot, hfile] at hobs
      | some f =>
        simp only [hslot, hfile, Option.some.injEq, Prod.mk.injEq] at hobs
        simp [get_row_count, hslot, hobs.2.2.1]

theorem int_of_size_t_small (n : Nat) (h : n < 2147483648) : int_of_size_t n = (n : Int) := by
  unfold int_of_size_t
  have hmod : n % 4294967296 = n := Nat.mod_eq_of_lt (by omega)
  rw [hmod, if_neg (by omega)]

theorem append_row_n_times_observed (path : String) (c : Nat)
    (calls : List (Int × Option (Nat → List Nat))) (hc : c < 2147483648) :
    observe ((create_csv_file initial_module path (c : Int) (fopen_a_plus none)).bind
        fun r => append_rows r.2 r.1 calls) 1
      = some (0, table_bytes (calls.map fun call => call_record c call.2),
          calls.length, c) := by
  rw [create_csv_file_new path c hc]
  have := append_rows_on_table
    { s_csv_files := [{ p_file := some ⟨[], 0⟩, number_of_rows := 0,
                        number_of_columns := c, absolute_path := path }],
      s_number_of_open_files := 1, s_free_indexes := [1], errno := 0 } 1
    { p_file := some ⟨[], 0⟩, number_of_rows := 0, number_of_columns := c,
      absolute_path := path } [] 0 calls (by simp [slot_of, convert_handle_to_index]) rfl rfl
  simpa using this

/-- C8, counterexample: `get_row_count` returns an `int`, so no state of the
module reports a row count of 2^31; after 2^31 calls of `append_row` with a
NULL array on a table freshly created with two columns it reports
-2147483648, not the number of calls. -/
theorem append_row_count_leaves_int :
    (¬ ∃ (st : csv_module) (h : Int), get_row_count st h = some 2147483648) ∧
    (((create_csv_file initial_module "t.csv" ((2 : Nat) : Int) (fopen_a_plus none)).bind
        fun r => append_rows r.2 r.1 (List.replicate 2147483648 (0, none))).bind
        fun q => get_row_count q.2 1) = some (-2147483648) := by
  constructor
  · rintro ⟨st, h, hget⟩
    unfold get_row_count at hget
    cases hslot : slot_of st h with
    | none => simp [hslot] at hget
    | some t =>
      simp only [hslot, Option.map_some', Option.some.injEq] at hget
      unfold int_of_size_t at hget
      have hlt : t.number_of_rows % 4294967296 < 4294967296 := Nat.mod_lt _ (by decide)
      split at hget <;> omega
  · have hobs := append_row_n_times_observed "t.csv" 2
      (List.replicate 2147483648 (0, none)) (by decide)
    rw [get_row_count_of_observe _ 1 _ _ _ _ hobs, List.length_replicate]
    decide

/-- C8, amended: on a table freshly created with `c` columns and no file at
the path, any sequence of `N` calls of `append_row`, `N` being at most
`INT_MAX`, returns 0 throughout, leaves the cached row count equal to `N`,
also as `get_row_count` reports it, and leaves the file equal to the
records of the calls in call order: for a call with an array each of the
`c` values followed by a comma and then a newline, for a call with a NULL
array `c` commas and a newline.  The bound on `N` keeps every
`get_row_count() + 1` of the source inside `int`. -/
theorem append_row_n_times (path : String) (c : Nat)
    (calls : List (Int × Option (Nat → List Nat))) (hc : c < 2147483648)
    (hcalls : calls.length < 2147483648) :
    observe ((create_csv_file initial_module path (c : Int) (fopen_a_plus none)).bind
        fun r => append_rows r.2 r.1 calls) 1
      = some (0, table_bytes (calls.map fun call => call_record c call.2),
          calls.length, c) ∧
    (((create_csv_file initial_module path (c : Int) (fopen_a_plus none)).bind
        fun r => append_rows r.2 r.1 calls).bind fun q => get_row_count q.2 1)
      = some (calls.length : Int) := by
  have hobs := append_row_n_times_observed path c calls hc
  refine ⟨hobs, ?_⟩
  rw [get_row_count_of_observe _ 1 _ _ _ _ hobs, int_of_size_t_small _ hcalls]

/-- Witness of amended C8: two columns, one call with the array `x`, `y`,
one call with a NULL array and one more call with the array. -/
theorem append_row_n_times_witness :
    (2 : Nat) < 2147483648 ∧
    [((1 : Int), some example_data), (0, none), (1, some example_data)].length
      < 2147483648 ∧
    observe ((create_csv_file initial_module "t.csv" ((2 : Nat) : Int) (fopen_a_plus none)).bind
        fun r => append_rows r.2 r.1
          [(1, some example_data), (0, none), (1, some example_data)]) 1
      = some (0, table_bytes (List.map (fun call => call_record 2 call.2)
            [((1 : Int), some example_data), (0, none), (1, some example_data)]),
          [((1 : Int), some example_data), (0, none), (1, some example_data)].length, 2) ∧
    (((create_csv_file initial_module "t.csv" ((2 : Nat) : Int) (fopen_a_plus none)).bind
        fun r => append_rows r.2 r.1
          [(1, some example_data), (0, none), (1, some example_data)]).bind
        fun q => get_row_count q.2 1)
      = some (([((1 : Int), some example_data), (0, none), (1, some example_data)].length
          : Nat) : Int) :=
  ⟨by decide, by decide, append_row_n_times "t.csv" 2
    [(1, some example_data), (0, none), (1, some example_data)] (by decide) (by decide)⟩

/-- C9 (what the code does when the cached row count is 0): the file `a,b,`
has no newline, so `open_csv_file` caches a row count of 0; `append_row`
with the array `x`, `y` then writes the record straight after the old
content.  The file becomes `a,b,x,y,` and a newline, one line of four
fields in a table of two columns, not `a,b,`, a newline, `x,y,` and a
newline.  With the same file and a cached row count of 1 the newline is
written. -/
theorem append_row_no_newline_when_count_is_zero :
    open_csv_file initial_module "t.csv" (.ok ⟨[97, 44, 98, 44], 0⟩)
      = some (1, unterminated_module) ∧
    observe (append_row unterminated_module 1 1 (some example_data)) 1
      = some (0, [97, 44, 98, 44, 120, 44, 121, 44, 10], 1, 2) ∧
    observe (append_row unterminated_module 1 1 (some example_data)) 1
      ≠ some (0, [97, 44, 98, 44] ++ 10 :: [120, 44, 121, 44, 10], 1, 2) ∧
    observe (append_row counted_module 1 1 (some example_data)) 1
      = some (0, [97, 44, 98, 44] ++ 10 :: [120, 44, 121, 44, 10], 2, 2) := by
  decide

/-- For an open table whose file is not empty and does not end with a
newline and whose cached row count is below `INT_MAX`, `append_row` returns
0 and raises the cached row count by one; when the cached row count is not
0 it writes a newline before the new record, and when the cached row count
is 0 it writes the new record directly after the old content. -/
theorem append_row_unterminated_file (st : csv_module) (h : Int)
    (t : csv_file_t) (bytes : List Nat) (pos : Nat) (w : Int)
    (data : Option (Nat → List Nat))
    (hslot : slot_of st h = some t) (hfile : t.p_file = some ⟨bytes, pos⟩)
    (hne : bytes ≠ []) (hlast : bytes.getLast? ≠ some 10)
    (hrows : t.number_of_rows < 2147483647) :
    observe (append_row st h w data) h
      = some (0,
          (if t.number_of_rows = 0 then bytes else bytes ++ [10])
            ++ fields_bytes (call_record t.number_of_columns data) ++ [10],
          t.number_of_rows + 1, t.number_of_columns) := by
  have hop : t.append_row w data
      = some (0, { t with
          p_file := some ⟨(if t.number_of_rows = 0 then bytes else bytes ++ [10])
              ++ fields_bytes (call_record t.number_of_columns data) ++ [10],
            ((if t.number_of_rows = 0 then bytes else bytes ++ [10])
              ++ fields_bytes (call_record t.number_of_columns data) ++ [10]).length⟩,
          number_of_rows := t.number_of_rows + 1 }) := by
    by_cases hn : t.number_of_rows = 0
    · simp [csv_file_t.append_row, hfile, hn, append_fields_eq]
    · simp [csv_file_t.append_row, hfile, hn, hne, hlast, append_fields_eq]
  unfold append_row
  rw [on_slot_ok st h t _ _ hslot hop]
  exact observe_store_slot st h 0 t _ ⟨_, _⟩ hslot rfl

/-! ## Scenario -/

/-- C10: with no table open and no file at the path, `create_csv_file(path,
2)` returns handle 1 (empty file, row count 0, column count 2); then
`append_row(1, ["a", "b"])` returns 0 and leaves the file `a,b,` and a
newline with row count 1; then `update_cell(1, "z", {row 0, column 1})`
returns 0 and leaves the file `a,z,` and a newline with row count 1. -/
theorem scenario_create_append_update :
    observe scenario_created 1 = some (1, [], 0, 2) ∧
    observe scenario_appended 1 = some (0, [97, 44, 98, 44, 10], 1, 2) ∧
    observe scenario_updated 1 = some (0, [97, 44, 122, 44, 10], 1, 2) := by
  decide

/-! ## `update_cell` on a row at or past the cached row count -/

theorem scan_columns_nil (k : Nat) : scan_columns k [] = 0 := by
  induction k with
  | zero => rfl
  | succ k ih => simp [scan_columns, skip_field, ih]

theorem text_records_empty (count c : Nat) : text_records c (empty_records count c) := by
  intro record hrecord
  have := List.eq_of_mem_replicate hrecord
  subst this
  refine ⟨by simp, ?_⟩
  intro field hfield
  have := List.eq_of_mem_replicate hfield
  subst this
  simp

theorem text_records_append (c : Nat) (r1 r2 : List (List (List Nat)))
    (h1 : text_records c r1) (h2 : text_records c r2) : text_records c (r1 ++ r2) := by
  intro record hrecord
  rcases List.mem_append.1 hrecord with h | h
  · exact h1 record h
  · exact h2 record h

theorem pad_rows_table (k : Nat) (t : csv_file_t) (records : List (List (List Nat)))
    (pos : Nat)
    (hfile : t.p_file = some ⟨table_bytes records, pos⟩)
    (hrows : t.number_of_rows = records.length) :
    ∃ pos2, csv_file_t.pad_rows k t
      = some { t with
          p_file := some ⟨table_bytes (records ++ empty_records k t.number_of_columns), pos2⟩,
          number_of_rows := records.length + k } := by
  induction k generalizing t records pos with
  | zero =>
    refine ⟨pos, ?_⟩
    simp [csv_file_t.pad_rows, empty_records, ← hfile, ← hrows]
  | succ k ih =>
    have hend : t.number_of_rows = 0 ∨ (table_bytes records).getLast? = some 10 := by
      by_cases hnil : records = []
      · left; rw [hrows, hnil]; rfl
      · right
        obtain ⟨a, ha⟩ := table_bytes_ends_newline records hnil
        rw [ha]; simp
    have happ := append_row_bytes t _ pos 0 none hfile hend
    rw [append_fields_eq, ← table_bytes_snoc] at happ
    obtain ⟨pos2, hnext⟩ := ih
      { t with
        p_file := some ⟨table_bytes (records ++ [call_record t.number_of_columns none]),
          (table_bytes (records ++ [call_record t.number_of_columns none])).length⟩,
        number_of_rows := t.number_of_rows + 1 }
      (records ++ [call_record t.number_of_columns none]) _ rfl (by simp [hrows])
    refine ⟨pos2, ?_⟩
    simp only [csv_file_t.pad_rows, happ, hnext]
    simp [empty_records, call_record, List.replicate_succ]
    omega

theorem update_cell_past_end (t : csv_file_t) (records : List (List (List Nat)))
    (cell : cell_t) (value : List Nat)
    (hwf : well_formed t records) (hrow : t.number_of_rows ≤ cell.row)
    (hrange : cell.row < 18446744073709551616)
    (hcolumn : cell.column < 18446744073709551616) :
    t.update_cell value cell
      = some (0, { t with
          p_file := some ⟨table_bytes
              (records ++ empty_records (cell.row - t.number_of_rows) t.number_of_columns)
            ++ (value ++ [44]), 0⟩,
          number_of_rows := cell.row }) := by
  obtain ⟨pos, hfile⟩ := p_file_of_bytes t _ hwf.1
  obtain ⟨pos2, hpad⟩ := pad_rows_table (cell.row - t.number_of_rows) t records pos hfile
    hwf.2.1
  have htext : text_records t.number_of_columns
      (records ++ empty_records (cell.row - t.number_of_rows) t.number_of_columns) :=
    text_records_append _ _ _ hwf.2.2.1 (text_records_empty _ _)
  have hlen : (records ++ empty_records (cell.row - t.number_of_rows)
      t.number_of_columns).length = cell.row := by
    have := hwf.2.1
    simp only [List.length_append, empty_records, List.length_replicate]
    omega
  have hbytes : ∀ b ∈ table_bytes
      (records ++ empty_records (cell.row - t.number_of_rows) t.number_of_columns),
      b < 255 := fun b hb => (table_bytes_text _ _ htext b hb).2
  have hscan := scan_rows_past_table _ _ 0 htext
  rw [Nat.add_zero, hlen] at hscan
  have hcopy := copy_until_prefix _ _ [] 0 (Nat.zero_add _) hbytes
  rw [List.append_nil] at hcopy
  have hrows : records.length + (cell.row - t.number_of_rows) = cell.row := by
    have := hwf.2.1
    omega
  simp only [csv_file_t.update_cell, hpad, go_to_row_pos _ _ hrange,
    go_to_column_pos _ _ hcolumn, hscan, List.drop_length, scan_columns_nil, Nat.add_zero,
    hcopy, skip_field, copy_rest, List.append_nil, hrows]

theorem update_cell_past_end_observed (st : csv_module) (h : Int) (t : csv_file_t)
    (records : List (List (List Nat))) (cell : cell_t) (value : List Nat)
    (hslot : slot_of st h = some t) (hwf : well_formed t records)
    (hrow : t.number_of_rows ≤ cell.row) (hrange : cell.row < 18446744073709551616)
    (hcolumn : cell.column < 18446744073709551616) :
    observe (update_cell st h value cell) h
      = some (0,
          table_bytes (records ++ empty_records (cell.row - t.number_of_rows)
            t.number_of_columns) ++ (value ++ [44]),
          cell.row, t.number_of_columns) := by
  have hop := update_cell_past_end t records cell value hwf hrow hrange hcolumn
  unfold update_cell
  rw [on_slot_ok st h t _ _ hslot hop]
  exact observe_store_slot st h 0 t _ ⟨_, 0⟩ hslot rfl

/-- On a table of text fields with row count `n` and column count `c`,
`update_cell` on a cell whose row is at least `n`, row and column being
`int` values, returns 0 and leaves the file equal to the old content, then
exactly `cell.row - n` empty records (each `c` commas and a newline), then
the value and a comma. -/
theorem update_cell_pads_text_table (st : csv_module) (h : Int) (t : csv_file_t)
    (records : List (List (List Nat))) (cell : cell_t) (value : List Nat)
    (hslot : slot_of st h = some t) (hwf : well_formed t records)
    (hrow : t.number_of_rows ≤ cell.row) (hrange : cell.row < 2147483648)
    (hcolumn : cell.column < 2147483648) :
    observe (update_cell st h value cell) h
      = some (0,
          table_bytes records
            ++ table_bytes (empty_records (cell.row - t.number_of_rows) t.number_of_columns)
            ++ (value ++ [44]),
          cell.row, t.number_of_columns) := by
  rw [update_cell_past_end_observed st h t records cell value hslot hwf hrow (by omega)
    (by omega), table_bytes_append]

/-- C14 (what the code does on a table that holds the byte 255): the table of
one record with the fields `a` and byte 255 is what `create_csv_file` with
two columns and one `append_row` leave behind; on it `update_cell` with the
value `z` for cell (2, 0) returns 0 and leaves the file `a,z,`, newline,
`,,`, newline.  One empty record was appended, but the scans and the copy
loop take the byte 255 for `EOF`: field (0, 1) is lost and the value stands
in row 0, before the appended record.  The old content, then one empty
record, then the value and a comma is `a,`, byte 255, `,`, newline, `,,`,
newline, `z,`. -/
theorem update_cell_past_end_misplaces_value_after_byte_255 :
    ((create_csv_file initial_module "t.csv" 2 (fopen_a_plus none)).bind
        fun r => append_row r.2 r.1 1 (some high_second_data))
      = some (0, high_second_module) ∧
    file_bytes high_second_module 1 = some (table_bytes [[[97], [255]]]) ∧
    observe (update_cell high_second_module 1 [122] ⟨2, 0⟩) 1
      = some (0, [97, 44, 122, 44, 10, 44, 44, 10], 2, 2) ∧
    table_bytes [[[97], [255]]] ++ table_bytes (empty_records (2 - 1) 2) ++ ([122] ++ [44])
      = [97, 44, 255, 44, 10, 44, 44, 10, 122, 44] := by
  decide

/-- C13 (what the code does for a row at or past the cached row count): on
a well-formed table `update_cell` returns 0 and leaves a file whose last
byte is the comma written after the value; the last record of the file is
not terminated by a newline. -/
theorem update_cell_leaves_unterminated_record (st : csv_module) (h : Int) (t : csv_file_t)
    (records : List (List (List Nat))) (cell : cell_t) (value : List Nat)
    (hslot : slot_of st h = some t) (hwf : well_formed t records)
    (hrow : t.number_of_rows ≤ cell.row) (hrange : cell.row < 18446744073709551616)
    (hcolumn : cell.column < 18446744073709551616) :
    (observe (update_cell st h value cell) h).map (fun r => (r.1, r.2.1.getLast?))
      = some (0, some 44) := by
  rw [update_cell_past_end_observed st h t records cell value hslot hwf hrow hrange hcolumn]
  simp [← List.append_assoc]

/-- Witness of C13: cell (0, 0) of an empty table of two columns receives
`z`; the file is `z,` and nothing else. -/
theorem update_cell_leaves_unterminated_record_witness :
    slot_of empty_module 1 = some empty_slot ∧
    well_formed empty_slot [] ∧
    observe (update_cell empty_module 1 [122] ⟨0, 0⟩) 1 = some (0, [122, 44], 0, 2) ∧
    (observe (update_cell empty_module 1 [122] ⟨0, 0⟩) 1).map (fun r => (r.1, r.2.1.getLast?))
      = some (0, some 44) :=
  ⟨by decide, by decide, by decide,
    update_cell_leaves_unterminated_record empty_module 1 empty_slot [] ⟨0, 0⟩ [122]
      (by decide) (by decide) (by decide) (by decide) (by decide)⟩

/-- C15 (what the code does for a row at or past the cached row count): on
a well-formed table `update_cell` returns 0, leaves the cached row count
equal to `cell.row` and not `cell.row + 1`, and after the `cell.row`
complete records the file holds only the value and one comma, whatever the
column: the target row has one field and no newline. -/
theorem update_cell_target_row_is_incomplete (st : csv_module) (h : Int) (t : csv_file_t)
    (records : List (List (List Nat))) (cell : cell_t) (value : List Nat)
    (hslot : slot_of st h = some t) (hwf : well_formed t records)
    (hrow : t.number_of_rows ≤ cell.row) (hrange : cell.row < 18446744073709551616)
    (hcolumn : cell.column < 18446744073709551616) :
    (observe (update_cell st h value cell) h).map
        (fun r => (r.1, r.2.2.1,
          r.2.1.drop (table_bytes (records ++ empty_records (cell.row - t.number_of_rows)
            t.number_of_columns)).length))
      = some (0, cell.row, value ++ [44]) := by
  rw [update_cell_past_end_observed st h t records cell value hslot hwf hrow hrange hcolumn]
  simp

/-- Witness of C15: cell (1, 1) of the one-row table `a,b,` receives `z`; the
row count stays 1 and the file becomes `a,b,`, a newline and `z,`. -/
theorem update_cell_target_row_is_incomplete_witness :
    slot_of one_row_module 1 = some one_row_slot ∧
    well_formed one_row_slot [[[97], [98]]] ∧
    observe (update_cell one_row_module 1 [122] ⟨1, 1⟩) 1
      = some (0, [97, 44, 98, 44, 10, 122, 44], 1, 2) ∧
    (observe (update_cell one_row_module 1 [122] ⟨1, 1⟩) 1).map
        (fun r => (r.1, r.2.2.1,
          r.2.1.drop (table_bytes ([[[97], [98]]] ++ empty_records (1 - 1) 2)).length))
      = some (0, 1, [122] ++ [44]) :=
  ⟨by decide, by decide, by decide,
    update_cell_target_row_is_incomplete one_row_module 1 one_row_slot [[[97], [98]]]
      ⟨1, 1⟩ [122] (by decide) (by decide) (by decide) (by decide) (by decide)⟩

/-! ## `insert_row` with row index 0: row count and inverse -/

theorem newline_count_append (a b : List Nat) :
    newline_count (a ++ b) = newline_count a + newline_count b := by
  simp [newline_count]

theorem newline_count_fields (record : List (List Nat))
    (h : ∀ field ∈ record, ∀ b ∈ field, field_byte b) :
    newline_count (fields_bytes record) = 0 := by
  unfold newline_count
  rw [List.count_eq_zero]
  intro hmem
  exact (fields_bytes_text record h 10 hmem).1 rfl

theorem newline_count_table (c : Nat) (records : List (List (List Nat)))
    (h : text_records c records) : newline_count (table_bytes records) = records.length := by
  induction records with
  | nil => rfl
  | cons record records ih =>
    have h1 := newline_count_fields record (h record (by simp)).2
    have h2 := ih (fun r hr => h r (by simp [hr]))
    have h3 : newline_count (10 :: table_bytes records)
        = newline_count (table_bytes records) + 1 := by
      simp [newline_count]
    rw [table_bytes, newline_count_append, h1, h3, h2, List.length_cons]
    omega

theorem insert_row_zero_observed (st : csv_module) (h : Int) (t : csv_file_t)
    (records : List (List (List Nat))) (w : Int) (data : Nat → List Nat)
    (hslot : slot_of st h = some t) (hwf : well_formed t records) :
    insert_row st h 0 w (some data)
      = some (0, store_slot st h { t with
          p_file := some ⟨table_bytes records ++ 10 ::
            (fields_bytes (record_of data t.number_of_columns) ++ [10]), 0⟩,
          number_of_rows := t.number_of_rows + 1 }) := by
  obtain ⟨pos, hfile⟩ := p_file_of_bytes t _ hwf.1
  have hbytes : ∀ b ∈ table_bytes records, b < 255 := fun b hb =>
    (table_bytes_text _ records hwf.2.2.1 b hb).2
  have hop := insert_row_zero_bytes t _ pos w data hfile hbytes
  rw [write_fields_eq] at hop
  unfold insert_row
  exact on_slot_ok st h t _ _ hslot hop

/-- C12 (what the code does for `insert_row` with row index 0): on a
well-formed table the cached row count `n` equals the number of newline
bytes of the file before the call; the call returns 0 and leaves the cached
row count at `n + 1`, while the file then holds at least `n + 2` newline
bytes (the old ones, the one of the empty line, the one ending the new
record, and any newline inside the values). -/
theorem insert_row_zero_breaks_row_count (st : csv_module) (h : Int) (t : csv_file_t)
    (records : List (List (List Nat))) (w : Int) (data : Nat → List Nat)
    (hslot : slot_of st h = some t) (hwf : well_formed t records) :
    newline_count (table_bytes records) = t.number_of_rows ∧
    (observe (insert_row st h 0 w (some data)) h).map
        (fun r => (r.1, r.2.2.1, newline_count r.2.1))
      = some (0, t.number_of_rows + 1,
          t.number_of_rows + 2
            + newline_count (fields_bytes (record_of data t.number_of_columns))) := by
  have hcount := newline_count_table _ records hwf.2.2.1
  refine ⟨by rw [hcount, hwf.2.1], ?_⟩
  rw [insert_row_zero_observed st h t records w data hslot hwf,
    observe_store_slot st h 0 t _ ⟨_, 0⟩ hslot rfl]
  have h10 : ∀ l : List Nat, newline_count (10 :: l) = newline_count l + 1 := by
    intro l; simp [newline_count]
  simp only [Option.map_some', newline_count_append, h10, hcount, hwf.2.1]
  have hnil : newline_count [] = 0 := rfl
  rw [hnil]
  congr 3
  omega

/-- Witness of C12 on the one-row table `a,b,`: after `insert_row` with row
index 0 the cached row count is 2 and the file holds 3 newlines. -/
theorem insert_row_zero_breaks_row_count_witness :
    slot_of one_row_module 1 = some one_row_slot ∧
    well_formed one_row_slot [[[97], [98]]] ∧
    newline_count (table_bytes [[[97], [98]]]) = 1 ∧
    (observe (insert_row one_row_module 1 0 1 (some example_data)) 1).map
        (fun r => (r.1, r.2.2.1, newline_count r.2.1))
      = some (0, 1 + 1, 1 + 2 + newline_count (fields_bytes (record_of example_data 2))) :=
  ⟨by decide, by decide,
    insert_row_zero_breaks_row_count one_row_module 1 one_row_slot [[[97], [98]]] 1
      example_data (by decide) (by decide)⟩

/-- C11 (what the code does for row index 0): on a well-formed table and
for a new record without a byte 255, `insert_row` with row index 0 returns
0, and the `delete_row` with row index 0 that follows never returns,
whatever the fuel; the content before the insert is not restored. -/
theorem insert_row_zero_then_delete_row_never_returns (st : csv_module) (h : Int)
    (t : csv_file_t) (records : List (List (List Nat))) (w : Int) (data : Nat → List Nat)
    (fuel : Nat)
    (hslot : slot_of st h = some t) (hwf : well_formed t records)
    (hdata : ∀ b ∈ fields_bytes (record_of data t.number_of_columns), b < 255) :
    (insert_row st h 0 w (some data)).map (·.1) = some 0 ∧
    ((insert_row st h 0 w (some data)).bind fun r => delete_row fuel r.2 h 0) = none := by
  rw [insert_row_zero_observed st h t records w data hslot hwf]
  refine ⟨rfl, ?_⟩
  have hbytes : ∀ b ∈ table_bytes records ++ 10 ::
      (fields_bytes (record_of data t.number_of_columns) ++ [10]), b < 255 := by
    intro b hb
    simp only [List.mem_append, List.mem_cons, List.mem_singleton, List.not_mem_nil,
      or_false] at hb
    rcases hb with hb | hb | hb | hb
    · exact (table_bytes_text _ records hwf.2.2.1 b hb).2
    · omega
    · exact hdata b hb
    · omega
  simp only [Option.some_bind]
  unfold delete_row
  exact on_slot_none _ h _ _ (slot_of_store_slot st h t _ hslot)
    (delete_row_zero_bytes _ _ 0 fuel rfl hbytes)

/-- Witness of C11 on the one-row table `a,b,` and the record `x,y,`. -/
theorem insert_row_zero_then_delete_row_never_returns_witness :
    slot_of one_row_module 1 = some one_row_slot ∧
    well_formed one_row_slot [[[97], [98]]] ∧
    (insert_row one_row_module 1 0 1 (some example_data)).map (·.1) = some 0 ∧
    ((insert_row one_row_module 1 0 1 (some example_data)).bind
      fun r => delete_row 1000 r.2 1 0) = none :=
  ⟨by decide, by decide,
    insert_row_zero_then_delete_row_never_returns one_row_module 1 one_row_slot
      [[[97], [98]]] 1 example_data 1000 (by decide) (by decide) (by decide)⟩

theorem insert_row_then_delete_row_restores (st : csv_module) (h : Int) (t : csv_file_t)
    (pre post : List (List (List Nat))) (w : Int) (data : Nat → List Nat) (fuel : Nat)
    (hslot : slot_of st h = some t) (hwf : well_formed t (pre ++ post)) (hne : pre ≠ [])
    (hdata : ∀ field ∈ record_of data t.number_of_columns, ∀ b ∈ field, field_byte b)
    (hfuel : (fields_bytes (record_of data t.number_of_columns)).length < fuel)
    (hsize : t.number_of_rows + 1 < 18446744073709551616) :
    observe ((insert_row st h (pre.length : Int) w (some data)).bind
        fun r => delete_row fuel r.2 h (pre.length : Int)) h
      = some (0, table_bytes (pre ++ post), t.number_of_rows, t.number_of_columns) := by
  obtain ⟨pos, hfile⟩ := p_file_of_bytes t _ hwf.1
  have hrows := hwf.2.1
  have hlen : pre.length < 18446744073709551616 := by
    simp only [List.length_append] at hrows; omega
  have hins := insert_row_at t pre post pos w data hfile hwf.2.2.1 hne hlen
  have htext : text_records t.number_of_columns
      (pre ++ record_of data t.number_of_columns :: post) := by
    intro r hr
    simp only [List.mem_append, List.mem_cons] at hr
    rcases hr with hr | hr | hr
    · exact hwf.2.2.1 r (by simp [hr])
    · subst hr
      exact ⟨by simp [record_of], hdata⟩
    · exact hwf.2.2.1 r (by simp [hr])
  have hdel := delete_row_at
    { t with
      p_file := some ⟨table_bytes (pre ++ record_of data t.number_of_columns :: post), 0⟩,
      number_of_rows := t.number_of_rows + 1 }
    pre post (record_of data t.number_of_columns) 0 fuel rfl htext
    (by simp only [List.length_append, List.length_cons] at hrows ⊢; omega) hsize hne hfuel
  unfold insert_row delete_row
  rw [on_slot_ok st h t _ _ hslot hins]
  simp only [Option.some_bind]
  rw [on_slot_ok _ h _ _ _ (slot_of_store_slot st h t _ hslot) hdel]
  rw [observe_store_slot _ h 0 _ _ ⟨_, 0⟩ (slot_of_store_slot st h t _ hslot) rfl]
  simp

/-! ## Handle table: `open_csv_file`, `create_csv_file` and `close_csv_file` -/

theorem calculate_row_count_text (bytes : List Nat) (h : ∀ b ∈ bytes, b < 255) :
    calculate_row_count bytes = newline_count bytes := by
  induction bytes with
  | nil => rfl
  | cons x bytes ih =>
    have hx := h x (by simp)
    have ih2 := ih (fun b hb => h b (by simp [hb]))
    have h10 : to_char (x : Int) = 10 ↔ x = 10 := to_char_eq_iff 10 (by decide) (by omega)
    by_cases hx10 : x = 10
    · subst hx10
      simp [calculate_row_count, to_char, EOF, ih2, newline_count]
      omega
    · have hne : ¬ to_char (x : Int) = 10 := fun hc => hx10 (h10.1 hc)
      have hne2 : ¬ (10 = x) := fun hc => hx10 hc.symm
      simp [calculate_row_count, to_char_ne_eof hx, hne, ih2, newline_count,
        List.count_cons, hne2, hx10]

theorem calculate_column_count_text (bytes : List Nat) (h : ∀ b ∈ bytes, b < 255) :
    calculate_column_count bytes = first_line_commas bytes := by
  induction bytes with
  | nil => rfl
  | cons x bytes ih =>
    have hx := h x (by simp)
    have ih2 := ih (fun b hb => h b (by simp [hb]))
    have h10 : to_char (x : Int) = 10 ↔ x = 10 := to_char_eq_iff 10 (by decide) (by omega)
    have h44 : to_char (x : Int) = 44 ↔ x = 44 := to_char_eq_iff 44 (by decide) (by omega)
    unfold first_line_commas at ih2 ⊢
    by_cases hx10 : x = 10
    · subst hx10
      simp [calculate_column_count, to_char]
    · have hne : ¬ to_char (x : Int) = 10 := fun hc => hx10 (h10.1 hc)
      by_cases hx44 : x = 44
      · subst hx44
        simp [calculate_column_count, to_char, EOF, ih2, List.takeWhile_cons]
        omega
      · have hne44 : ¬ to_char (x : Int) = 44 := fun hc => hx44 (h44.1 hc)
        have hne2 : ¬ (44 = x) := fun hc => hx44 hc.symm
        simp [calculate_column_count, to_char_ne_eof hx, hne, hne44, ih2,
          List.takeWhile_cons, hx10, List.count_cons, hne2, hx44]

theorem open_csv_file_text (st : csv_module) (t0 : csv_file_t) (path : String) (f : FILE)
    (hfiles : st.s_csv_files = [t0]) (hcount : st.s_number_of_open_files = 0)
    (hflags : st.s_free_indexes = [0]) (hbytes : ∀ b ∈ f.bytes, b < 255) :
    observe (open_csv_file st path (.ok f)) 1
      = some (1, f.bytes, newline_count f.bytes, first_line_commas f.bytes) := by
  simp [open_csv_file, hfiles, hcount, hflags, MAX_CONCURRENT_CSV_FILES, find_free_index,
    observe, slot_of, convert_handle_to_index, calculate_row_count_text f.bytes hbytes,
    calculate_column_count_text f.bytes hbytes]

/-- C16 (what the code does for a file holding the byte 255): with no table
open, `open_csv_file` on the file `a`, byte 255, `,`, newline succeeds and
returns handle 1, but both scans stop at the byte 255, which the `char`
typed read takes for `EOF`: the cached row count is 0 and the cached column
count is 0, while the file holds one newline and one comma before it. -/
theorem open_csv_file_stops_counting_at_byte_255 :
    observe (open_csv_file initial_module "t.csv" (.ok latin_file)) 1
      = some (1, [97, 255, 44, 10], 0, 0) ∧
    newline_count latin_file.bytes = 1 ∧
    first_line_commas latin_file.bytes = 1 := by
  decide

theorem create_csv_file_free (st : csv_module) (t0 : csv_file_t) (path : String) (k : Nat)
    (f : FILE)
    (hfiles : st.s_csv_files = [t0]) (hcount : st.s_number_of_open_files = 0)
    (hflags : st.s_free_indexes = [0]) (hk : k < 2147483648) :
    create_csv_file st path (k : Int) (.ok f)
      = some (1, { st with
          s_csv_files := [{ p_file := some ⟨f.bytes, 0⟩, number_of_rows := 0,
                            number_of_columns := k, absolute_path := path }],
          s_number_of_open_files := 1, s_free_indexes := [1] }) := by
  have h0 : size_t_of_int 0 = 0 := by decide
  have hkk : size_t_of_int (k : Int) = k := size_t_of_nat (by omega)
  simp [create_csv_file, open_csv_file, hfiles, hcount, hflags, MAX_CONCURRENT_CSV_FILES,
    find_free_index, set_column_count, set_row_count, slot_of, store_slot,
    convert_handle_to_index, h0, hkk]

/-- C17: when the slot is free (no file counted as open, flag 0) and fopen
succeeds, `create_csv_file(path, k)` binds the slot (flag 1, one file
counted as open) and returns handle 1, the slot index plus one; afterwards
`get_row_count` gives 0, `get_column_count` gives `k`, and the file behind
the handle holds the bytes fopen found (none for a new file). -/
theorem create_csv_file_binds_free_slot (st : csv_module) (t0 : csv_file_t) (path : String)
    (k : Nat) (f : FILE)
    (hfiles : st.s_csv_files = [t0]) (hcount : st.s_number_of_open_files = 0)
    (hflags : st.s_free_indexes = [0]) (hk : k < 2147483648) :
    (create_csv_file st path (k : Int) (.ok f)).map
        (fun r => (r.1, r.2.s_free_indexes, r.2.s_number_of_open_files)) = some (1, [1], 1) ∧
    ((create_csv_file st path (k : Int) (.ok f)).bind fun r => get_row_count r.2 r.1)
      = some 0 ∧
    ((create_csv_file st path (k : Int) (.ok f)).bind fun r => get_column_count r.2 r.1)
      = some (k : Int) ∧
    ((create_csv_file st path (k : Int) (.ok f)).bind fun r => file_bytes r.2 r.1)
      = some f.bytes := by
  rw [create_csv_file_free st t0 path k f hfiles hcount hflags hk]
  have hk2 : int_of_size_t k = (k : Int) := by
    unfold int_of_size_t
    have hmod : k % 4294967296 = k := Nat.mod_eq_of_lt (by omega)
    rw [hmod, if_neg (by omega)]
  have h02 : int_of_size_t 0 = 0 := by decide
  simp [get_row_count, get_column_count, file_bytes, slot_of, convert_handle_to_index, hk2,
    h02]

/-- Witness of C17: a new file created with two columns from the initial
state of the module. -/
theorem create_csv_file_binds_free_slot_witness :
    initial_module.s_csv_files
      = [{ p_file := none, number_of_rows := 0, number_of_columns := 0,
           absolute_path := "" }] ∧
    initial_module.s_number_of_open_files = 0 ∧
    initial_module.s_free_indexes = [0] ∧
    (2 : Nat) < 2147483648 ∧
    (create_csv_file initial_module "t.csv" ((2 : Nat) : Int) (.ok ⟨[], 0⟩)).map
        (fun r => (r.1, r.2.s_free_indexes, r.2.s_number_of_open_files)) = some (1, [1], 1) ∧
    ((create_csv_file initial_module "t.csv" ((2 : Nat) : Int) (.ok ⟨[], 0⟩)).bind
      fun r => get_row_count r.2 r.1) = some 0 ∧
    ((create_csv_file initial_module "t.csv" ((2 : Nat) : Int) (.ok ⟨[], 0⟩)).bind
      fun r => get_column_count r.2 r.1) = some ((2 : Nat) : Int) ∧
    ((create_csv_file initial_module "t.csv" ((2 : Nat) : Int) (.ok ⟨[], 0⟩)).bind
      fun r => file_bytes r.2 r.1) = some [] :=
  ⟨by decide, by decide, by decide, by decide,
    create_csv_file_binds_free_slot initial_module
      { p_file := none, number_of_rows := 0, number_of_columns := 0, absolute_path := "" }
      "t.csv" 2 ⟨[], 0⟩ (by decide) (by decide) (by decide) (by decide)⟩

/-- C18: when the only slot is bound (one file counted as open, flag 1, open
stream), `open_csv_file` returns `ENFILE` and changes nothing but errno;
`close_csv_file` on handle 1 returns 0, brings the counter to 0, clears the
flag and resets the slot; and the next `open_csv_file` whose fopen succeeds
returns handle 1 again, with the counter at 1 and the flag set. -/
theorem open_when_full_then_close_then_open (st : csv_module) (t : csv_file_t) (f : FILE)
    (path : String) (fopen_result : Except Int FILE) (f2 : FILE)
    (hfiles : st.s_csv_files = [t]) (hfile : t.p_file = some f)
    (hcount : st.s_number_of_open_files = 1) (hflags : st.s_free_indexes = [1]) :
    open_csv_file st path fopen_result = some (ENFILE, { st with errno := ENFILE }) ∧
    close_csv_file st 1 = some (0, closed_module st) ∧
    (open_csv_file (closed_module st) path (.ok f2)).map
        (fun r => (r.1, r.2.s_free_indexes, r.2.s_number_of_open_files))
      = some (1, [1], 1) := by
  refine ⟨?_, ?_, ?_⟩
  · simp [open_csv_file, hcount, MAX_CONCURRENT_CSV_FILES]
  · simp [close_csv_file, close_guard, convert_handle_to_index, hfiles, hfile, hcount,
      hflags, closed_module]
  · simp [open_csv_file, closed_module, MAX_CONCURRENT_CSV_FILES, find_free_index]

/-- Witness of C18 on the example module, whose only slot is bound. -/
theorem open_when_full_then_close_then_open_witness :
    example_module.s_csv_files = [example_slot] ∧
    example_slot.p_file = some ⟨table_bytes example_records, 0⟩ ∧
    example_module.s_number_of_open_files = 1 ∧
    example_module.s_free_indexes = [1] ∧
    open_csv_file example_module "u.csv" (.ok ⟨[], 0⟩)
      = some (ENFILE, { example_module with errno := ENFILE }) ∧
    close_csv_file example_module 1 = some (0, closed_module example_module) ∧
    (open_csv_file (closed_module example_module) "u.csv" (.ok ⟨[], 0⟩)).map
        (fun r => (r.1, r.2.s_free_indexes, r.2.s_number_of_open_files))
      = some (1, [1], 1) :=
  ⟨by decide, by decide, by decide, by decide,
    open_when_full_then_close_then_open example_module example_slot
      ⟨table_bytes example_records, 0⟩ "u.csv" (.ok ⟨[], 0⟩) ⟨[], 0⟩
      (by decide) (by decide) (by decide) (by decide)⟩

/-- C19 (what the code does when no slot is free): `open_csv_file` returns
`ENFILE`, the positive number 23; `create_csv_file` tests that value with
`<= 0`, takes it for a handle and goes on to `set_column_count`, whose
index 22 lies outside the slot array, so the call has no defined result. -/
theorem create_csv_file_when_full_uses_error_as_handle (st : csv_module) (path : String)
    (k : Int) (fopen_result : Except Int FILE)
    (hfiles : st.s_csv_files.length = MAX_CONCURRENT_CSV_FILES)
    (hcount : st.s_number_of_open_files = MAX_CONCURRENT_CSV_FILES) :
    open_csv_file st path fopen_result = some (23, { st with errno := ENFILE }) ∧
    convert_handle_to_index 23 = 22 ∧
    set_column_count { st with errno := ENFILE } 23 k = none ∧
    create_csv_file st path k fopen_result = none := by
  have hopen : open_csv_file st path fopen_result = some (23, { st with errno := ENFILE }) := by
    simp [open_csv_file, hcount, MAX_CONCURRENT_CSV_FILES, ENFILE]
  have hslot : slot_of { st with errno := ENFILE } 23 = none := by
    simp [slot_of, convert_handle_to_index, hfiles, MAX_CONCURRENT_CSV_FILES]
  refine ⟨hopen, by decide, by simp [set_column_count, hslot], ?_⟩
  simp [create_csv_file, hopen, set_column_count, hslot]

/-- Witness of C19 on the example module, whose only slot is bound. -/
theorem create_csv_file_when_full_uses_error_as_handle_witness :
    example_module.s_csv_files.length = MAX_CONCURRENT_CSV_FILES ∧
    example_module.s_number_of_open_files = MAX_CONCURRENT_CSV_FILES ∧
    open_csv_file example_module "u.csv" (.ok ⟨[], 0⟩)
      = some (23, { example_module with errno := ENFILE }) ∧
    convert_handle_to_index 23 = 22 ∧
    set_column_count { example_module with errno := ENFILE } 23 2 = none ∧
    create_csv_file example_module "u.csv" 2 (.ok ⟨[], 0⟩) = none :=
  ⟨by decide, by decide,
    create_csv_file_when_full_uses_error_as_handle example_module "u.csv" 2 (.ok ⟨[], 0⟩)
      (by decide) (by decide)⟩

/-- C20 (what the code does on a second close): after a successful
`close_csv_file` of handle 1 the test at the head of a second
`close_csv_file(1)` does not hold, because the counter minus one is
computed on an unsigned value; the call is not rejected, goes on to
decrement the counter and to call fclose on the NULL stream of the freed
slot, and has no defined result. -/
theorem second_close_is_not_rejected (st : csv_module) (t : csv_file_t) (f : FILE)
    (hfiles : st.s_csv_files = [t]) (hfile : t.p_file = some f)
    (hcount : st.s_number_of_open_files = 1) (hflags : st.s_free_indexes = [1]) :
    close_csv_file st 1 = some (0, closed_module st) ∧
    ¬ close_guard (closed_module st) 1 ∧
    (slot_of (closed_module st) 1).map (·.p_file) = some none ∧
    close_csv_file (closed_module st) 1 = none := by
  refine ⟨?_, ?_, ?_, ?_⟩
  · simp [close_csv_file, close_guard, convert_handle_to_index, hfiles, hfile, hcount,
      hflags, closed_module]
  · simp [close_guard, convert_handle_to_index, closed_module]
  · simp [slot_of, convert_handle_to_index, closed_module]
  · simp [close_csv_file, close_guard, convert_handle_to_index, closed_module]

/-- Witness of C20 on the example module. -/
theorem second_close_is_not_rejected_witness :
    example_module.s_csv_files = [example_slot] ∧
    example_slot.p_file = some ⟨table_bytes example_records, 0⟩ ∧
    example_module.s_number_of_open_files = 1 ∧
    example_module.s_free_indexes = [1] ∧
    close_csv_file example_module 1 = some (0, closed_module example_module) ∧
    ¬ close_guard (closed_module example_module) 1 ∧
    (slot_of (closed_module example_module) 1).map (·.p_file) = some none ∧
    close_csv_file (closed_module example_module) 1 = none :=
  ⟨by decide, by decide, by decide, by decide,
    second_close_is_not_rejected example_module example_slot
      ⟨table_bytes example_records, 0⟩ (by decide) (by decide) (by decide) (by decide)⟩

/-! ## `close_csv_file` with a handle outside the table -/

theorem close_csv_file_rejects_nonpositive (st : csv_module) (h : Int) (hh : h ≤ 0) :
    close_csv_file st h = some (ENOENT, { st with errno := ENOENT }) := by
  have : close_guard st h := Or.inl (by unfold convert_handle_to_index; omega)
  simp [close_csv_file, this]

/-- C21 (what the code does for a handle above the number of slots): the
test at the head of `close_csv_file` looks at the lower bound of the index
only; for a handle above `MAX_CONCURRENT_CSV_FILES` the test does not hold,
the index `handle - 1` lies outside the flag array and the slot array, and
the call goes on to use it, so it has no defined result. -/
theorem close_csv_file_misses_upper_bound (st : csv_module) (h : Int)
    (hflags : st.s_free_indexes.length = MAX_CONCURRENT_CSV_FILES)
    (hfiles : st.s_csv_files.length = MAX_CONCURRENT_CSV_FILES)
    (hh : (MAX_CONCURRENT_CSV_FILES : Int) < h) :
    ¬ close_guard st h ∧
    MAX_CONCURRENT_CSV_FILES ≤ (convert_handle_to_index h).toNat ∧
    close_csv_file st h = none := by
  have hmax : (MAX_CONCURRENT_CSV_FILES : Int) = 1 := rfl
  have hguard : ¬ close_guard st h := by
    unfold close_guard convert_handle_to_index
    omega
  have hidx : MAX_CONCURRENT_CSV_FILES ≤ (convert_handle_to_index h).toNat := by
    unfold convert_handle_to_index
    have : MAX_CONCURRENT_CSV_FILES = 1 := rfl
    omega
  refine ⟨hguard, hidx, ?_⟩
  simp [close_csv_file, hguard, hflags, hidx]

/-- Witness of C21: handle 2 while the only slot is bound. -/
theorem close_csv_file_misses_upper_bound_witness :
    example_module.s_free_indexes.length = MAX_CONCURRENT_CSV_FILES ∧
    example_module.s_csv_files.length = MAX_CONCURRENT_CSV_FILES ∧
    (MAX_CONCURRENT_CSV_FILES : Int) < 2 ∧
    ¬ close_guard example_module 2 ∧
    MAX_CONCURRENT_CSV_FILES ≤ (convert_handle_to_index 2).toNat ∧
    close_csv_file example_module 2 = none :=
  ⟨by decide, by decide, by decide,
    close_csv_file_misses_upper_bound example_module 2 (by decide) (by decide) (by decide)⟩

/-! ## `delete_row` with a row index at or past the cached row count -/

theorem go_to_row_past_table (t : csv_file_t) (records : List (List (List Nat)))
    (pos : Nat) (r : Nat)
    (hwf : well_formed t records) (hr : t.number_of_rows ≤ r)
    (hrange : r < 18446744073709551616) :
    go_to_row ⟨table_bytes records, pos⟩ (r : Int)
      = ⟨table_bytes records, (table_bytes records).length⟩ := by
  have hrows := hwf.2.1
  have hscan := scan_rows_past_table _ records (r - records.length) hwf.2.2.1
  have hsum : records.length + (r - records.length) = r := by omega
  rw [hsum] at hscan
  rw [go_to_row_pos _ _ hrange]
  simp only [hscan]

theorem delete_row_out_of_range (t : csv_file_t) (records : List (List (List Nat)))
    (fuel r : Nat)
    (hwf : well_formed t records) (hr : t.number_of_rows ≤ r)
    (hrange : r < 18446744073709551616) :
    t.delete_row fuel (r : Int) = none := by
  obtain ⟨pos, hfile⟩ := p_file_of_bytes t _ hwf.1
  have hnav := go_to_row_past_table t records pos r hwf hr hrange
  by_cases hnil : records = []
  · subst hnil
    simp [csv_file_t.delete_row, hfile, hnav, table_bytes, copy_before, skip_to_newline_nil]
  · obtain ⟨a, ha⟩ := table_bytes_ends_newline records hnil
    have hatext : ∀ b ∈ a, b < 255 := fun b hb =>
      (table_bytes_text _ records hwf.2.2.1 b (by rw [ha]; simp [hb])).2
    have hcopy := copy_before_prefix (a.length + 1) a 10 [] 0 (by omega) hatext (by decide)
    simp only [csv_file_t.delete_row, hfile, hnav]
    rw [ha]
    simp only [List.length_append, List.length_singleton, hcopy, drop_append_cons,
      skip_to_newline_nil]

theorem delete_row_out_of_range_never_returns (st : csv_module) (h : Int) (t : csv_file_t)
    (records : List (List (List Nat))) (fuel r : Nat)
    (hslot : slot_of st h = some t) (hwf : well_formed t records)
    (hr : t.number_of_rows ≤ r) (hrange : r < 18446744073709551616) :
    delete_row fuel st h (r : Int) = none :=
  on_slot_none st h t _ hslot (delete_row_out_of_range t records fuel r hwf hr hrange)

/-- C22 (what the code does for a row index at or past the row count): on a
table of text fields with row count `n`, `delete_row` with an `int` row
index `r >= n` makes no bounds check: it goes to row `r` as for any other
row, which leaves the cursor, and with it the splice offset, at the end of
the file, and then it yields no result at all, whatever the fuel: no error
value is returned. -/
theorem delete_row_makes_no_bounds_check (st : csv_module) (h : Int) (t : csv_file_t)
    (records : List (List (List Nat))) (fuel r : Nat)
    (hslot : slot_of st h = some t) (hwf : well_formed t records)
    (hr : t.number_of_rows ≤ r) (hrange : r < 2147483648) :
    t.p_file.map (fun f => (go_to_row f (r : Int)).pos) = some (table_bytes records).length ∧
    delete_row fuel st h (r : Int) = none := by
  obtain ⟨pos, hfile⟩ := p_file_of_bytes t _ hwf.1
  constructor
  · rw [hfile, Option.map_some', go_to_row_past_table t records pos r hwf hr (by omega)]
  · exact delete_row_out_of_range_never_returns st h t records fuel r hslot hwf hr (by omega)

/-- Witness of C22 on the one-row table `a,b,` with row index 1. -/
theorem delete_row_makes_no_bounds_check_witness :
    slot_of one_row_module 1 = some one_row_slot ∧
    well_formed one_row_slot [[[97], [98]]] ∧
    one_row_slot.p_file.map (fun f => (go_to_row f ((1 : Nat) : Int)).pos) = some 5 ∧
    delete_row 1000 one_row_module 1 ((1 : Nat) : Int) = none :=
  ⟨by decide, by decide,
    delete_row_makes_no_bounds_check one_row_module 1 one_row_slot [[[97], [98]]] 1000 1
      (by decide) (by decide) (by decide) (by decide)⟩

/-- C30 (what the code does for a row index at or past the row count): on a
well-formed table with row count `n`, `delete_row` with a row index
`r >= n` never returns, whatever the fuel: the cursor is at the end of the
file when the loop looking for the newline starts, and that loop reads
`EOF` for ever.  The call does not return 0 and the cached row count is not
decremented. -/
theorem delete_row_past_end_never_returns (st : csv_module) (h : Int) (t : csv_file_t)
    (records : List (List (List Nat))) (fuel r : Nat)
    (hslot : slot_of st h = some t) (hwf : well_formed t records)
    (hr : t.number_of_rows ≤ r) (hrange : r < 18446744073709551616) :
    delete_row fuel st h (r : Int) = none :=
  delete_row_out_of_range_never_returns st h t records fuel r hslot hwf hr hrange

/-- Witness of C30 on the table `a,b,` / `c,d,` / `e,f,` with row index 3. -/
theorem delete_row_past_end_never_returns_witness :
    slot_of example_module 1 = some example_slot ∧
    well_formed example_slot example_records ∧
    delete_row 1000 example_module 1 ((3 : Nat) : Int) = none :=
  ⟨by decide, by decide,
    delete_row_past_end_never_returns example_module 1 example_slot example_records 1000 3
      (by decide) (by decide) (by decide) (by decide)⟩

/-! ## `update_row` against its specification -/

theorem update_row_as_specified_middle (st : csv_module) (h : Int) (t : csv_file_t)
    (pre post : List (List (List Nat))) (old : List (List Nat)) (fuel : Nat) (w : Int)
    (data : Nat → List Nat)
    (hslot : slot_of st h = some t) (hwf : well_formed t (pre ++ old :: post))
    (hne : pre ≠ []) (hfuel : (fields_bytes old).length < fuel) :
    observe (update_row_as_specified fuel st h (pre.length : Int) w (some data)) h
      = some (0, table_bytes (pre ++ record_of data t.number_of_columns :: post),
          t.number_of_rows, t.number_of_columns) := by
  obtain ⟨pos, hfile⟩ := p_file_of_bytes t _ hwf.1
  have hrows := hwf.2.1
  have hdel := delete_row_at t pre post old pos fuel hfile hwf.2.2.1 hrows hwf.2.2.2.1 hne
    hfuel
  have htext : text_records t.number_of_columns (pre ++ post) := by
    intro r hr
    apply hwf.2.2.1 r
    simp only [List.mem_append, List.mem_cons] at hr ⊢
    tauto
  have hlen : pre.length < 18446744073709551616 := by
    have := hwf.2.2.2.1
    simp only [List.length_append, List.length_cons] at hrows
    omega
  have hins := insert_row_at
    { t with p_file := some ⟨table_bytes (pre ++ post), 0⟩,
             number_of_rows := t.number_of_rows - 1 }
    pre post 0 w data rfl htext hne hlen
  have hcount : t.number_of_rows - 1 + 1 = t.number_of_rows := by
    simp only [List.length_append, List.length_cons] at hrows
    omega
  have hstep : delete_row fuel st h (pre.length : Int) = some (0, store_slot st h _) :=
    on_slot_ok st h t _ _ hslot hdel
  have hstep2 := on_slot_ok
    (store_slot st h
      { t with p_file := some ⟨table_bytes (pre ++ post), 0⟩,
               number_of_rows := t.number_of_rows - 1 }) h
    { t with p_file := some ⟨table_bytes (pre ++ post), 0⟩,
             number_of_rows := t.number_of_rows - 1 } _
    (fun t1 => t1.insert_row (pre.length : Int) w (some data))
    (slot_of_store_slot st h t _ hslot) hins
  simp only [update_row_as_specified, hstep, ne_eq, not_true_eq_false, if_false]
  unfold insert_row
  rw [hstep2, observe_store_slot _ h 0 _ _ ⟨_, 0⟩ (slot_of_store_slot st h t _ hslot) rfl]
  simp only [hcount]

/-- C23 (what the code does for a row that is neither the first nor the
last): on a well-formed table `update_row` and the sequence the
specification names, `delete_row(r)` then `insert_row(r)`, both return 0
and keep the row count, but they leave different files: the specified
sequence puts the new record at row `r`, before the row that followed the
old record, and `update_row` puts it after that row. -/
theorem update_row_differs_from_delete_then_insert (st : csv_module) (h : Int)
    (t : csv_file_t) (pre post : List (List (List Nat))) (old next : List (List Nat))
    (fuel : Nat) (w : Int) (data : Nat → List Nat)
    (hslot : slot_of st h = some t) (hwf : well_formed t (pre ++ old :: next :: post))
    (hne : pre ≠ []) (hfuel : (fields_bytes old).length < fuel) :
    observe (update_row_as_specified fuel st h (pre.length : Int) w (some data)) h
      = some (0, table_bytes (pre ++ record_of data t.number_of_columns :: next :: post),
          t.number_of_rows, t.number_of_columns) ∧
    observe (update_row fuel st h (pre.length : Int) w (some data)) h
      = some (0, table_bytes (pre ++ next :: record_of data t.number_of_columns :: post),
          t.number_of_rows, t.number_of_columns) := by
  constructor
  · exact update_row_as_specified_middle st h t pre (next :: post) old fuel w data hslot hwf
      hne hfuel
  · obtain ⟨pos, hfile⟩ := p_file_of_bytes t _ hwf.1
    have hop := update_row_middle t pre post old next pos fuel w data hfile hwf.2.2.1
      hwf.2.1 hwf.2.2.2.1 hne hfuel
    have hrows : t.number_of_rows - 1 + 1 = t.number_of_rows := by
      have := hwf.2.1
      simp only [List.length_append, List.length_cons] at this
      omega
    unfold update_row
    rw [on_slot_ok st h t _ _ hslot hop, observe_store_slot st h 0 t _ ⟨_, 0⟩ hslot rfl,
      hrows]

/-- Witness of C23 on the table `a,b,` / `c,d,` / `e,f,`, row 1 and the
record `x,y,`: the specified sequence leaves `a,b,` / `x,y,` / `e,f,`,
`update_row` leaves `a,b,` / `e,f,` / `x,y,`. -/
theorem update_row_differs_from_delete_then_insert_witness :
    slot_of example_module 1 = some example_slot ∧
    well_formed example_slot ([[[97], [98]]] ++ [[99], [100]] :: [[101], [102]] :: []) ∧
    observe (update_row_as_specified 5 example_module 1 1 1 (some example_data)) 1
      = some (0, table_bytes [[[97], [98]], [[120], [121]], [[101], [102]]], 3, 2) ∧
    observe (update_row 5 example_module 1 1 1 (some example_data)) 1
      = some (0, table_bytes [[[97], [98]], [[101], [102]], [[120], [121]]], 3, 2) :=
  ⟨by decide, by decide,
    update_row_differs_from_delete_then_insert example_module 1 example_slot [[[97], [98]]]
      [] [[99], [100]] [[101], [102]] 5 1 example_data (by decide) (by decide) (by decide)
      (by decide)⟩

/-! ## Cursor navigation on arbitrary content -/

theorem scan_rows_cons (k b : Nat) (l : List Nat) (hb : b < 255) :
    scan_rows (k + 1) (b :: l)
      = if b = 10 then scan_rows k l + 1 else scan_rows (k + 1) l + 1 := by
  have h10 : to_char (b : Int) = 10 ↔ b = 10 := to_char_eq_iff 10 (by decide) (by omega)
  have heof := to_char_ne_eof hb
  by_cases hb10 : b = 10
  · subst hb10
    simp [scan_rows, skip_line, to_char]
    omega
  · have hne : ¬ to_char (b : Int) = 10 := fun hc => hb10 (h10.1 hc)
    simp only [scan_rows, skip_line, hne, heof, or_self, if_false, hb10, List.drop_succ_cons]
    omega

theorem scan_rows_text (k : Nat) (l : List Nat) (h : ∀ b ∈ l, b < 255) :
    scan_rows k l = offset_after 10 k l := by
  induction l generalizing k with
  | nil => cases k <;> simp [scan_rows_nil, offset_after]
  | cons b l ih =>
    have hl : ∀ x ∈ l, x < 255 := fun x hx => h x (by simp [hx])
    cases k with
    | zero => rfl
    | succ k =>
      rw [scan_rows_cons k b l (h b (by simp)), offset_after, ih k hl, ih (k + 1) hl]

theorem scan_columns_cons (k b : Nat) (l : List Nat) (hb : b < 255) :
    scan_columns (k + 1) (b :: l)
      = if b = 44 then scan_columns k l + 1 else scan_columns (k + 1) l + 1 := by
  have h44 : to_char (b : Int) = 44 ↔ b = 44 := to_char_eq_iff 44 (by decide) (by omega)
  have heof := to_char_ne_eof hb
  by_cases hb44 : b = 44
  · subst hb44
    simp [scan_columns, skip_field, to_char]
    omega
  · have hne : ¬ to_char (b : Int) = 44 := fun hc => hb44 (h44.1 hc)
    simp only [scan_columns, skip_field, hne, heof, or_self, if_false, hb44,
      List.drop_succ_cons]
    omega

theorem scan_columns_text (k : Nat) (l : List Nat) (h : ∀ b ∈ l, b < 255) :
    scan_columns k l = offset_after 44 k l := by
  induction l generalizing k with
  | nil => cases k <;> simp [scan_columns_nil, offset_after]
  | cons b l ih =>
    have hl : ∀ x ∈ l, x < 255 := fun x hx => h x (by simp [hx])
    cases k with
    | zero => rfl
    | succ k =>
      rw [scan_columns_cons k b l (h b (by simp)), offset_after, ih k hl, ih (k + 1) hl]

theorem offset_after_le (d k : Nat) (l : List Nat) : offset_after d k l ≤ l.length := by
  induction l generalizing k with
  | nil => cases k <;> simp [offset_after]
  | cons b l ih =>
    cases k with
    | zero => simp [offset_after]
    | succ k =>
      have h1 := ih k
      have h2 := ih (k + 1)
      simp only [offset_after, List.length_cons]
      split <;> omega

theorem offset_after_few (d k : Nat) (l : List Nat) (h : l.count d < k) :
    offset_after d k l = l.length := by
  induction l generalizing k with
  | nil =>
    cases k with
    | zero => simp at h
    | succ k => rfl
  | cons b l ih =>
    cases k with
    | zero => simp at h
    | succ k =>
      by_cases hb : b = d
      · subst hb
        have : l.count b < k := by simpa using h
        simp [offset_after, ih k this]
      · have hcount : l.count d < k + 1 := by
          rw [List.count_cons_of_ne (fun hc => hb hc.symm)] at h
          exact h
        simp [offset_after, hb, ih (k + 1) hcount]

theorem offset_after_enough (d k : Nat) (l : List Nat) (hk : 1 ≤ k) (h : k ≤ l.count d) :
    (l.take (offset_after d k l)).count d = k ∧
    l[offset_after d k l - 1]? = some d := by
  induction l generalizing k with
  | nil => simp at h; omega
  | cons b l ih =>
    cases k with
    | zero => omega
    | succ k =>
      by_cases hb : b = d
      · subst hb
        have hcount : k ≤ l.count b := by simpa using h
        cases k with
        | zero => simp [offset_after]
        | succ k =>
          obtain ⟨h1, h2⟩ := ih (k + 1) (by omega) hcount
          have hpos : 1 ≤ offset_after b (k + 1) l := by
            cases l with
            | nil => simp at hcount
            | cons c l => simp only [offset_after]; split <;> omega
          refine ⟨by simp [offset_after, h1], ?_⟩
          simp only [offset_after, if_true, Nat.add_sub_cancel]
          obtain ⟨m, hm⟩ : ∃ m, offset_after b (k + 1) l = m + 1 := ⟨_, (Nat.sub_add_cancel hpos).symm⟩
          rw [hm] at h2 ⊢
          simpa using h2
      · have hcount : k + 1 ≤ l.count d := by
          rw [List.count_cons_of_ne (fun hc => hb hc.symm)] at h
          exact h
        obtain ⟨h1, h2⟩ := ih (k + 1) (by omega) hcount
        have hpos : 1 ≤ offset_after d (k + 1) l := by
          cases l with
          | nil => simp at hcount
          | cons c l => simp only [offset_after]; split <;> omega
        refine ⟨?_, ?_⟩
        · simp only [offset_after, hb, if_false, List.take_succ_cons]
          rw [List.count_cons_of_ne (fun hc => hb hc.symm), h1]
        · simp only [offset_after, hb, if_false, Nat.add_sub_cancel]
          obtain ⟨m, hm⟩ : ∃ m, offset_after d (k + 1) l = m + 1 := ⟨_, (Nat.sub_add_cancel hpos).symm⟩
          rw [hm] at h2 ⊢
          simpa using h2

theorem go_to_row_text (f : FILE) (r : Nat) (hbytes : ∀ b ∈ f.bytes, b < 255)
    (hrange : r < 18446744073709551616) :
    go_to_row f (r : Int) = { f with pos := offset_after 10 r f.bytes } := by
  rw [go_to_row_pos f r hrange, scan_rows_text r f.bytes hbytes]

/-- C27 (what the code does for a file holding the byte 255): on the file
byte 255, `,`, newline, `b`, `,`, newline, `go_to_row` with row 1 leaves the
cursor at offset 1, just after the byte 255, which the `char` typed read
takes for `EOF`; the offset just after the first newline is 3. -/
theorem go_to_row_stops_at_byte_255 :
    go_to_row high_byte_file 1 = { high_byte_file with pos := 1 } ∧
    offset_after 10 1 high_byte_file.bytes = 3 ∧
    1 ≤ newline_count high_byte_file.bytes := by
  decide

/-- C28, counterexample: on the rows `a,` and `b,c,` with the cursor at the
start of the first row, `go_to_column` with column 2 leaves the cursor at
offset 5, after `b,` in the second row; the newline that ends the first row
is at offset 2. -/
theorem go_to_column_crosses_the_newline :
    (go_to_column short_row_file 2).pos = 5 ∧
    short_row_file.bytes.take 5 = [97, 44, 10, 98, 44] := by
  decide

/-- C28, amended: for every file without a byte 255 ahead of the cursor,
every cursor position and every column `k`, `go_to_column` moves the cursor
just past the `k`-th comma that follows the starting position, or to the
end of the file when fewer than `k` commas follow.  Only commas are
counted: a newline does not stop the scan. -/
theorem go_to_column_counts_commas_only (f : FILE) (k : Nat)
    (hbytes : ∀ b ∈ f.bytes.drop f.pos, b < 255) (hrange : k < 18446744073709551616) :
    go_to_column f (k : Int)
      = { f with pos := f.pos + offset_after 44 k (f.bytes.drop f.pos) } := by
  rw [go_to_column_pos f k hrange, scan_columns_text k _ hbytes]

/-- Witness of amended C28 on the rows `a,` and `b,c,`: the second comma
after offset 0 ends at offset 5. -/
theorem go_to_column_counts_commas_only_witness :
    (∀ b ∈ short_row_file.bytes.drop short_row_file.pos, b < 255) ∧
    (2 : Nat) < 18446744073709551616 ∧
    go_to_column short_row_file ((2 : Nat) : Int)
      = { short_row_file with
          pos := short_row_file.pos
            + offset_after 44 2 (short_row_file.bytes.drop short_row_file.pos) } ∧
    offset_after 44 2 (short_row_file.bytes.drop short_row_file.pos) = 5 :=
  ⟨by decide, by decide,
    go_to_column_counts_commas_only short_row_file 2 (by decide) (by decide), by decide⟩

/-- C29, counterexample: the copy loop of `insert_row` and `delete_row` with
splice offset 0 on the file `a,b,` and newline writes all five bytes, not
none; with splice offset 3 on the rows `a,` and `b,` it writes two bytes,
not three. -/
theorem copy_before_is_not_the_first_bytes :
    (copy_before 0 0 [97, 44, 98, 44, 10]).1 = [97, 44, 98, 44, 10] ∧
    [97, 44, 98, 44, 10].take 0 = ([] : List Nat) ∧
    (copy_before 3 0 [97, 44, 10, 98, 44, 10]).1 = [97, 44] ∧
    [97, 44, 10, 98, 44, 10].take 3 = [97, 44, 10] := by
  decide

/-- C29, amended: for every file content without a byte 255 and every
splice offset `s` up to its length, the copy loop of `update_cell` writes
exactly the first `s` bytes; the copy loop of `insert_row` and `delete_row`
writes, for `s >= 1`, exactly the first `s - 1` bytes: it reads the byte
before the splice point and does not write it. -/
theorem copy_loops_write_the_bytes_before_the_splice (c : List Nat) (s : Nat)
    (hc : ∀ b ∈ c, b < 255) (hs : s ≤ c.length) :
    (copy_until s 0 c).1 = c.take s ∧
    (1 ≤ s → copy_before s 0 c = (c.take (s - 1), s)) := by
  constructor
  · have hsplit : c = c.take s ++ c.drop s := (List.take_append_drop s c).symm
    have hlen : (c.take s).length = s := by simp [hs]
    have := copy_until_prefix s (c.take s) (c.drop s) 0 (by omega)
      (fun b hb => hc b (List.mem_of_mem_take hb))
    rw [← hsplit] at this
    rw [this]
  · intro h1
    obtain ⟨pre, post, hsplit, hpre, _⟩ := list_split_at c (s - 1) 0 (by omega)
    have hx : c.getD (s - 1) 0 < 255 := by
      apply hc
      have hmem := List.mem_append_right pre (List.mem_cons_self (c.getD (s - 1) 0) post)
      rwa [← hsplit] at hmem
    have hpretext : ∀ b ∈ pre, b < 255 := fun b hb => hc b (by rw [hsplit]; simp [hb])
    have := copy_before_prefix s pre (c.getD (s - 1) 0) post 0 (by omega) hpretext hx
    have htake : c.take (s - 1) = pre := by
      rw [hsplit, ← hpre]
      simp
    rw [htake]
    rw [hsplit, this, hpre]
    congr 1
    omega

/-- Witness of amended C29 on the rows `a,` and `b,` with splice offset 3. -/
theorem copy_loops_write_the_bytes_before_the_splice_witness :
    (∀ b ∈ [97, 44, 10, 98, 44, 10], b < 255) ∧
    3 ≤ [97, 44, 10, 98, 44, 10].length ∧
    (copy_until 3 0 [97, 44, 10, 98, 44, 10]).1 = [97, 44, 10, 98, 44, 10].take 3 ∧
    (1 ≤ 3 → copy_before 3 0 [97, 44, 10, 98, 44, 10]
      = ([97, 44, 10, 98, 44, 10].take (3 - 1), 3)) :=
  ⟨by decide, by decide,
    copy_loops_write_the_bytes_before_the_splice [97, 44, 10, 98, 44, 10] 3 (by decide)
      (by decide)⟩

/-! ## Handle table after a failed fopen -/

/-- C31 (what the code does when fopen fails): with the slot free (no file
counted as open, flag 0) the handle table satisfies the invariant;
`open_csv_file` with a failing fopen returns the error value, leaves the
counter at 0 and leaves the flag of the slot set, so the invariant no longer
holds; the next `open_csv_file`, whatever fopen would give, passes the
counter test, finds no free flag and uses the index
`MAX_CONCURRENT_CSV_FILES`, outside the slot array, so it has no defined
result. -/
theorem open_csv_file_failed_fopen_keeps_flag (st : csv_module) (t0 : csv_file_t)
    (path path2 : String) (e : Int) (fopen_result : Except Int FILE)
    (hfiles : st.s_csv_files = [t0]) (hcount : st.s_number_of_open_files = 0)
    (hflags : st.s_free_indexes = [0]) :
    handle_table_invariant st ∧
    (open_csv_file st path (.error e)).map
        (fun r => (r.1, r.2.s_number_of_open_files, r.2.s_free_indexes)) = some (e, 0, [1]) ∧
    (open_csv_file st path (.error e)).map
        (fun r => decide (handle_table_invariant r.2)) = some false ∧
    ((open_csv_file st path (.error e)).bind
        fun r => open_csv_file r.2 path2 fopen_result) = none := by
  have hopen : open_csv_file st path (.error e)
      = some (e, { st with s_free_indexes := [1], errno := e,
                           s_csv_files := [{ t0 with p_file := none }] }) := by
    simp [open_csv_file, hfiles, hcount, hflags, MAX_CONCURRENT_CSV_FILES, find_free_index]
  refine ⟨?_, ?_, ?_, ?_⟩
  · simp [handle_table_invariant, occupied_count, hcount, hflags]
  · rw [hopen]; simp [hcount]
  · rw [hopen]
    simp [handle_table_invariant, occupied_count, hcount]
  · rw [hopen]
    simp [open_csv_file, hcount, MAX_CONCURRENT_CSV_FILES, find_free_index]

/-- Witness of C31: from the initial state of the module, a failing fopen
(`ENOENT`) and then an fopen that would succeed. -/
theorem open_csv_file_failed_fopen_keeps_flag_witness :
    initial_module.s_csv_files
      = [{ p_file := none, number_of_rows := 0, number_of_columns := 0,
           absolute_path := "" }] ∧
    initial_module.s_number_of_open_files = 0 ∧
    initial_module.s_free_indexes = [0] ∧
    handle_table_invariant initial_module ∧
    (open_csv_file initial_module "a.csv" (.error ENOENT)).map
        (fun r => (r.1, r.2.s_number_of_open_files, r.2.s_free_indexes))
      = some (ENOENT, 0, [1]) ∧
    (open_csv_file initial_module "a.csv" (.error ENOENT)).map
        (fun r => decide (handle_table_invariant r.2)) = some false ∧
    ((open_csv_file initial_module "a.csv" (.error ENOENT)).bind
        fun r => open_csv_file r.2 "b.csv" (.ok ⟨[], 0⟩)) = none :=
  ⟨by decide, by decide, by decide,
    open_csv_file_failed_fopen_keeps_flag initial_module
      { p_file := none, number_of_rows := 0, number_of_columns := 0, absolute_path := "" }
      "a.csv" "b.csv" ENOENT (.ok ⟨[], 0⟩) (by decide) (by decide) (by decide)⟩

/-! ## `get_cell_contents` on a cell past the data -/

theorem read_cell_nil (fuel : Nat) (content_string : List Nat) :
    read_cell fuel [] content_string = none := by
  induction fuel generalizing content_string with
  | zero => rfl
  | succ fuel ih => simp [read_cell, ih]

theorem read_cell_rounds_nil (n : Nat) (content_string : List Nat) :
    read_cell_rounds n [] content_string = content_string ++ List.replicate n 255 := by
  induction n generalizing content_string with
  | zero => simp [read_cell_rounds]
  | succ n ih =>
    have h255 : strcat content_string (to_char EOF) = content_string ++ [255] := by
      simp [strcat, to_char, EOF, to_byte]
    rw [read_cell_rounds, h255, ih, List.replicate_succ, List.append_assoc]
    rfl

theorem go_to_cell_past_table (t : csv_file_t) (records : List (List (List Nat)))
    (pos : Nat) (cell : cell_t)
    (hwf : well_formed t records) (hr : t.number_of_rows ≤ cell.row)
    (hrow : cell.row < 18446744073709551616) (hcol : cell.column < 18446744073709551616) :
    go_to_column (go_to_row ⟨table_bytes records, pos⟩ (cell.row : Int)) (cell.column : Int)
      = ⟨table_bytes records, (table_bytes records).length⟩ := by
  rw [go_to_row_past_table t records pos cell.row hwf hr hrow, go_to_column_pos _ _ hcol]
  simp [scan_columns_nil]

/-- C32 (what the code does for a cell whose row is at or past the row
count): on a well-formed table `get_cell_contents` never returns, whatever
the fuel: the cursor is at the end of the file when the read loop starts,
the loop tests the address of its buffer against `EOF` and so goes on at
the end of the file, and every round appends the byte 255, the `char`
value of `EOF`, to the output: after `n` rounds the output holds `n` bytes
255 after its old content. -/
theorem get_cell_contents_past_the_data_never_returns (st : csv_module) (h : Int)
    (t : csv_file_t) (records : List (List (List Nat))) (cell : cell_t)
    (content_string : List Nat) (fuel n : Nat)
    (hslot : slot_of st h = some t) (hwf : well_formed t records)
    (hr : t.number_of_rows ≤ cell.row)
    (hrow : cell.row < 18446744073709551616) (hcol : cell.column < 18446744073709551616) :
    get_cell_contents fuel st h content_string cell = none ∧
    t.p_file.map (fun f =>
        read_cell_rounds n
          ((go_to_column (go_to_row f cell.row) cell.column).bytes.drop
            (go_to_column (go_to_row f cell.row) cell.column).pos) content_string)
      = some (content_string ++ List.replicate n 255) := by
  obtain ⟨pos, hfile⟩ := p_file_of_bytes t _ hwf.1
  have hnav := go_to_cell_past_table t records pos cell hwf hr hrow hcol
  constructor
  · simp [get_cell_contents, hslot, csv_file_t.get_cell_contents, hfile, hnav, read_cell_nil]
  · rw [hfile, Option.map_some', hnav]
    simp [read_cell_rounds_nil]

/-- Witness of C32 on the table `a,b,` / `c,d,` / `e,f,`, cell (3, 0): no
result with fuel 1000, three bytes 255 in the buffer after three rounds. -/
theorem get_cell_contents_past_the_data_never_returns_witness :
    slot_of example_module 1 = some example_slot ∧
    well_formed example_slot example_records ∧
    get_cell_contents 1000 example_module 1 [] ⟨3, 0⟩ = none ∧
    example_slot.p_file.map (fun f =>
        read_cell_rounds 3
          ((go_to_column (go_to_row f ((3 : Nat) : Int)) ((0 : Nat) : Int)).bytes.drop
            (go_to_column (go_to_row f ((3 : Nat) : Int)) ((0 : Nat) : Int)).pos) [])
      = some [255, 255, 255] ∧
    255 ∉ table_bytes example_records :=
  ⟨by decide, by decide,
    (get_cell_contents_past_the_data_never_returns example_module 1 example_slot
      example_records ⟨3, 0⟩ [] 1000 3 (by decide) (by decide) (by decide) (by decide)
      (by decide)).1,
    (get_cell_contents_past_the_data_never_returns example_module 1 example_slot
      example_records ⟨3, 0⟩ [] 1000 3 (by decide) (by decide) (by decide) (by decide)
      (by decide)).2,
    by decide⟩

end Csv

namespace VectorTemplate

/-! ## Lemmas on the block -/

theorem take_set_succ {α : Type} (l : List α) (n : Nat) (x : α) (h : n < l.length) :
    (l.set n x).take (n + 1) = l.take n ++ [x] := by
  induction l generalizing n with
  | nil => simp at h
  | cons a l ih =>
    cases n with
    | zero => simp
    | succ n => simpa using ih n (by simpa using h)

theorem take_set_same {α : Type} (l : List α) (n : Nat) (x : α) :
    (l.set n x).take n = l.take n := by
  induction l generalizing n with
  | nil => simp
  | cons a l ih =>
    cases n with
    | zero => simp
    | succ n => simpa using ih n

theorem realloc_grow {α : Type} (data : List α) (n : Int) (junk : α)
    (h : data.length ≤ n.toNat) :
    realloc data n junk = data ++ List.replicate (n.toNat - data.length) junk := by
  unfold realloc
  apply List.take_of_length_le
  simp only [List.length_append, List.length_replicate]
  omega

theorem vector_push_result {α : Type} (v : vector_t α) (value junk : α) (realloc_ok : Bool)
    (hv : valid_vector v) (hcap : 1 ≤ v.capacity)
    (hgrow : v.size < v.capacity ∨ (realloc_ok = true ∧ v.capacity * 2 ≤ INT_MAX)) :
    ∃ (c : Int) (d : List α),
      vector_push (some v) value junk realloc_ok
        = some (0, some { size := v.size + 1, capacity := c,
                          data := d.set v.size.toNat value }) ∧
      v.size.toNat < d.length ∧ d.take v.size.toNat = v.data.take v.size.toNat ∧
      (d.length : Int) = c := by
  obtain ⟨h0, hle, hmax, hlen⟩ := hv
  by_cases hfull : v.size ≥ v.capacity
  · have hok : realloc_ok = true ∧ v.capacity * 2 ≤ INT_MAX := by
      rcases hgrow with h | h
      · omega
      · exact h
    obtain ⟨hok, hfit⟩ := hok
    have hmin : ¬ v.capacity * 2 < INT_MIN := by unfold INT_MIN; omega
    have hfit2 : ¬ INT_MAX < v.capacity * 2 := by omega
    have hre := realloc_grow v.data (v.capacity * 2) junk (by omega)
    refine ⟨v.capacity * 2, realloc v.data (v.capacity * 2) junk, ?_, ?_, ?_, ?_⟩
    · have hidx : v.size.toNat < (realloc v.data (v.capacity * 2) junk).length := by
        rw [hre]; simp only [List.length_append, List.length_replicate]; omega
      simp [vector_push, hfull, hok, h0, hidx, hmin, hfit2]
    · rw [hre]; simp only [List.length_append, List.length_replicate]; omega
    · rw [hre, List.take_append_of_le_length (by omega)]
    · rw [hre]; simp only [List.length_append, List.length_replicate]; omega
  · refine ⟨v.capacity, v.data, ?_, by omega, rfl, hlen⟩
    have hidx : v.size.toNat < v.data.length := by omega
    simp [vector_push, hfull, h0, hidx]

theorem vector_push_success_shape {α : Type} (v v2 : vector_t α) (value junk : α)
    (realloc_ok : Bool) (rv : Int) (hv : valid_vector v) (hcap : 1 ≤ v.capacity)
    (hpush : vector_push (some v) value junk realloc_ok = some (rv, some v2))
    (hok : rv ≠ -1) :
    rv = 0 ∧ ∃ (c : Int) (d : List α),
      v2 = { size := v.size + 1, capacity := c, data := d.set v.size.toNat value } ∧
      v.size.toNat < d.length ∧ d.take v.size.toNat = v.data.take v.size.toNat ∧
      (d.length : Int) = c := by
  have hgrow : v.size < v.capacity ∨ (realloc_ok = true ∧ v.capacity * 2 ≤ INT_MAX) := by
    by_contra hno
    have hfull : v.size ≥ v.capacity := by omega
    by_cases hfit : INT_MAX < v.capacity * 2
    · simp [vector_push, hfull, hfit] at hpush
    · have hmin : ¬ v.capacity * 2 < INT_MIN := by unfold INT_MIN; omega
      have hre : realloc_ok = false := by
        cases realloc_ok with
        | false => rfl
        | true => exact absurd (Or.inr ⟨rfl, by omega⟩) hno
      simp [vector_push, hfull, hfit, hmin, hre] at hpush
      exact absurd hpush.1.symm hok
  obtain ⟨c, d, hres, h1, h2, h3⟩ := vector_push_result v value junk realloc_ok hv hcap hgrow
  rw [hres] at hpush
  simp only [Option.some.injEq, Prod.mk.injEq] at hpush
  exact ⟨hpush.1.symm, c, d, hpush.2.symm, h1, h2, h3⟩

theorem getElem?_of_take {α : Type} (d l : List α) (n i : Nat) (hi : i < n)
    (h : d.take n = l.take n) : d[i]? = l[i]? := by
  have h1 : (d.take n)[i]? = (l.take n)[i]? := by rw [h]
  simpa [List.getElem?_take, hi] using h1

/-! ## Reading a cell -/

/-- C24: on a vector object in a consistent state and a non-null `out`,
`get` returns -1 with `out` and the vector as they were when the index is
negative or at least the size; for every other index it returns 0, `out`
holds the element at that index and the vector is as it was. -/
theorem vector_get_checks_the_index {α : Type} (v : vector_t α) (index : Int) (o : α)
    (hv : valid_vector v) :
    (index < 0 ∨ index ≥ v.size →
      vector_get (some v) index (some o) = some (-1, some o, some v)) ∧
    (0 ≤ index ∧ index < v.size →
      vector_get (some v) index (some o) = some (0, (elements v)[index.toNat]?, some v) ∧
      ((elements v)[index.toNat]?).isSome = true) := by
  obtain ⟨h0, hle, hmax, hlen⟩ := hv
  constructor
  · intro hout
    simp [vector_get, hout]
  · rintro ⟨hi0, hi⟩
    have hin : ¬ (index < 0 ∨ index ≥ v.size) := by omega
    have hidx : index.toNat < v.data.length := by omega
    have hsz : index.toNat < v.size.toNat := by omega
    have hcell : (elements v)[index.toNat]? = some (v.data.get ⟨index.toNat, hidx⟩) := by
      unfold elements
      rw [List.getElem?_take, if_pos hsz, List.getElem?_eq_getElem hidx]
      rfl
    have hdata : v.data[index.toNat]? = some (v.data.get ⟨index.toNat, hidx⟩) := by
      rw [List.getElem?_eq_getElem hidx]; rfl
    refine ⟨?_, by rw [hcell]; rfl⟩
    rw [hcell]
    unfold vector_get
    simp only [hin, if_false, hdata]

theorem vector_get_checks_the_index_witness :
    valid_vector roomy_vector ∧
    vector_get (some roomy_vector) 2 (some 5) = some (-1, some 5, some roomy_vector) ∧
    vector_get (some roomy_vector) (-1) (some 5) = some (-1, some 5, some roomy_vector) ∧
    vector_get (some roomy_vector) 1 (some 5) = some (0, some 8, some roomy_vector) :=
  ⟨by decide,
   (vector_get_checks_the_index roomy_vector 2 5 (by decide)).1 (by decide),
   (vector_get_checks_the_index roomy_vector (-1) 5 (by decide)).1 (by decide),
   ((vector_get_checks_the_index roomy_vector 1 5 (by decide)).2 (by decide)).1⟩

/-! ## Adding and removing at the back -/

/-- C25: on a vector object in a consistent state with size `s` and capacity
at least 1, a push that does not fail returns 0, makes the size `s + 1`,
makes `get` at index `s` yield the pushed value and leaves what `get` yields
at every index below `s` as it was, whether or not the block was grown. -/
theorem vector_push_appends_at_the_back {α : Type} (v v2 : vector_t α) (value junk o : α)
    (realloc_ok : Bool) (rv : Int) (hv : valid_vector v) (hcap : 1 ≤ v.capacity)
    (hpush : vector_push (some v) value junk realloc_ok = some (rv, some v2))
    (hok : rv ≠ -1) :
    rv = 0 ∧ v2.size = v.size + 1 ∧
    got (vector_get (some v2) v.size (some o)) = some (0, some value) ∧
    (∀ i : Int, 0 ≤ i → i < v.size →
      got (vector_get (some v2) i (some o)) = got (vector_get (some v) i (some o))) ∧
    elements v2 = elements v ++ [value] := by
  obtain ⟨hrv, c, d, hv2, hlt, htake, hlen⟩ :=
    vector_push_success_shape v v2 value junk realloc_ok rv hv hcap hpush hok
  obtain ⟨h0, hle, hmax, hdata⟩ := hv
  subst hv2
  refine ⟨hrv, rfl, ?_, ?_, ?_⟩
  · have hin : ¬ (v.size < 0 ∨ v.size ≥ v.size + 1) := by omega
    have hcell : (d.set v.size.toNat value)[v.size.toNat]? = some value := by
      rw [List.getElem?_set_self hlt]
    have hneg : ¬ v.size < 0 := by omega
    simp [got, vector_get, hneg, hcell]
  · intro i hi0 hi
    have hin2 : ¬ (i < 0 ∨ i ≥ v.size + 1) := by omega
    have hin : ¬ (i < 0 ∨ i ≥ v.size) := by omega
    have hne : v.size.toNat ≠ i.toNat := by omega
    have hcell : (d.set v.size.toNat value)[i.toNat]? = v.data[i.toNat]? := by
      rw [List.getElem?_set_ne hne]
      exact getElem?_of_take d v.data v.size.toNat i.toNat (by omega) htake
    have hidx : i.toNat < v.data.length := by omega
    have hsome : v.data[i.toNat]? = some (v.data.get ⟨i.toNat, hidx⟩) := by
      rw [List.getElem?_eq_getElem hidx]; rfl
    simp [got, vector_get, hin, hin2, hcell, hsome]
  · have hs : (v.size + 1).toNat = v.size.toNat + 1 := by omega
    show (d.set v.size.toNat value).take (v.size + 1).toNat = v.data.take v.size.toNat ++ [value]
    rw [hs, take_set_succ d _ value hlt, htake]

theorem vector_push_appends_at_the_back_witness :
    valid_vector full_vector ∧ 1 ≤ full_vector.capacity ∧
    vector_push (some full_vector) 9 0 true
      = some (0, some { size := 3, capacity := 4, data := [7, 8, 9, 0] }) ∧
    (0 : Int) = 0 ∧ (3 : Int) = full_vector.size + 1 ∧
    got (vector_get (some { size := 3, capacity := 4, data := [7, 8, 9, 0] })
      full_vector.size (some 5)) = some (0, some 9) ∧
    (∀ i : Int, 0 ≤ i → i < full_vector.size →
      got (vector_get (some { size := 3, capacity := 4, data := [7, 8, 9, 0] }) i (some 5))
        = got (vector_get (some full_vector) i (some 5))) ∧
    elements ({ size := 3, capacity := 4, data := [7, 8, 9, 0] } : vector_t Nat)
      = elements full_vector ++ [9] :=
  ⟨by decide, by decide, rfl,
   vector_push_appends_at_the_back full_vector { size := 3, capacity := 4, data := [7, 8, 9, 0] }
     9 0 5 true 0 (by decide) (by decide) rfl (by decide)⟩

/-- C26: pop on a vector of size 0 returns -1 and changes nothing; on a
vector of size `s > 0` it returns 0, makes the size `s - 1` and leaves the
block, hence the elements below `s - 1`, as it was; and after a push that
did not fail, pop returns 0 and gives back the size and the elements the
vector had before the push. -/
theorem vector_pop_removes_the_last {α : Type} (v : vector_t α) :
    (v.size = 0 → vector_pop (some v) = (-1, some v)) ∧
    (0 < v.size →
      vector_pop (some v) = (0, some { v with size := v.size - 1 }) ∧
      elements { v with size := v.size - 1 } = (elements v).take (v.size.toNat - 1)) ∧
    (∀ (v2 : vector_t α) (value junk : α) (realloc_ok : Bool) (rv : Int),
      valid_vector v → 1 ≤ v.capacity →
      vector_push (some v) value junk realloc_ok = some (rv, some v2) → rv ≠ -1 →
      (vector_pop (some v2)).1 = 0 ∧
      (vector_pop (some v2)).2.map (fun w => (w.size, elements w))
        = some (v.size, elements v)) := by
  refine ⟨?_, ?_, ?_⟩
  · intro h
    simp [vector_pop, h]
  · intro h
    have hne : v.size ≠ 0 := by omega
    refine ⟨by simp [vector_pop, hne], ?_⟩
    show v.data.take (v.size - 1).toNat = (v.data.take v.size.toNat).take (v.size.toNat - 1)
    have hs : (v.size - 1).toNat = v.size.toNat - 1 := by omega
    rw [hs, List.take_take]
    congr 1
    omega
  · intro v2 value junk realloc_ok rv hv hcap hpush hok
    obtain ⟨hrv, c, d, hv2, hlt, htake, hlen⟩ :=
      vector_push_success_shape v v2 value junk realloc_ok rv hv hcap hpush hok
    obtain ⟨h0, hle, hmax, hdata⟩ := hv
    subst hv2
    have hne : v.size + 1 ≠ 0 := by omega
    refine ⟨by simp [vector_pop, hne], ?_⟩
    simp only [vector_pop, hne, if_false, Option.map_some', Option.some.injEq, Prod.mk.injEq]
    refine ⟨by omega, ?_⟩
    show (d.set v.size.toNat value).take (v.size + 1 - 1).toNat = v.data.take v.size.toNat
    have hs : (v.size + 1 - 1).toNat = v.size.toNat := by omega
    rw [hs, take_set_same, htake]

theorem vector_pop_removes_the_last_witness :
    vector_pop (some ({ size := 0, capacity := 2, data := [7, 8] } : vector_t Nat))
      = (-1, some { size := 0, capacity := 2, data := [7, 8] }) ∧
    vector_pop (some full_vector) = (0, some { size := 1, capacity := 2, data := [7, 8] }) ∧
    valid_vector full_vector ∧
    vector_push (some full_vector) 9 0 true
      = some (0, some { size := 3, capacity := 4, data := [7, 8, 9, 0] }) ∧
    (vector_pop (some ({ size := 3, capacity := 4, data := [7, 8, 9, 0] } : vector_t Nat))).2.map
      (fun w => (w.size, elements w)) = some (2, [7, 8]) :=
  ⟨(vector_pop_removes_the_last _).1 rfl,
   ((vector_pop_removes_the_last full_vector).2.1 (by decide)).1,
   by decide, rfl,
   ((vector_pop_removes_the_last full_vector).2.2 _ 9 0 true 0 (by decide) (by decide)
     rfl (by decide)).2⟩

/-! ## Size and capacity along a sequence of calls -/

theorem vector_push_keeps_valid {α : Type} (v v2 : vector_t α) (value junk : α)
    (realloc_ok : Bool) (rv : Int) (hv : valid_vector v) (hcap : 1 ≤ v.capacity)
    (hpush : vector_push (some v) value junk realloc_ok = some (rv, some v2))
    (hok : rv ≠ -1) :
    valid_vector v2 ∧ v2.capacity = capacity_at_write v ∧ v.size < capacity_at_write v := by
  obtain ⟨h0, hle, hmax, hlen⟩ := hv
  have hv : valid_vector v := ⟨h0, hle, hmax, hlen⟩
  by_cases hfull : v.size ≥ v.capacity
  · by_cases hfit : INT_MAX < v.capacity * 2
    · simp [vector_push, hfull, hfit] at hpush
    · have hmin : ¬ v.capacity * 2 < INT_MIN := by unfold INT_MIN; omega
      cases realloc_ok with
      | false =>
        simp [vector_push, hfull, hfit, hmin] at hpush
        exact absurd hpush.1.symm hok
      | true =>
        have hre := realloc_grow v.data (v.capacity * 2) junk (by omega)
        have hrelen : ((realloc v.data (v.capacity * 2) junk).length : Int)
            = v.capacity * 2 := by
          rw [hre]; simp only [List.length_append, List.length_replicate]; omega
        have hidx : v.size.toNat < (realloc v.data (v.capacity * 2) junk).length := by omega
        simp [vector_push, hfull, hfit, hmin, h0, hidx] at hpush
        obtain ⟨_, hv2⟩ := hpush
        subst hv2
        refine ⟨⟨by show 0 ≤ v.size + 1; omega, by show v.size + 1 ≤ v.capacity * 2; omega,
          by show v.capacity * 2 ≤ INT_MAX; omega, ?_⟩, ?_, ?_⟩
        · show ((List.set _ _ _).length : Int) = v.capacity * 2
          rw [List.length_set]; exact hrelen
        · simp [capacity_at_write, hfull]
        · simp only [capacity_at_write, hfull, if_true]; omega
  · have hidx : v.size.toNat < v.data.length := by omega
    simp [vector_push, hfull, h0, hidx] at hpush
    obtain ⟨_, hv2⟩ := hpush
    subst hv2
    refine ⟨⟨by show 0 ≤ v.size + 1; omega, by show v.size + 1 ≤ v.capacity; omega, hmax, ?_⟩,
      ?_, ?_⟩
    · show ((List.set _ _ _).length : Int) = v.capacity
      rw [List.length_set]; exact hlen
    · simp [capacity_at_write, hfull]
    · simp only [capacity_at_write, hfull, if_false]; omega

theorem vector_pop_keeps_valid {α : Type} (v : vector_t α) (hv : valid_vector v) :
    ((vector_pop (some v)).2.map fun w => decide (valid_vector w ∧ w.capacity = v.capacity))
      = some true := by
  obtain ⟨h0, hle, hmax, hlen⟩ := hv
  by_cases hz : v.size = 0
  · simp [vector_pop, hz, valid_vector, hmax, hlen]
    omega
  · simp only [vector_pop, hz, if_false, Option.map_some', Option.some.injEq, decide_eq_true_eq]
    exact ⟨⟨by show 0 ≤ v.size - 1; omega, by show v.size - 1 ≤ v.capacity; omega, hmax, hlen⟩,
      trivial⟩

/-- C33 (what the code does for an initial capacity of 0): `create` with
capacity 0 hands out a vector of size 0 and capacity 0, which satisfies
`0 <= size <= capacity`; on it `push` finds the vector full, doubles the
capacity to 0, and when realloc gives a block writes `data[0]`, an index
that is not below the capacity 0 in force: the write is outside the block
and the call has no defined result.  When realloc gives no block the push
returns -1.  No push on this vector succeeds within its block. -/
theorem vector_of_capacity_zero_is_written_outside_its_block {α : Type} (value junk : α) :
    vector_create 0 junk true = some zero_capacity_vector ∧
    valid_vector (zero_capacity_vector : vector_t α) ∧
    capacity_at_write (zero_capacity_vector : vector_t α) = 0 ∧
    ¬ ((zero_capacity_vector : vector_t α).size
        < capacity_at_write (zero_capacity_vector : vector_t α)) ∧
    vector_push (some zero_capacity_vector) value junk true = none ∧
    vector_push (some zero_capacity_vector) value junk false
      = some (-1, some zero_capacity_vector) := by
  refine ⟨rfl, ?_, ?_, ?_, ?_, ?_⟩
  · simp [valid_vector, zero_capacity_vector, INT_MAX]
  · simp [capacity_at_write, zero_capacity_vector]
  · simp [capacity_at_write, zero_capacity_vector]
  · simp [vector_push, zero_capacity_vector, realloc, INT_MIN, INT_MAX]
  · simp [vector_push, zero_capacity_vector, INT_MIN, INT_MAX]

end VectorTemplate

namespace ClassTemplate

/-- C34: whatever the object held before, after `ParentClass_ctor` a call of
`example_method` on it runs `example_method_` and prints
"Default Method Ran"; after `ChildClass_ctor` a call of `example_method` on
the object goes through the table the child constructor stored in the
parent part, runs `example_method_override_` and prints
"Overriden Default Method Ran", not the default text; `main` exits with
status 0 after printing the default text, the text of the override and the
text of the child method, in that order. -/
theorem example_method_dispatches_on_the_constructor (p : ParentClass_t) (c : ChildClass_t)
    (example_int example_int_child : Int) (example_double example_double_child : Rat)
    (stdout : List String) :
    (as_parent (.parent_object (ParentClass_ctor p example_int example_double))).vptr.map
        (fun vtbl => vtbl.example_method) = some method.example_method_ ∧
    example_method (.parent_object (ParentClass_ctor p example_int example_double)) stdout
      = some (stdout ++ ["Default Method Ran\n"]) ∧
    (as_parent (.child_object (ChildClass_ctor c example_int example_int_child example_double
        example_double_child))).vptr.map (fun vtbl => vtbl.example_method)
      = some method.example_method_override_ ∧
    example_method (.child_object (ChildClass_ctor c example_int example_int_child
        example_double example_double_child)) stdout
      = some (stdout ++ ["Overriden Default Method Ran\n"]) ∧
    example_method (.child_object (ChildClass_ctor c example_int example_int_child
        example_double example_double_child)) stdout
      ≠ some (stdout ++ ["Default Method Ran\n"]) ∧
    main p c = some (0, ["Default Method Ran\n", "Overriden Default Method Ran\n",
      "Child Method Ran\n"]) := by
  have hchild : example_method (.child_object (ChildClass_ctor c example_int
      example_int_child example_double example_double_child)) stdout
      = some (stdout ++ ["Overriden Default Method Ran\n"]) := rfl
  refine ⟨rfl, rfl, rfl, hchild, ?_, rfl⟩
  rw [hchild]
  intro h
  have h2 := List.append_cancel_left (Option.some.inj h)
  simp at h2

end ClassTemplate
